import Mathlib

/-!
YourDigitalClone: the response capture and delivery pipeline of `src/core/bot.js`.

A shallow embedding of the parts of `bot.js` that decide the pipeline's
behaviour: the loading classifier, the output cleanup, the in-page stability
wait, prompt delivery, the turn with its recovery branch, the persona pin and
the WhatsApp message handler.

Strings.  A JavaScript string is a sequence of UTF-16 code units; `length`,
`includes`, `trim` and the regular expressions of the file (none has the `u`
flag) all work on code units.  A string is therefore a `List Nat` of code units.
-/

namespace DigitalClone

/-- A JavaScript string: its UTF-16 code units. -/
abbrev JSString := List Nat

/-- The UTF-16 code units of one Unicode scalar value. -/
def utf16Unit (c : Char) : List Nat :=
  if c.toNat < 0x10000 then [c.toNat]
  else [0xD800 + (c.toNat - 0x10000) / 0x400, 0xDC00 + (c.toNat - 0x10000) % 0x400]

/-- The JavaScript string written as the given literal. -/
def js (s : String) : JSString :=
  s.toList.flatMap utf16Unit

/-- The class `\s` of a JavaScript regular expression, which is also the set of
units removed by `String.prototype.trim` (WhiteSpace and LineTerminator). -/
def isWhiteSpace (c : Nat) : Bool :=
  c == 0x09 || c == 0x0A || c == 0x0B || c == 0x0C || c == 0x0D || c == 0x20 ||
  c == 0xA0 || c == 0x1680 || (0x2000 ≤ c && c ≤ 0x200A) || c == 0x2028 ||
  c == 0x2029 || c == 0x202F || c == 0x205F || c == 0x3000 || c == 0xFEFF

/-- The class `\d` of a JavaScript regular expression: the ASCII digits. -/
def isDigit (c : Nat) : Bool :=
  0x30 ≤ c && c ≤ 0x39

/-- `String.prototype.trim`. -/
def trim (s : JSString) : JSString :=
  ((s.dropWhile isWhiteSpace).reverse.dropWhile isWhiteSpace).reverse

/-- Lower-case form of one code unit.  `A`..`Z` map to `a`..`z`; U+0130 (capital
I with dot above) maps to the two units U+0069 U+0307, the only unconditional
mapping of `toLowerCase` that changes the length; U+212A (Kelvin sign) maps to
`k`.  Every other cased letter is a non-ASCII unit whose lower-case form is again
one non-ASCII unit; none of the tests of this file tells such units apart, and
they are left as they are. -/
def lowerUnit (c : Nat) : List Nat :=
  if 0x41 ≤ c ∧ c ≤ 0x5A then [c + 0x20]
  else if c = 0x130 then [0x69, 0x307]
  else if c = 0x212A then [0x6B]
  else [c]

/-- `String.prototype.toLowerCase`. -/
def toLowerCase (s : JSString) : JSString :=
  s.flatMap lowerUnit

/-- `s.includes(w)`: `w` occurs in `s` as a contiguous run of units. -/
def includes : JSString → JSString → Bool
  | [], w => w.isEmpty
  | c :: cs, w => w.isPrefixOf (c :: cs) || includes cs w

/-- The ellipsis glyph U+2026. -/
def ellipsis : Nat := 0x2026

/-- The full stop `.`. -/
def dot : Nat := 0x2E

/-! ## The loading classifier (`buildLoadingCheck`, and the two copies of
`isLoading` inlined in `waitForStableResponse` and `waitForFirstNonLoading`;
the three bodies are the same text) -/

/-- The constant `minAcceptLen` of `isLoading`. -/
def minAcceptLen : Nat := 50

/-- The array `loadingWords` of `isLoading`, in source order.  The last entry is
written with a capital `I` in the source. -/
def loadingWords : List JSString :=
  [js "analyzing", js "parsing", js "retrieving", js "searching", js "thinking",
   js "preparing", js "loading", js "gathering", js "scanning", js "finalizing",
   js "prioritizing", js "determining", js "processing", js "reading", js "sources",
   js "facts", js "examining", js "specifics", js "interpreting", js "implications",
   js "Inquiry"]

/-- The test `/\.{3}|…$/.test(t)`: three consecutive full stops anywhere, or an
ellipsis glyph as the last unit (`$` without the `m` flag is the end of input). -/
def hasEllipses (t : JSString) : Bool :=
  includes t [dot, dot, dot] || t.getLast? == some ellipsis

/-- The function `isLoading(text)`. -/
def isLoading (text : JSString) : Bool :=
  if text.isEmpty then true
  else
    let t := toLowerCase (trim text)
    let short := decide (t.length < minAcceptLen)
    let mentions := loadingWords.any (fun w => includes t w)
    short || hasEllipses t || mentions

/-! ## Output cleanup (`cleanResponse` in `getResponseFromNotebookLM`)

Each `replace` has the `g` flag: the input is scanned from the left, at every
position the pattern is tried, a match is replaced and the scan goes on behind
it.  None of the five patterns looks behind the position it is tried at and
none matches the empty string, so a pattern is a function of the remaining
input giving the replacement text and what is left behind the match. -/

/-- A pattern tried at the head of the remaining input: the text that replaces
the match, and the input behind the match. -/
abbrev Pattern := JSString → Option (JSString × JSString)

/-- Replacement with the `g` flag; `fuel` bounds the number of positions. -/
def replaceAllFuel (p : Pattern) : Nat → JSString → JSString
  | 0, s => s
  | fuel + 1, s =>
    match p s with
    | some (rep, rest) => rep ++ replaceAllFuel p fuel rest
    | none =>
      match s with
      | [] => []
      | c :: cs => c :: replaceAllFuel p fuel cs

/-- Replacement with the `g` flag: `s.replace(/p/g, rep)`. -/
def replaceAll (p : Pattern) (s : JSString) : JSString :=
  replaceAllFuel p (s.length + 1) s

/-- The longest run of digits at the head, and the rest: `\d*`. -/
def spanDigits (s : JSString) : JSString × JSString :=
  s.span isDigit

/-- The input behind the longest run of white space at the head: `\s*`. -/
def skipSpaces (s : JSString) : JSString :=
  s.dropWhile isWhiteSpace

/-- Pattern `\[(\d+)\]`, replaced by the empty string. -/
def citationPattern : Pattern := fun s =>
  match s with
  | 0x5B :: r =>
    match spanDigits r with
    | (_ :: _, 0x5D :: rest) => some ([], rest)
    | _ => none
  | _ => none

/-- The class `[\s\.,;:!?-]`. -/
def isSeparator (c : Nat) : Bool :=
  isWhiteSpace c || c == 0x2E || c == 0x2C || c == 0x3B || c == 0x3A || c == 0x21 ||
  c == 0x3F || c == 0x2D

/-- Pattern `([\s\.,;:!?-])\d+\s*$`, replaced by `$1`. -/
def trailingNumberPattern : Pattern := fun s =>
  match s with
  | c :: r =>
    if isSeparator c then
      match spanDigits r with
      | (_ :: _, r2) => if (skipSpaces r2).isEmpty then some ([c], []) else none
      | _ => none
    else none
  | [] => none

/-- The tail `(\s+\d+)*\s*$` of the third pattern: the rest of the input is
made of runs of white space, each but possibly the last followed by digits. -/
def numberRunsToEnd : Nat → JSString → Bool
  | 0, _ => false
  | fuel + 1, s =>
    match s.span isWhiteSpace with
    | (_, []) => true
    | ([], _ :: _) => false
    | (_ :: _, r) =>
      match spanDigits r with
      | (_ :: _, r2) => numberRunsToEnd fuel r2
      | ([], _) => false

/-- Pattern `\s+\d+(\s+\d+)*\s*$`, replaced by the empty string. -/
def trailingNumbersPattern : Pattern := fun s =>
  match s.span isWhiteSpace with
  | (_ :: _, r) =>
    match spanDigits r with
    | (_ :: _, r2) => if numberRunsToEnd (r2.length + 1) r2 then some ([], []) else none
    | ([], _) => none
  | ([], _) => none

/-- The groups `(\d+\.)*` at the head of the input: what is left behind them. -/
def skipNumberDots : Nat → JSString → JSString
  | 0, s => s
  | fuel + 1, s =>
    match spanDigits s with
    | (_ :: _, 0x2E :: rest) => skipNumberDots fuel rest
    | _ => s

/-- Pattern `(\d+\.)+\s*`, replaced by the empty string. -/
def numberedPattern : Pattern := fun s =>
  match spanDigits s with
  | (_ :: _, 0x2E :: rest) => some ([], skipSpaces (skipNumberDots rest.length rest))
  | _ => none

/-- Pattern `\s+`, replaced by one space. -/
def spacesPattern : Pattern := fun s =>
  match s with
  | c :: r => if isWhiteSpace c then some ([0x20], skipSpaces r) else none
  | [] => none

/-- The chain of replacements and the final `trim` that produce `cleanResponse`. -/
def cleanResponse (response : JSString) : JSString :=
  trim (replaceAll spacesPattern (replaceAll numberedPattern (replaceAll trailingNumbersPattern
    (replaceAll trailingNumberPattern (replaceAll citationPattern response)))))

/-! ## The document

The page is seen through four selectors: `div.chat-message-pair`,
`chat-message.individual-message` below a pair, `chat-message`, and the text
containers `.message-text-content` and `mat-card-content` below a message.  A
document is the sequence of its pairs and of the messages outside any pair, in
document order. -/

/-- A `chat-message` element. -/
structure ChatMessage where
  /-- identity of the element, kept while the element lives -/
  id : Nat
  /-- the element carries the class `individual-message` -/
  individual : Bool
  /-- `innerText` of its first `.message-text-content` descendant, if there is one -/
  main : Option JSString
  /-- `innerText` of its first `mat-card-content` descendant, if there is one -/
  card : Option JSString
  /-- `innerText` of the element itself -/
  inner : JSString
  deriving DecidableEq, Repr

/-- A top-level item of the chat list. -/
inductive Node where
  /-- a `div.chat-message-pair` with the `chat-message` elements below it -/
  | pair (msgs : List ChatMessage)
  /-- a `chat-message` outside every pair -/
  | loose (m : ChatMessage)
  deriving DecidableEq, Repr

/-- A state of the document. -/
structure Dom where
  /-- the chat list in document order -/
  nodes : List Node
  /-- elements that were removed from the document and are still referenced -/
  detached : List ChatMessage
  deriving DecidableEq, Repr

/-- The messages below one node. -/
def Node.messages : Node → List ChatMessage
  | .pair msgs => msgs
  | .loose m => [m]

/-- The result of `querySelectorAll('div.chat-message-pair')`: each pair as the list of its messages. -/
def Dom.pairs (d : Dom) : List (List ChatMessage) :=
  d.nodes.filterMap (fun n => match n with | .pair msgs => some msgs | .loose _ => none)

/-- The result of `pair.querySelectorAll('chat-message.individual-message')`. -/
def individuals (pair : List ChatMessage) : List ChatMessage :=
  pair.filter (fun m => m.individual)

/-- The result of `querySelectorAll('div.chat-message-pair chat-message.individual-message')`. -/
def Dom.pairIndividuals (d : Dom) : List ChatMessage :=
  d.pairs.flatMap individuals

/-- The result of `querySelectorAll('chat-message')`. -/
def Dom.chatMessages (d : Dom) : List ChatMessage :=
  d.nodes.flatMap Node.messages

/-- The list both waits compare with `prevCount`:
`pairs.length ? pairIndividuals : chatMessages`. -/
def Dom.entryList (d : Dom) : List ChatMessage :=
  if d.pairs.length ≠ 0 then d.pairIndividuals else d.chatMessages

/-- The element with the given identity as the document now holds it. -/
def Dom.find (d : Dom) (id : Nat) : Option ChatMessage :=
  (d.chatMessages ++ d.detached).find? (fun m => m.id == id)

/-- The result of `countMessages`. -/
structure Counts where
  pairCount : Nat
  msgCount : Nat
  deriving DecidableEq, Repr

/-- The function evaluated in the page by `countMessages`:
`msgCount` is `pairIndividuals.length || chatMessages.length`. -/
def countOf (d : Dom) : Counts :=
  { pairCount := d.pairs.length
    msgCount := if d.pairIndividuals.length ≠ 0 then d.pairIndividuals.length
                else d.chatMessages.length }

/-- Entries were only appended between two states of the document: the
elements each of the two selectors of `countMessages` gave before are, in the
same order, the first of those it gives afterwards.  An element is told by its
identity; its text may have changed in between. -/
def appendedTo (d1 d2 : Dom) : Bool :=
  (d1.pairIndividuals.map (fun m => m.id)).isPrefixOf (d2.pairIndividuals.map (fun m => m.id)) &&
  (d1.chatMessages.map (fun m => m.id)).isPrefixOf (d2.chatMessages.map (fun m => m.id))

/-- Entries were only appended and `countMessages` did not change selector: the
earlier state already had an individual message below a pair, or the later
state still has none. -/
def grownTo (d1 d2 : Dom) : Bool :=
  appendedTo d1 d2 && (!d1.pairIndividuals.isEmpty || d2.pairIndividuals.isEmpty)

/-- The helper `getTextFromMessage(el)` of `waitForStableResponse`. -/
def getTextFromMessage (el : Option ChatMessage) : JSString :=
  match el with
  | none => []
  | some m =>
    match m.main with
    | some (c :: cs) => trim (c :: cs)
    | _ =>
      match m.card with
      | some (c :: cs) => trim (c :: cs)
      | _ => trim m.inner

/-- The helper `getLastMessageText()` of `waitForFirstNonLoading`. -/
def getLastMessageText (d : Dom) : JSString :=
  let flat : JSString :=
    match d.chatMessages.getLast? with
    | none => []
    | some last =>
      match last.main with
      | some (c :: cs) => c :: cs
      | _ => last.inner
  match d.pairs.getLast? with
  | some lastPair =>
    match (individuals lastPair).getLast? with
    | some el =>
      match el.main with
      | some t => t
      | none => el.inner
    | none => flat
  | none => flat

/-! ## The in-page waits

Both waits run inside the page and are driven by callbacks: the body observer
(child-list mutations below `body`), the content observer (mutations of the
observed text container) and the interval timer.  A run of a wait is the
sequence of callbacks the page delivers, each with the clock reading and the
document it sees; the promise settles at the first `resolve`.  The readings of
`Date.now()` made within one callback, and the two made when the promise body
starts, are one value. -/

/-- Which callback fires. -/
inductive Callback where
  | bodyMutation
  | contentMutation
  | tick
  deriving DecidableEq, Repr

/-- One callback, with `Date.now()` and the document at that moment. -/
structure PageEvent where
  kind : Callback
  now : Int
  dom : Dom
  deriving DecidableEq, Repr

/-- A settled wait: the text passed to `resolve` and the clock reading then. -/
structure Resolution where
  text : JSString
  time : Int
  deriving DecidableEq, Repr

/-- The mutable variables of the promise body of `waitForStableResponse`. -/
structure StableState where
  /-- identity of `target`, if set -/
  target : Option Nat
  lastText : JSString
  lastChange : Int
  /-- the content observer has been attached -/
  observing : Bool
  deriving DecidableEq, Repr

/-- The state after the synchronous part of the promise body: `target` is the
last entry when the list is already longer than `prevCount`. -/
def stableInit (prevCount : Nat) (start : Int) (dom0 : Dom) : StableState :=
  { target := if dom0.entryList.length > prevCount then
                dom0.entryList.getLast?.map (fun m => m.id) else none
    lastText := []
    lastChange := start
    observing := false }

/-- The branch taken by the body observer and by the timer when the list has
grown beyond `prevCount`: retarget to the last entry. -/
def retarget (prevCount : Nat) (e : PageEvent) (st : StableState) (attach : Bool) : StableState :=
  if e.dom.entryList.length > prevCount then
    { target := e.dom.entryList.getLast?.map (fun m => m.id)
      lastText := getTextFromMessage e.dom.entryList.getLast?
      lastChange := e.now
      observing := st.observing || attach }
  else st

/-- One callback of `waitForStableResponse`: the resolution it makes, if any,
and the variables afterwards. -/
def stableStep (prevCount : Nat) (stableMs maxMs start : Int) (st : StableState)
    (e : PageEvent) : Option Resolution × StableState :=
  match e.kind with
  | .bodyMutation => (none, retarget prevCount e st false)
  | .contentMutation =>
    (none, if st.observing then { st with lastChange := e.now } else st)
  | .tick =>
    match st.target with
    | none =>
      let st1 := retarget prevCount e st true
      if e.now - start > maxMs then
        (some { text := match st1.target with
                        | some id => getTextFromMessage (e.dom.find id)
                        | none => []
                time := e.now }, st1)
      else (none, st1)
    | some id =>
      -- attachContentObserver(); checkStable()
      let nowText := getTextFromMessage (e.dom.find id)
      let st1 : StableState :=
        if nowText ≠ st.lastText then
          { st with lastText := nowText, lastChange := e.now, observing := true }
        else { st with observing := true }
      let stableFor := e.now - st1.lastChange
      if stableFor ≥ stableMs ∧ nowText ≠ [] ∧ isLoading nowText = false then
        (some { text := nowText, time := e.now }, st1)
      else if e.now - start > maxMs then
        (some { text := nowText, time := e.now }, st1)
      else (none, st1)

/-- The callbacks of `waitForStableResponse` in order, up to the first `resolve`. -/
def stableLoop (prevCount : Nat) (stableMs maxMs start : Int) :
    StableState → List PageEvent → Option Resolution
  | _, [] => none
  | st, e :: es =>
    match stableStep prevCount stableMs maxMs start st e with
    | (some r, _) => some r
    | (none, st1) => stableLoop prevCount stableMs maxMs start st1 es

/-- What the page does during one wait: the clock and the document when the
wait starts, and the callbacks delivered afterwards. -/
structure PageRun where
  start : Int
  dom0 : Dom
  events : List PageEvent
  deriving DecidableEq, Repr

/-- The function evaluated in the page by `waitForStableResponse`;
`none` when the callbacks end before any `resolve`. -/
def stableWait (prevCount : Nat) (stableMs maxMs : Int) (run : PageRun) : Option Resolution :=
  stableLoop prevCount stableMs maxMs run.start (stableInit prevCount run.start run.dom0) run.events

/-- One callback of `waitForFirstNonLoading`. -/
def firstStep (prevCount : Nat) (maxMs start : Int) (e : PageEvent) : Option Resolution :=
  let txt := getLastMessageText e.dom
  match e.kind with
  | .bodyMutation =>
    if e.dom.entryList.length > prevCount ∧ txt ≠ [] ∧ isLoading txt = false then
      some { text := txt, time := e.now }
    else none
  | .contentMutation => none
  | .tick =>
    if txt ≠ [] ∧ isLoading txt = false then some { text := txt, time := e.now }
    else if e.now - start > maxMs then some { text := txt, time := e.now }
    else none

/-- The function evaluated in the page by `waitForFirstNonLoading`. -/
def firstWait (prevCount : Nat) (maxMs : Int) (run : PageRun) : Option Resolution :=
  run.events.findSome? (firstStep prevCount maxMs run.start)

/-! ## The Node side

The functions of `bot.js` that run in Node are sequential `async` code over the
module-level variables `page` and `browser`.  An external operation (a page or
browser call, a clock reading, a socket call) is answered by the environment;
the answers are indexed by the number of external operations made so far. -/

/-- A thrown value (an object, or a primitive other than `null` and
`undefined`); `message` is its `message` property, absent when the value thrown
has none. -/
structure JSError where
  message : Option JSString
  deriving DecidableEq, Repr

deriving instance DecidableEq for Except

/-- `new Error(text)`. -/
def JSError.ofText (text : String) : JSError :=
  { message := some (js text) }

/-- The value of the module-level variable `page`. -/
inductive PageRef where
  | null
  | undefined
  | handle (n : Nat)
  deriving DecidableEq, Repr

/-- Truthiness of `page`. -/
def PageRef.isSet : PageRef → Bool
  | .handle _ => true
  | _ => false

/-- What one pass through the body of the inner loop of `typeAndSend` comes to. -/
inductive AttemptOutcome where
  /-- `pg.$(inputSelectorCombo)` gave `null` -/
  | inputMissing
  /-- a blocking overlay is shown -/
  | overlay
  /-- the control is disabled, hidden or has no size -/
  | notInteractable
  /-- `waitForSelector` or one of the interaction steps threw -/
  | threw (e : JSError)
  /-- the text was set and Enter was pressed -/
  | delivered
  deriving DecidableEq, Repr

/-- The constants read from the process environment when the module loads. -/
structure Config where
  PERSONA_ENABLED : Bool
  PERSONA_NAME : JSString
  PERSONA_PIN : Option JSString
  GF_PHONE_NUMBER : Option JSString
  TARGET_JID : Option JSString
  TARGET_LID : Option JSString
  REPLY_ALL : Bool
  MANUAL_SEND : Bool
  WA_ONLY : Bool
  QUICK_SEND : Bool
  RESPONSE_MAX_WAIT : Int
  RESPONSE_STABLE_MS : Int
  QUICK_SEND_MAX_MS : Int

/-- The answers of the environment; the argument is the number of external
operations made before the one answered. -/
structure Env where
  /-- `Date.now()` in Node -/
  clock : Nat → Int
  /-- a `page.evaluate` that reads the document: the document it sees, or the error thrown -/
  dom : Nat → Except JSError Dom
  /-- a `page.evaluate` that runs one of the in-page waits -/
  pageRun : Nat → Except JSError PageRun
  /-- one delivery attempt of `typeAndSend` -/
  attempt : Nat → AttemptOutcome
  /-- `page.reload` -/
  reload : Nat → Except JSError Unit
  /-- `puppeteer.launch` -/
  launch : Nat → Except JSError Unit
  /-- `browser.newPage` -/
  newPage : Nat → Except JSError Unit
  /-- `initNotebookLM` from `evaluateOnNewDocument` to the wait for the chat
  input and the settling delay, with the redirect check between them -/
  navigate : Nat → Except JSError Unit
  /-- `sock.sendPresenceUpdate` -/
  presence : Nat → Except JSError Unit
  /-- `sock.sendMessage` -/
  send : Nat → Except JSError Unit
  /-- the line typed at a prompt of the manual review -/
  ask : Nat → JSString

/-- The variables `lastMsgId`, `lastMsgText`, `lastReply` of `initWhatsApp`;
the outer `none` is `null`. -/
structure DedupState where
  /-- `null`, or the `msg.key.id` stored last (itself possibly `undefined`) -/
  lastMsgId : Option (Option JSString)
  lastMsgText : Option JSString
  lastReply : Option JSString
  deriving DecidableEq, Repr

/-- The observable actions of a run, in the order they happen. -/
inductive Act where
  /-- `getResponseFromNotebookLM(message, _retrying)` went past its page guard -/
  | turn (message : JSString) (retrying : Bool)
  /-- `typeAndSend(text)` was called -/
  | typeAndSend (text : JSString)
  /-- a delivery attempt was made while the counter `attempts` had this value -/
  | attempt (attempts : Nat) (delivered : Bool)
  /-- the prompt was submitted (Enter pressed) -/
  | submit (text : JSString)
  /-- the page was reloaded -/
  | reload
  /-- `waitForStableResponse(prevCount, maxMs)` resolved with this text -/
  | stableResolved (prevCount : Nat) (maxMs : Int) (text : JSString)
  /-- `waitForFirstNonLoading(prevCount, maxMs)` resolved with this text -/
  | firstResolved (prevCount : Nat) (maxMs : Int) (text : JSString)
  /-- the recovery branch was entered -/
  | recover
  /-- `browser.close()` was called -/
  | closeBrowser
  /-- `initNotebookLM()` was called -/
  | initNotebookLM
  /-- the router called `getResponseFromNotebookLM(text)` -/
  | askNotebook (text : JSString)
  /-- `sock.sendMessage(jid, { text })` was called -/
  | sendMessage (jid : Option JSString) (text : JSString)
  /-- `sock.sendMessage` completed (the line `Replied:` is logged) -/
  | replied (text : JSString)
  deriving DecidableEq, Repr

/-- The state of the process. -/
structure St where
  page : PageRef
  /-- `browser`: `null` or a handle -/
  browser : Option Nat
  dedup : DedupState
  /-- number of external operations made so far -/
  step : Nat
  trace : List Act
  deriving DecidableEq, Repr

/-- How an `async` function ends: it returns, it throws, or it is still waiting
when the model stops following it (a wait whose callbacks ended before any
`resolve`, a loop that used up its budget). -/
inductive Res (α : Type) where
  | ok (a : α) (s : St)
  | threw (e : JSError) (s : St)
  | pending (s : St)
  deriving DecidableEq

/-- The state in which the function ended. -/
def Res.state {α : Type} : Res α → St
  | .ok _ s => s
  | .threw _ s => s
  | .pending s => s

/-- The value returned, if the function returned. -/
def Res.value? {α : Type} : Res α → Option α
  | .ok a _ => some a
  | _ => none

/-- The value thrown, if the function threw. -/
def Res.error? {α : Type} : Res α → Option JSError
  | .threw e _ => some e
  | _ => none

/-- An `async` computation over the process state. -/
def Run (α : Type) : Type := St → Res α

/-- `return a`. -/
def Run.pure {α : Type} (a : α) : Run α := fun s => .ok a s

/-- Sequencing with `await`: a throw or an unfinished wait ends the sequence. -/
def Run.bind {α β : Type} (m : Run α) (f : α → Run β) : Run β := fun s =>
  match m s with
  | .ok a s1 => f a s1
  | .threw e s1 => .threw e s1
  | .pending s1 => .pending s1

instance : Monad Run where
  pure := Run.pure
  bind := Run.bind

/-- `throw e`. -/
def throwJS {α : Type} (e : JSError) : Run α := fun s => .threw e s

/-- A wait that is never seen to end. -/
def neverEnds {α : Type} : Run α := fun s => .pending s

/-- The statement `try { m } catch (e) { h e }`. -/
def tryCatch {α : Type} (m : Run α) (h : JSError → Run α) : Run α := fun s =>
  match m s with
  | .threw e s1 => h e s1
  | r => r

/-- The current state. -/
def getSt : Run St := fun s => .ok s s

/-- Change the state. -/
def modifySt (f : St → St) : Run Unit := fun s => .ok () (f s)

/-- Record an action. -/
def emit (a : Act) : Run Unit :=
  modifySt (fun s => { s with trace := s.trace ++ [a] })

/-- Start an external operation: its index. -/
def nextOp : Run Nat := fun s => .ok s.step { s with step := s.step + 1 }

/-- Await an external operation that completes or throws. -/
def awaitOp {α : Type} (answer : Nat → Except JSError α) : Run α := do
  let k ← nextOp
  match answer k with
  | .ok a => pure a
  | .error e => throwJS e

/-- `Date.now()` in Node. -/
def dateNow (env : Env) : Run Int := do
  let k ← nextOp
  pure (env.clock k)

/-- The function `getPage()`. -/
def getPage : Run Nat := do
  match (← getSt).page with
  | .handle n => pure n
  | _ => throwJS (JSError.ofText "No active NotebookLM page")

/-- A method call `page.m(...)` on the module-level `page`: a `TypeError` when
`page` is `null` or `undefined`. -/
def usePage : Run Unit := do
  match (← getSt).page with
  | .handle _ => pure ()
  | .null => throwJS (JSError.ofText "Cannot read properties of null")
  | .undefined => throwJS (JSError.ofText "Cannot read properties of undefined")

/-- The function `countMessages()`. -/
def countMessages (env : Env) : Run Counts := do
  usePage
  let d ← awaitOp env.dom
  pure (countOf d)

/-- The function `waitForStableResponse(prevCount, maxMsOverride)`. -/
def waitForStableResponse (cfg : Config) (env : Env) (prevCount : Nat)
    (maxMsOverride : Option Int) : Run JSString := do
  let maxMs := maxMsOverride.getD cfg.RESPONSE_MAX_WAIT
  usePage
  let run ← awaitOp env.pageRun
  match stableWait prevCount cfg.RESPONSE_STABLE_MS maxMs run with
  | none => neverEnds
  | some r =>
    emit (.stableResolved prevCount maxMs r.text)
    pure r.text

/-- The function `waitForFirstNonLoading(prevCount, maxMs)`. -/
def waitForFirstNonLoading (env : Env) (prevCount : Nat) (maxMs : Int) : Run JSString := do
  usePage
  let run ← awaitOp env.pageRun
  match firstWait prevCount maxMs run with
  | none => neverEnds
  | some r =>
    emit (.firstResolved prevCount maxMs r.text)
    pure r.text

/-- The constant `maxAttempts` of `typeAndSend`. -/
def maxAttempts : Nat := 6

/-- The inner loop `while (attempts < maxAttempts)` of `typeAndSend`, entered
with `attempts = maxAttempts - remaining`: `true` when an attempt delivered the
text (the function returns), `false` when the loop ran out. -/
def deliveryRound (env : Env) (text : JSString) : Nat → Run Bool
  | 0 => pure false
  | remaining + 1 => do
    let k ← nextOp
    match env.attempt k with
    | .delivered =>
      emit (.attempt (maxAttempts - (remaining + 1)) true)
      emit (.submit text)
      pure true
    | _ =>
      emit (.attempt (maxAttempts - (remaining + 1)) false)
      deliveryRound env text remaining

/-- The function `typeAndSend(text)`.  The outer `while (true)` is passed at
most twice: the first pass ends in the reload that sets `didRefresh` and resets
`attempts`, the second in the final `throw`. -/
def typeAndSend (env : Env) (text : JSString) : Run Unit := do
  emit (.typeAndSend text)
  -- first pass, didRefresh = false
  let _ ← getPage
  if ← deliveryRound env text maxAttempts then return
  let _ ← getPage
  awaitOp env.reload
  emit .reload
  -- second pass, didRefresh = true
  let _ ← getPage
  if ← deliveryRound env text maxAttempts then return
  let _ ← getPage
  let _ ← awaitOp env.dom
  throwJS (JSError.ofText
    "Chat input not found or not interactable after multiple attempts and refresh")

/-- The constant `PERSONA_MARKER`. -/
def personaMarker (cfg : Config) : JSString :=
  js "[persona:" ++ toLowerCase cfg.PERSONA_NAME ++ js "]"

/-- `lines.join("\n")`. -/
def joinLines : List JSString → JSString
  | [] => []
  | [l] => l
  | l :: ls => l ++ 0x0A :: joinLines ls

/-- The function `buildPersonaPin()`. -/
def buildPersonaPin (cfg : Config) : JSString :=
  match cfg.PERSONA_PIN with
  | some (c :: cs) => joinLines [personaMarker cfg, c :: cs]
  | _ =>
    joinLines [personaMarker cfg, js "SYSTEM PROMPT — Assistant", [],
      js "You are a helpful assistant on WhatsApp.",
      js "Keep responses natural and conversational.", [], js "OUTPUT",
      js "Write ONE reply.", js "No analysis.", js "Just the reply text."]

/-- `innerText` of the first `chat-message.individual-message` of a pair, or
the empty string: `first?.innerText || ''`. -/
def firstIndividualText (pair : List ChatMessage) : JSString :=
  match (individuals pair).head? with
  | some m => m.inner
  | none => []

/-- The function evaluated in the page by `ensurePersonaPinned`: the marker
occurs in the first message of one of the last six pairs. -/
def alreadyPinned (marker : JSString) (d : Dom) : Bool :=
  (d.pairs.drop (d.pairs.length - 6)).any
    (fun p => includes (toLowerCase (firstIndividualText p)) (toLowerCase marker))

/-- The function `ensurePersonaPinned()`. -/
def ensurePersonaPinned (cfg : Config) (env : Env) : Run Unit := do
  usePage
  let d ← awaitOp env.dom
  if alreadyPinned (personaMarker cfg) d then return
  let baseline ← countMessages env
  typeAndSend env (buildPersonaPin cfg)
  let _ ← countMessages env
  let _ ← waitForStableResponse cfg env baseline.msgCount none
  pure ()

/-- The function `initNotebookLM()`; it returns `undefined`. -/
def initNotebookLM (cfg : Config) (env : Env) : Run Unit := do
  emit .initNotebookLM
  let k ← nextOp
  match env.launch k with
  | .error e => throwJS e
  | .ok _ => modifySt (fun s => { s with browser := some k })
  let k2 ← nextOp
  match env.newPage k2 with
  | .error e => throwJS e
  | .ok _ => modifySt (fun s => { s with page := .handle k2 })
  awaitOp env.navigate
  if cfg.PERSONA_ENABLED then
    tryCatch (ensurePersonaPinned cfg env) (fun _ => pure ())

/-! ## One turn: `getResponseFromNotebookLM` -/

/-- Truthiness of `s && s.trim()` for a string `s`. -/
def nonBlank (s : JSString) : Bool :=
  !s.isEmpty && !(trim s).isEmpty

/-- The value `lastResp || null`. -/
def orNull (s : JSString) : Option JSString :=
  if s.isEmpty then none else some s

/-- The helper `waitForFinalStable(startPrevCount, deadlineTs)`, as its loop
entered with the variables `prev` and `lastResp`; `fuel` bounds the number of
passes through the loop. -/
def waitForFinalStableLoop (cfg : Config) (env : Env) (deadlineTs : Int) :
    Nat → Nat → JSString → Run (Option JSString)
  | 0, _, _ => neverEnds
  | fuel + 1, prev, lastResp => do
    if (← dateNow env) < deadlineTs then
      let remaining := max 1000 (deadlineTs - (← dateNow env))
      let resp ← waitForStableResponse cfg env prev (some remaining)
      if !nonBlank resp then
        return orNull lastResp
      let counts ← countMessages env
      if counts.msgCount > prev then
        waitForFinalStableLoop cfg env deadlineTs fuel counts.msgCount resp
      else
        return some resp
    else
      return orNull lastResp

/-- The helper `waitForFinalStable(startPrevCount, deadlineTs)`. -/
def waitForFinalStable (cfg : Config) (env : Env) (fuel : Nat) (startPrevCount : Nat)
    (deadlineTs : Int) : Run (Option JSString) :=
  waitForFinalStableLoop cfg env deadlineTs fuel startPrevCount []

/-- `Date.now() + ms`. -/
def deadlineIn (env : Env) (ms : Int) : Run Int := do
  pure ((← dateNow env) + ms)

/-- The `try` block of `getResponseFromNotebookLM`. -/
def turnBody (cfg : Config) (env : Env) (fuel : Nat) (message : JSString) :
    Run (Option JSString) := do
  let baseline ← countMessages env
  typeAndSend env message
  -- the echo check: its result is only logged
  let _ ← getPage
  let _ ← awaitOp env.dom
  let response ←
    if cfg.QUICK_SEND then do
      let quick ← waitForFirstNonLoading env baseline.msgCount cfg.QUICK_SEND_MAX_MS
      if !nonBlank quick then
        let deadline ← deadlineIn env cfg.RESPONSE_MAX_WAIT
        waitForFinalStable cfg env fuel baseline.msgCount deadline
      else
        let deadline ← deadlineIn env
          (min cfg.RESPONSE_MAX_WAIT (cfg.QUICK_SEND_MAX_MS + cfg.RESPONSE_STABLE_MS))
        let final ← waitForFinalStable cfg env fuel baseline.msgCount deadline
        match final with
        | some f => if nonBlank f then pure (some f) else pure (some quick)
        | none => pure (some quick)
    else do
      let deadline ← deadlineIn env cfg.RESPONSE_MAX_WAIT
      waitForFinalStable cfg env fuel baseline.msgCount deadline
  match response with
  | some r => if nonBlank r then pure (some (cleanResponse r)) else pure none
  | none => pure none

/-- The substrings of an error text that make the error a session loss. -/
def fatalMarkers : List JSString :=
  [js "Target closed", js "Session closed", js "not found", js "browser has disconnected",
   js "detached Frame"]

/-- The disjunction of `err.message.includes(...)` in the `catch` block. -/
def isFatal (message : JSString) : Bool :=
  fatalMarkers.any (fun m => includes message m)

/-- The `catch (err)` block of `getResponseFromNotebookLM`; `replay` is the
call `getResponseFromNotebookLM(message, true)`. -/
def recoverOrGiveUp (cfg : Config) (env : Env) (retrying : Bool)
    (replay : Run (Option JSString)) (err : JSError) : Run (Option JSString) := do
  if retrying then return none
  match err.message with
  | none => throwJS (JSError.ofText "Cannot read properties of undefined (reading 'includes')")
  | some text =>
    if isFatal text then
      emit .recover
      -- `browser.close()` is awaited with its rejection swallowed
      if (← getSt).browser.isSome then
        emit .closeBrowser
        let _ ← nextOp
        modifySt (fun s => { s with browser := none })
      tryCatch
        (do
          initNotebookLM cfg env
          -- `page = await initNotebookLM()`: the value assigned is `undefined`
          modifySt (fun s => { s with page := .undefined })
          replay)
        (fun _ => pure none)
    else return none

/-- The body of `getResponseFromNotebookLM(message, _retrying)` with the
recursive call as a parameter. -/
def getResponseWith (cfg : Config) (env : Env) (fuel : Nat) (message : JSString)
    (retrying : Bool) (replay : Run (Option JSString)) : Run (Option JSString) := do
  if !(← getSt).page.isSet then return none
  emit (.turn message retrying)
  tryCatch (turnBody cfg env fuel message) (recoverOrGiveUp cfg env retrying replay)

/-- The function `getResponseFromNotebookLM(message, _retrying)`.  The only
recursive call passes `_retrying = true`, and a call with `_retrying = true`
makes none. -/
def getResponseFromNotebookLM (cfg : Config) (env : Env) (fuel : Nat) (message : JSString)
    (retrying : Bool) : Run (Option JSString) :=
  getResponseWith cfg env fuel message retrying
    (getResponseWith cfg env fuel message true (pure none))

/-! ## The message router: the `messages.upsert` handler of `initWhatsApp` -/

/-- The field `msg.message` as far as the handler reads it. -/
structure MsgContent where
  /-- `conversation` -/
  conversation : Option JSString
  /-- `extendedTextMessage?.text` -/
  extendedText : Option JSString
  deriving DecidableEq, Repr

/-- An element of `m.messages`. -/
structure WAMessage where
  /-- `msg.message`, absent when falsy -/
  message : Option MsgContent
  /-- `msg.key.fromMe` -/
  fromMe : Bool
  /-- `msg.key.remoteJid` -/
  remoteJid : Option JSString
  /-- `msg.key.id` -/
  id : Option JSString
  deriving DecidableEq, Repr

/-- Truthiness of a configured string. -/
def isConfigured : Option JSString → Bool
  | some (_ :: _) => true
  | _ => false

/-- `s.replace(pat, "")` with a string pattern: the first occurrence is removed. -/
def removeFirst (pat : JSString) : JSString → JSString
  | [] => []
  | c :: cs => if pat.isPrefixOf (c :: cs) then (c :: cs).drop pat.length
               else c :: removeFirst pat cs

/-- The suffix `@s.whatsapp.net`. -/
def phoneSuffix : JSString := js "@s.whatsapp.net"

/-- The constant `senderPhone` of the handler. -/
def senderPhone (remoteJid : JSString) : JSString :=
  if phoneSuffix.isSuffixOf remoteJid then removeFirst phoneSuffix remoteJid else []

/-- The variable `allowed` of the handler after the targeting rules. -/
def allowed (cfg : Config) (remoteJid : JSString) : Bool :=
  if cfg.REPLY_ALL then true
  else if isConfigured cfg.TARGET_JID && cfg.TARGET_JID == some remoteJid then true
  else if isConfigured cfg.TARGET_LID && some remoteJid == cfg.TARGET_LID then true
  else if isConfigured cfg.GF_PHONE_NUMBER && some (senderPhone remoteJid) == cfg.GF_PHONE_NUMBER
    then true
  else false

/-- The constant `text` of the handler:
`conversation || extendedTextMessage?.text || ""`. -/
def textOf (c : MsgContent) : JSString :=
  match c.conversation with
  | some (a :: as) => a :: as
  | _ =>
    match c.extendedText with
    | some (a :: as) => a :: as
    | _ => []

/-- The manual review of the handler (`MANUAL_SEND`): `true` to go on to the
send, `false` when the reply is discarded.  The branch `e` assigns to the
constant `response` and so throws. -/
def manualReview (env : Env) : Run Bool := do
  let k ← nextOp
  let action := toLowerCase (trim (env.ask k))
  if action = js "e" then
    let _ ← nextOp
    throwJS (JSError.ofText "Assignment to constant variable.")
  else if action = js "d" then
    pure false
  else
    pure true

/-- The branch `if (response && response !== lastReply)` of the handler: the
presence update, the manual review, the send and the update of the dedup
variables. -/
def dispatchReply (cfg : Config) (env : Env) (msg : WAMessage) (text response : JSString) :
    Run Unit := do
  awaitOp env.presence
  if cfg.MANUAL_SEND then
    if !(← manualReview env) then return
  emit (.sendMessage msg.remoteJid response)
  awaitOp env.send
  emit (.replied response)
  modifySt (fun s => { s with dedup :=
    { lastMsgId := some msg.id, lastMsgText := some text, lastReply := some response } })

/-- The handler of `messages.upsert`, run on the event `m`. -/
def onMessagesUpsert (cfg : Config) (env : Env) (fuel : Nat) (messages : List WAMessage) :
    Run Unit := do
  match messages.head? with
  | none => throwJS (JSError.ofText "Cannot read properties of undefined (reading 'message')")
  | some msg =>
    match msg.message with
    | none => return
    | some content =>
      if msg.fromMe then return
      let remoteJid := msg.remoteJid.getD []
      if !allowed cfg remoteJid then return
      let text := textOf content
      if text.isEmpty then return
      let before := (← getSt).dedup
      if before.lastMsgId = some msg.id ∧ before.lastMsgText = some text then return
      if cfg.WA_ONLY then return
      emit (.askNotebook text)
      let response ← getResponseFromNotebookLM cfg env fuel text false
      match response with
      | some (c :: cs) =>
        if (← getSt).dedup.lastReply ≠ some (c :: cs) then
          dispatchReply cfg env msg text (c :: cs)
      | _ => pure ()

/-- The handler run on a sequence of events when the runs do not overlap: each
event is delivered after the run for the one before it has ended.  (The
listener is `async` and nothing awaits it, so a run that throws does not stop
the later ones; runs that overlap are the subject of `runMoves`.) -/
def handleAll (cfg : Config) (env : Env) (fuel : Nat) : List (List WAMessage) → St → St
  | [], s => s
  | m :: ms, s => handleAll cfg env fuel ms (onMessagesUpsert cfg env fuel m s).state

/-- The actions of the router itself. -/
def Act.isRouter : Act → Bool
  | .askNotebook _ => true
  | .sendMessage _ _ => true
  | .replied _ => true
  | _ => false

/-- A `sendMessage` call. -/
def Act.isSend : Act → Bool
  | .sendMessage _ _ => true
  | _ => false

/-- A completed send. -/
def Act.isReplied : Act → Bool
  | .replied _ => true
  | _ => false

/-- A call of `typeAndSend`. -/
def Act.isTypeAndSend : Act → Bool
  | .typeAndSend _ => true
  | _ => false

/-- What the dedup check compares: the message id and the text of the event,
when the event has a message with content. -/
def eventKey (m : List WAMessage) : Option (Option JSString × JSString) :=
  match m.head? with
  | some msg => msg.message.map (fun c => (msg.id, textOf c))
  | none => none

/-- The state of a process just started: nothing initialised, nothing done. -/
def St.initial : St :=
  { page := .null, browser := none
    dedup := { lastMsgId := none, lastMsgText := none, lastReply := none }
    step := 0, trace := [] }

/-! ## Worked runs

A scripted environment answers the external operations from a list, in the
order they are made. -/

/-- One answer of a scripted environment. -/
inductive Answer where
  /-- the value of `Date.now()` -/
  | clock (t : Int)
  /-- the document a `page.evaluate` sees -/
  | dom (d : Dom)
  /-- what the page does during an in-page wait -/
  | run (r : PageRun)
  /-- how a delivery attempt ends -/
  | attempt (o : AttemptOutcome)
  /-- the operation completes -/
  | done
  /-- the operation throws -/
  | fails (e : JSError)
  /-- the line typed at a review prompt -/
  | line (text : JSString)

/-- The environment that answers the `k`-th external operation with the `k`-th
entry of the script. -/
def scripted (script : List Answer) : Env where
  clock k := match script[k]? with
    | some (.clock t) => t
    | _ => 0
  dom k := match script[k]? with
    | some (.dom d) => .ok d
    | some (.fails e) => .error e
    | _ => .ok { nodes := [], detached := [] }
  pageRun k := match script[k]? with
    | some (.run r) => .ok r
    | some (.fails e) => .error e
    | _ => .ok { start := 0, dom0 := { nodes := [], detached := [] }, events := [] }
  attempt k := match script[k]? with
    | some (.attempt o) => o
    | some (.fails e) => .threw e
    | _ => .delivered
  reload k := match script[k]? with
    | some (.fails e) => .error e
    | _ => .ok ()
  launch k := match script[k]? with
    | some (.fails e) => .error e
    | _ => .ok ()
  newPage k := match script[k]? with
    | some (.fails e) => .error e
    | _ => .ok ()
  navigate k := match script[k]? with
    | some (.fails e) => .error e
    | _ => .ok ()
  presence k := match script[k]? with
    | some (.fails e) => .error e
    | _ => .ok ()
  send k := match script[k]? with
    | some (.fails e) => .error e
    | _ => .ok ()
  ask k := match script[k]? with
    | some (.line t) => t
    | _ => []

/-- A rendered message with the given text. -/
def bubble (id : Nat) (text : JSString) : ChatMessage :=
  { id := id, individual := true, main := some text, card := none, inner := text }

/-- The chat list showing the given exchanges (message sent, reply received),
one pair each, numbered from `n`. -/
def exchangesFrom : Nat → List (JSString × JSString) → List Node
  | _, [] => []
  | n, (sent, received) :: rest =>
    .pair [bubble (2 * n) sent, bubble (2 * n + 1) received] :: exchangesFrom (n + 1) rest

/-- The document showing the given exchanges. -/
def chatOf (history : List (JSString × JSString)) : Dom :=
  { nodes := exchangesFrom 0 history, detached := [] }

/-- `count` timer callbacks 300 ms apart after `start`, all seeing the document `d`. -/
def ticks (start : Int) (count : Nat) (d : Dom) : List PageEvent :=
  (List.range count).map
    (fun (i : Nat) => { kind := .tick, now := start + 300 * ((i : Int) + 1), dom := d })

/-- A configuration: replies to everyone, no persona, a maximum wait of 6 s
and a stable window of 1 s. -/
def shortWaits : Config where
  PERSONA_ENABLED := false
  PERSONA_NAME := js "Anandha"
  PERSONA_PIN := none
  GF_PHONE_NUMBER := none
  TARGET_JID := none
  TARGET_LID := none
  REPLY_ALL := true
  MANUAL_SEND := false
  WA_ONLY := false
  QUICK_SEND := false
  RESPONSE_MAX_WAIT := 6000
  RESPONSE_STABLE_MS := 1000
  QUICK_SEND_MAX_MS := 5000

/-- A session that is up: browser and page are open, nothing handled yet. -/
def ready : St :=
  { St.initial with page := .handle 1, browser := some 0 }

/-- The answers during one turn on the stable-send path with `shortWaits`,
started at clock `t0`: the prompt is delivered at the first attempt, the page
shows it with its reply, the reply is read stable after 1.5 s, the count has
grown, and the second wait sees no further entry until the deadline. -/
def turnAnswers (history : List (JSString × JSString)) (prompt reply : JSString) (t0 : Int) :
    List Answer :=
  let shown := chatOf (history ++ [(prompt, reply)])
  [ .dom (chatOf history), .attempt .delivered, .dom shown, .clock t0,
    .clock t0, .clock t0,
    .run { start := t0, dom0 := shown, events := ticks t0 5 shown },
    .dom shown,
    .clock (t0 + 2000), .clock (t0 + 2000),
    .run { start := t0 + 2000, dom0 := shown, events := ticks (t0 + 2000) 14 shown } ]

/-- An inbound text message. -/
def inbound (id text : String) : List WAMessage :=
  [{ message := some { conversation := some (js text), extendedText := none }
     fromMe := false
     remoteJid := some (js "911234567890@s.whatsapp.net")
     id := some (js id) }]

/-- The reply the notebook gives to `gm`. -/
def replyGm : JSString :=
  js "Good morning! Hope you slept well and that the day treats you kindly."

/-- The reply the notebook gives to `how are you`. -/
def replyHow : JSString :=
  js "Doing well, thanks for asking! Just sorting out a few things at home."

/-- Three events: `gm`, then `how are you`, then the first event again. -/
def scriptABA : List Answer :=
  turnAnswers [] (js "gm") replyGm 0 ++ [.done, .done] ++
  turnAnswers [(js "gm", replyGm)] (js "how are you") replyHow 100000 ++ [.done, .done] ++
  turnAnswers [(js "gm", replyGm), (js "how are you", replyHow)] (js "gm") replyGm 200000 ++
    [.done, .done]

/-- The error a page call throws when the browser target is gone. -/
def targetClosed : JSError :=
  JSError.ofText "Protocol error (Runtime.callFunctionOn): Target closed."

/-- A turn in which the prompt is delivered and the next page call finds the
target closed; closing the browser, the launch, the new page and the
navigation of the re-initialisation all complete. -/
def scriptTargetClosed : List Answer :=
  [ .dom (chatOf [(js "gm", replyGm)]), .attempt .delivered, .fails targetClosed,
    .done, .done, .done, .done ]

/-- A turn in which the chat input is never interactable: six attempts, the
reload, six more attempts and the document snapshot; then closing the browser,
the launch, the new page and the navigation all complete. -/
def scriptInputStuck : List Answer :=
  [.dom (chatOf [(js "gm", replyGm)])] ++ List.replicate 6 (.attempt .notInteractable) ++
  [.done] ++ List.replicate 6 (.attempt .notInteractable) ++
  [.dom (chatOf [(js "gm", replyGm)]), .done, .done, .done, .done]

/-- The document with two exchanges (four entries) and one more entry with the
given text. -/
def oneMore (text : JSString) : Dom :=
  { nodes := exchangesFrom 0 [(js "gm", replyGm), (js "how are you", replyHow)] ++
      [.pair [bubble 4 text]]
    detached := [] }

/-- A final-stable wait from baseline 4 with the deadline at 6000: the new
entry reads `gm` for 0.9 s and `gm, rise and shine` from then on; the wait ends
at its timeout, the count has grown to 5, and the clock then reads 6400. -/
def scriptRiseAndShine : List Answer :=
  [ .clock 0, .clock 0,
    .run { start := 0, dom0 := oneMore (js "gm")
           events := ticks 0 3 (oneMore (js "gm")) ++ ticks 900 18 (oneMore (js "gm, rise and shine")) },
    .dom (oneMore (js "gm, rise and shine")), .clock 6400 ]

/-- The configuration `shortWaits` with the persona enabled. -/
def withPersona : Config :=
  { shortWaits with PERSONA_ENABLED := true }

/-- The acknowledgement the notebook gives to the persona pin. -/
def pinAck : JSString :=
  js "Understood. Replies will stay natural, short and conversational from now on."

/-- The exchange of the persona pin and its acknowledgement. -/
def pinExchange : JSString × JSString :=
  (buildPersonaPin withPersona, pinAck)

/-- Six later exchanges. -/
def sixExchanges : List (JSString × JSString) :=
  [(js "gm", replyGm), (js "how are you", replyHow), (js "gm", replyGm),
   (js "how are you", replyHow), (js "gm", replyGm), (js "how are you", replyHow)]

/-- The answers during one pinning call that finds no marker in the document
showing `history`: the check, the baseline count, the delivery, the count after
it and the wait for the acknowledgement. -/
def pinAnswers (history : List (JSString × JSString)) : List Answer :=
  let shown := chatOf (history ++ [pinExchange])
  [ .dom (chatOf history), .dom (chatOf history), .attempt .delivered, .dom shown,
    .run { start := 0, dom0 := shown, events := ticks 0 5 shown } ]

/-- Two pinning calls: the first in an empty chat, the second after six more
exchanges have followed the pin. -/
def scriptPinTwice : List Answer :=
  pinAnswers [] ++ pinAnswers (pinExchange :: sixExchanges)

/-- Two pinning calls: the first in an empty chat, the second right after it,
with the pin still in the last pair. -/
def scriptPinOnce : List Answer :=
  pinAnswers [] ++ [.dom (chatOf [pinExchange])]

/-- The error thrown by `typeAndSend` when both rounds are used up. -/
def inputUnavailable : JSError :=
  JSError.ofText "Chat input not found or not interactable after multiple attempts and refresh"

/-- The state in which the recovery branch starts the re-initialisation: the
branch is recorded and the browser, if there is one, is closed and dropped. -/
def afterClose (s : St) : St :=
  if s.browser.isSome then
    { s with trace := s.trace ++ [.recover, .closeBrowser], step := s.step + 1, browser := none }
  else { s with trace := s.trace ++ [.recover] }

/-- Three entries outside any pair. -/
def flatChat : Dom :=
  { nodes := [.loose (bubble 0 (js "gm")), .loose (bubble 1 replyGm),
              .loose (bubble 2 (js "how are you"))]
    detached := [] }

/-- The document `flatChat` after a pair with one individual message was appended. -/
def flatChatThenPair : Dom :=
  { nodes := flatChat.nodes ++ [.pair [bubble 3 replyHow]], detached := [] }

/-- An event for a message the bot itself sent. -/
def fromBot : List WAMessage :=
  [{ message := some { conversation := some (js "on my way"), extendedText := none }
     fromMe := true
     remoteJid := some (js "911234567890@s.whatsapp.net")
     id := some (js "MSG-OUT") }]

/-- The state of the turn of `scriptInputStuck` after the baseline count. -/
def stuckAfterCount : St :=
  { ready with step := 1, trace := [.turn (js "how are you") false] }

/-- The state of the turn of `scriptInputStuck` when `typeAndSend` throws. -/
def stuckAfterSend : St :=
  { ready with
    step := 15
    trace := [ .turn (js "how are you") false, .typeAndSend (js "how are you"),
      .attempt 0 false, .attempt 1 false, .attempt 2 false, .attempt 3 false,
      .attempt 4 false, .attempt 5 false, .reload,
      .attempt 0 false, .attempt 1 false, .attempt 2 false, .attempt 3 false,
      .attempt 4 false, .attempt 5 false ] }

/-- The state in which the final-stable wait of `scriptRiseAndShine` ends. -/
def riseAndShineEnd : St :=
  { ready with step := 5, trace := [.stableResolved 4 6000 (js "gm, rise and shine")] }

/-! ## Relating the state before and after a run

A property of a run is read off the state it ends in: the trace it appended
and the variables it changed.  The properties used below are relations between
the state before and the state after that compose along a sequence of
statements, graded by a bound on the number of counted actions appended. -/

/-- The number of completed sends in a trace. -/
def repliedCount (trace : List Act) : Nat :=
  trace.countP Act.isReplied

/-- A graded relation between the state before and after: `rel n s s1` bounds
by `n` what was appended between `s` and `s1`. -/
structure Graded where
  /-- the actions that are counted -/
  counts : Act → Bool
  rel : Nat → St → St → Prop
  /-- changes of `page`, `browser` and the operation counter are not seen -/
  same : ∀ (s s1 : St), s1.dedup = s.dedup → s1.trace = s.trace → rel 0 s s1
  /-- appending an action that is not counted is not seen -/
  emit0 : ∀ (s : St) (a : Act), counts a = false →
    rel 0 s { s with trace := s.trace ++ [a] }
  comp : ∀ (a b : Nat) (s1 s2 s3 : St), rel a s1 s2 → rel b s2 s3 → rel (a + b) s1 s3
  mono : ∀ (a b : Nat) (s1 s2 : St), a ≤ b → rel a s1 s2 → rel b s1 s2

/-- Every run of `m` relates the state it starts in to the state it ends in. -/
def Moves (G : Graded) (n : Nat) {α : Type} (m : Run α) : Prop :=
  ∀ s, G.rel n s (m s).state

/-- The dedup variables are kept and at most `n` of the appended actions
satisfy `Q`. -/
def quietFrame (Q : Act → Bool) : Graded where
  counts := Q
  rel n s s1 := s1.dedup = s.dedup ∧ ∃ acts, s1.trace = s.trace ++ acts ∧ acts.countP Q ≤ n
  same s s1 hd ht := ⟨hd, [], by simp [ht], by simp⟩
  emit0 s a ha := ⟨rfl, [a], rfl, by simp [ha]⟩
  comp a b s1 s2 s3 h12 h23 := by
    obtain ⟨hd, acts, ht, hc⟩ := h12
    obtain ⟨hd2, acts2, ht2, hc2⟩ := h23
    refine ⟨hd2.trans hd, acts ++ acts2, by simp [ht2, ht], ?_⟩
    simp only [List.countP_append]
    omega
  mono a b s1 s2 hab h := by
    obtain ⟨hd, acts, ht, hc⟩ := h
    exact ⟨hd, acts, ht, hc.trans hab⟩

/-- What the router does to the dedup variables while it handles an event with
the given message id and text: at most `n` sends complete; when none completes
the variables are kept, and when one does they hold the id, the text and a reply. -/
def routerFrame (id : Option JSString) (text : JSString) : Graded where
  counts := Act.isReplied
  rel n s s1 := ∃ acts, s1.trace = s.trace ++ acts ∧ acts.countP Act.isReplied ≤ n ∧
    ((s1.dedup = s.dedup ∧ acts.countP Act.isReplied = 0) ∨
     (0 < acts.countP Act.isReplied ∧ ∃ reply, s1.dedup =
        { lastMsgId := some id, lastMsgText := some text, lastReply := some reply }))
  same s s1 hd ht := ⟨[], by simp [ht], by simp, Or.inl ⟨hd, by simp⟩⟩
  emit0 s a ha := ⟨[a], rfl, by simp [ha], Or.inl ⟨rfl, by simp [ha]⟩⟩
  comp a b s1 s2 s3 h12 h23 := by
    obtain ⟨acts, ht, hc, hk⟩ := h12
    obtain ⟨acts2, ht2, hc2, hk2⟩ := h23
    refine ⟨acts ++ acts2, by simp [ht2, ht], ?_, ?_⟩
    · simp only [List.countP_append]
      omega
    · simp only [List.countP_append]
      rcases hk2 with ⟨hd2, h0⟩ | ⟨hpos, reply, hd2⟩
      · rcases hk with ⟨hd, h1⟩ | ⟨hpos, reply, hd⟩
        · exact Or.inl ⟨hd2.trans hd, by omega⟩
        · exact Or.inr ⟨by omega, reply, hd2.trans hd⟩
      · exact Or.inr ⟨by omega, reply, hd2⟩
  mono a b s1 s2 hab h := by
    obtain ⟨acts, ht, hc, hk⟩ := h
    exact ⟨acts, ht, hc.trans hab, hk⟩

/-! ## What the router has sent -/

/-- The text of a completed send. -/
def Act.repliedText? : Act → Option JSString
  | .replied t => some t
  | _ => none

/-- The texts of the completed sends of a trace, oldest first. -/
def repliedTexts (trace : List Act) : List JSString :=
  trace.filterMap Act.repliedText?

/-- What the send branch of the handler does with the reply `r`: every
`sendMessage` call and every completed send carries `r`, at most `n` sends
complete, the dedup variables are kept when none completes and `lastReply` is
`r` when one does. -/
def replyFrame (r : JSString) : Graded where
  counts a := a.isSend || a.isReplied
  rel n s s1 := ∃ acts, s1.trace = s.trace ++ acts ∧ (repliedTexts acts).length ≤ n ∧
    (∀ jid t, Act.sendMessage jid t ∈ acts → t = r) ∧
    (∀ t ∈ repliedTexts acts, t = r) ∧
    (repliedTexts acts = [] → s1.dedup = s.dedup) ∧
    (repliedTexts acts ≠ [] → s1.dedup.lastReply = some r)
  same s s1 hd ht := ⟨[], by simp [ht], by simp [repliedTexts], by simp, by simp [repliedTexts],
    fun _ => hd, by simp [repliedTexts]⟩
  emit0 s a ha := by
    have h1 : repliedTexts [a] = [] := by
      cases a <;> simp_all [repliedTexts, Act.repliedText?, Act.isSend, Act.isReplied]
    refine ⟨[a], rfl, by simp [h1], ?_, by simp [h1], fun _ => rfl, by simp [h1]⟩
    intro jid t ht
    simp only [List.mem_singleton] at ht
    subst ht
    simp [Act.isSend] at ha
  comp a b s1 s2 s3 h12 h23 := by
    obtain ⟨acts, ht, hc, hs, hr, hk, hl⟩ := h12
    obtain ⟨acts2, ht2, hc2, hs2, hr2, hk2, hl2⟩ := h23
    refine ⟨acts ++ acts2, by simp [ht2, ht], ?_, ?_, ?_, ?_, ?_⟩
    · simp only [repliedTexts, List.filterMap_append, List.length_append] at *
      omega
    · intro jid t hm
      rcases List.mem_append.1 hm with h | h
      · exact hs jid t h
      · exact hs2 jid t h
    · intro t hm
      simp only [repliedTexts, List.filterMap_append, List.mem_append] at hm
      rcases hm with h | h
      · exact hr t h
      · exact hr2 t h
    · intro h0
      simp only [repliedTexts, List.filterMap_append, List.append_eq_nil] at h0
      rw [hk2 h0.2, hk h0.1]
    · intro hne
      by_cases h2 : repliedTexts acts2 = []
      · rw [hk2 h2]
        apply hl
        intro h1
        apply hne
        simp only [repliedTexts, List.filterMap_append] at *
        rw [h1, h2]
        rfl
      · exact hl2 h2
  mono a b s1 s2 hab h := by
    obtain ⟨acts, ht, hc, rest⟩ := h
    exact ⟨acts, ht, hc.trans hab, rest⟩

/-- No two neighbours in the list are the same text. -/
def noRepeat : List JSString → Bool
  | a :: b :: rest => a != b && noRepeat (b :: rest)
  | _ => true

/-! ## The timer of the in-page waits -/

/-- The clock readings of the timer callbacks of a run, in order. -/
def tickTimes : List PageEvent → List Int
  | [] => []
  | e :: es =>
    match e.kind with
    | .tick => e.now :: tickTimes es
    | _ => tickTimes es

/-! ## The parts of a turn -/

/-- The beginning of the `try` block of `getResponseFromNotebookLM`, up to the
echo check: the baseline count, the delivery of the prompt and the echo check,
whose result is only logged. -/
def sendPrompt (env : Env) (message : JSString) : Run Counts := do
  let baseline ← countMessages env
  typeAndSend env message
  let _ ← getPage
  let _ ← awaitOp env.dom
  pure baseline

/-- The end of the `try` block: a non-blank response is cleaned up and
returned, anything else gives `null`. -/
def finishTurn (response : Option JSString) : Option JSString :=
  match response with
  | some r => if nonBlank r then some (cleanResponse r) else none
  | none => none

/-- The choice of the quick-send path in the words of the specification: with
a blank quick text the result of the stable wait that is then made; otherwise
the result of the stable wait when it is non-blank, and the quick text when it
is `null` or blank. -/
def quickSendChoiceSpec (quick : JSString) (stable : Option JSString) : Option JSString :=
  if nonBlank quick = false then stable
  else
    match stable with
    | some t => if nonBlank t then some t else some quick
    | none => some quick

/-! ## Classes of actions -/

/-- A call of `initNotebookLM`. -/
def Act.isInit : Act → Bool
  | .initNotebookLM => true
  | _ => false

/-- A turn that went past the page guard. -/
def Act.isTurn : Act → Bool
  | .turn _ _ => true
  | _ => false

/-- An entry into the recovery branch. -/
def Act.isRecover : Act → Bool
  | .recover => true
  | _ => false

/-- The actions of `getResponseFromNotebookLM` itself and of `initNotebookLM`,
as opposed to those of the delivery and of the waits. -/
def Act.isControl : Act → Bool
  | .turn _ _ => true
  | .recover => true
  | .closeBrowser => true
  | .initNotebookLM => true
  | _ => false

/-- A delivery attempt. -/
def Act.isAttempt : Act → Bool
  | .attempt _ _ => true
  | _ => false

/-- A page reload. -/
def Act.isReload : Act → Bool
  | .reload => true
  | _ => false

/-! ## More worked runs -/

/-- The configuration `shortWaits` with `REPLY_ALL` off and a phone number set. -/
def phoneOnly : Config :=
  { shortWaits with REPLY_ALL := false, GF_PHONE_NUMBER := some (js "911234567890") }

/-- An inbound text message from the given JID. -/
def inboundFrom (jid id text : String) : List WAMessage :=
  [{ message := some { conversation := some (js text), extendedText := none }
     fromMe := false
     remoteJid := some (js jid)
     id := some (js id) }]

/-- An error whose text has `target closed` in lower case only. -/
def lowerCaseTargetClosed : JSError :=
  JSError.ofText "protocol error: target closed"

/-- The baseline count of the turn fails with `lowerCaseTargetClosed`. -/
def scriptLowerCase : List Answer :=
  [.fails lowerCaseTargetClosed]

/-- The baseline count of the turn finds the target closed. -/
def scriptCountFails : List Answer :=
  [.fails targetClosed]

/-- The state of a turn for `gm` started in `ready` whose baseline count failed. -/
def afterFailedCount (retrying : Bool) : St :=
  { ready with step := 1, trace := [.turn (js "gm") retrying] }

/-- The error of a page reload that runs into its timeout. -/
def reloadTimeout : JSError :=
  JSError.ofText "Navigation timeout of 120000 ms exceeded"

/-- Six attempts find the input not interactable, then the reload fails. -/
def scriptReloadFails : List Answer :=
  List.replicate 6 (.attempt .notInteractable) ++ [.fails reloadTimeout]

/-- An environment in which the input is never interactable; every other
operation completes. -/
def stuckInput : Env :=
  { scripted [] with attempt := fun _ => .notInteractable }

/-- The document with two exchanges: four entries. -/
def twoExchanges : Dom :=
  chatOf [(js "gm", replyGm), (js "how are you", replyHow)]

/-- What the page does during a wait in which nothing is appended to
`twoExchanges`: `count` timer callbacks 300 ms apart. -/
def idleRun (start : Int) (count : Nat) : PageRun :=
  { start := start, dom0 := twoExchanges, events := ticks start count twoExchanges }

/-- The configuration `shortWaits` with the quick-send path switched on. -/
def quickSend : Config :=
  { shortWaits with QUICK_SEND := true }

/-- The configuration `shortWaits` with the waits the program uses when the
environment sets none: at most 60 s, stable for 4 s. -/
def defaultWaits : Config :=
  { shortWaits with RESPONSE_MAX_WAIT := 60000, RESPONSE_STABLE_MS := 4000 }

/-- A turn for `gm` on the quick-send path in an empty chat: the prompt is
delivered, the quick wait reads the reply at its first timer callback, the
stable wait reads it stable after 1.5 s, the count has grown, and the next
stable wait sees no further entry until the deadline. -/
def scriptQuickGm : List Answer :=
  [ .dom (chatOf []), .attempt .delivered, .dom (chatOf [(js "gm", replyGm)]),
    .run { start := 0, dom0 := chatOf [(js "gm", replyGm)]
           events := ticks 0 1 (chatOf [(js "gm", replyGm)]) },
    .clock 300, .clock 300, .clock 300,
    .run { start := 300, dom0 := chatOf [(js "gm", replyGm)]
           events := ticks 300 5 (chatOf [(js "gm", replyGm)]) },
    .dom (chatOf [(js "gm", replyGm)]),
    .clock 2000, .clock 2000,
    .run { start := 2000, dom0 := chatOf [(js "gm", replyGm)]
           events := ticks 2000 15 (chatOf [(js "gm", replyGm)]) } ]

/-- Scenario A with `defaultWaits`: the chat shows four entries, the prompt
`gm` is delivered, one entry is appended that reads `gm` for 2.4 s and
`gm, rise and shine` from then on; the timer fires every 300 ms, the wait ends
at its timeout of 60 s, the count is then 5 and the clock reads 60300. -/
def scriptScenarioA : List Answer :=
  [ .dom twoExchanges, .attempt .delivered, .dom (oneMore (js "gm")),
    .clock 0, .clock 0, .clock 0,
    .run { start := 0, dom0 := oneMore (js "gm")
           events := ticks 0 8 (oneMore (js "gm")) ++
             ticks 2400 193 (oneMore (js "gm, rise and shine")) },
    .dom (oneMore (js "gm, rise and shine")), .clock 60300 ]

/-- Scenario B on the quick-send path: the chat shows one exchange, the prompt
`how are you` is delivered and nothing is appended; the quick wait fires its
timer once, the stable wait runs to its timeout, and the send of the handler
completes. -/
def scriptNothingNew : List Answer :=
  [ .dom (chatOf [(js "gm", replyGm)]), .attempt .delivered, .dom (chatOf [(js "gm", replyGm)]),
    .run { start := 0, dom0 := chatOf [(js "gm", replyGm)]
           events := ticks 0 1 (chatOf [(js "gm", replyGm)]) },
    .clock 300, .clock 300, .clock 300,
    .run { start := 300, dom0 := chatOf [(js "gm", replyGm)]
           events := ticks 300 21 (chatOf [(js "gm", replyGm)]) },
    .done, .done ]

/-! ## Worked documents and runs for the waits -/

/-- Three entries outside any pair, followed by a pair that holds no message yet. -/
def flatChatThenEmptyPair : Dom :=
  { nodes := flatChat.nodes ++ [.pair []], detached := [] }

/-- The state of the turn of `scriptTargetClosed` when the echo check throws. -/
def targetClosedThrown : St :=
  { ready with
    step := 3
    trace := [.turn (js "how are you") false, .typeAndSend (js "how are you"), .attempt 0 true,
      .submit (js "how are you")] }

/-- The state after the turn of `scriptTargetClosed`: the recovery has closed the
browser and `initNotebookLM` has completed. -/
def afterRecovery : St :=
  { page := .undefined
    browser := some 4
    dedup := ready.dedup
    step := 7
    trace := [.turn (js "how are you") false, .typeAndSend (js "how are you"), .attempt 0 true,
      .submit (js "how are you"), .recover, .closeBrowser, .initNotebookLM] }

/-- One exchange in the chat and nothing appended: the timer of
`waitForFirstNonLoading` fires once, 200 ms after the start. -/
def staleRun : PageRun :=
  { start := 0
    dom0 := chatOf [(js "gm", replyGm)]
    events := [{ kind := .tick, now := 200, dom := chatOf [(js "gm", replyGm)] }] }

/-! ## The cleanup in the words of the specification -/

/-- Every run of white space replaced by one space, in the words of the
specification: a white-space unit followed by another one is dropped, the last
unit of a run becomes a space. -/
def collapseRunsSpec : JSString → JSString
  | [] => []
  | [c] => if isWhiteSpace c then [0x20] else [c]
  | c :: d :: r =>
    if isWhiteSpace c then
      if isWhiteSpace d then collapseRunsSpec (d :: r) else 0x20 :: collapseRunsSpec (d :: r)
    else c :: collapseRunsSpec (d :: r)

/-- The text with every run of white space replaced by one space and leading
and trailing white space removed. -/
def normalizeSpacesSpec (s : JSString) : JSString :=
  trim (collapseRunsSpec s)

/-- The text holds a bracketed citation marker: `[`, one or more digits, `]`. -/
def containsCitation (s : JSString) : Bool :=
  s.tails.any (fun t => (citationPattern t).isSome)

/-- Every `[` of the text is the start of a citation marker. -/
def bracketsCited (s : JSString) : Bool :=
  s.tails.all (fun t => t.head? != some 0x5B || (citationPattern t).isSome)

/-- No two neighbours in the text are both spaces. -/
def noDoubleSpace : JSString → Bool
  | a :: b :: r => !(a == 0x20 && b == 0x20) && noDoubleSpace (b :: r)
  | _ => true

/-! ## The variables of the stabilization wait -/

/-- The variables of `waitForStableResponse` after the given callbacks have run,
whatever they resolved. -/
def stableVars (prevCount : Nat) (stableMs maxMs start : Int) :
    StableState → List PageEvent → StableState
  | st, [] => st
  | st, e :: es =>
    stableVars prevCount stableMs maxMs start (stableStep prevCount stableMs maxMs start st e).2 es

/-- The element `id` was the last entry of a list longer than `prevCount` in
one of the documents. -/
def targetBeyond (prevCount : Nat) (docs : List Dom) (id : Nat) : Prop :=
  ∃ d ∈ docs, prevCount < d.entryList.length ∧ d.entryList.getLast?.map (fun m => m.id) = some id

/-- What the page does during a wait that finds the reply to `gm` in place: five
timer callbacks 300 ms apart, all seeing the same document. -/
def settledRun : PageRun :=
  { start := 0
    dom0 := chatOf [(js "gm", replyGm)]
    events := ticks 0 5 (chatOf [(js "gm", replyGm)]) }

/-! ## How a run ends -/

/-- Every run of `m` ends in one of the permitted ways: the operation counter is
not lowered; a throw is permitted only when `mayThrow` holds and then the thrown
value carries a message; the run is left waiting only when `strict` does not
hold. -/
def Ends (strict mayThrow : Prop) {α : Type} (m : Run α) : Prop :=
  ∀ s, s.step ≤ (m s).state.step ∧
    match m s with
    | .ok _ _ => True
    | .threw e _ => mayThrow ∧ e.message ≠ none
    | .pending _ => ¬ strict

/-- Every value thrown by a page or browser operation carries a message (it is
an `Error`). -/
def Env.messaged (env : Env) : Prop :=
  (∀ k e, env.dom k = .error e → e.message ≠ none) ∧
  (∀ k e, env.pageRun k = .error e → e.message ≠ none) ∧
  (∀ k e, env.reload k = .error e → e.message ≠ none) ∧
  (∀ k e, env.launch k = .error e → e.message ≠ none) ∧
  (∀ k e, env.newPage k = .error e → e.message ≠ none) ∧
  (∀ k e, env.navigate k = .error e → e.message ≠ none)

/-- The longest time any in-page wait of a turn is given. -/
def waitBound (cfg : Config) : Int :=
  max 1000 (max cfg.RESPONSE_MAX_WAIT cfg.QUICK_SEND_MAX_MS)

/-- The clock does not run backwards, every in-page wait is followed until a
timer callback later than `waitBound` after its start, and no document shows
more than `bound` entries. -/
def Env.patient (cfg : Config) (env : Env) (bound : Nat) : Prop :=
  (∀ i j, i ≤ j → env.clock i ≤ env.clock j) ∧
  (∀ k run, env.pageRun k = .ok run →
    ∃ e ∈ run.events, e.kind = .tick ∧ waitBound cfg < e.now - run.start) ∧
  (∀ k d, env.dom k = .ok d → (countOf d).msgCount ≤ bound)

/-- An environment in which nothing fails: the clock advances by one second per
operation, the chat shows one exchange, every in-page wait sees one timer
callback 100 s after its start, and every attempt delivers. -/
def calmEnv : Env where
  clock k := 1000 * (k : Int)
  dom _ := .ok (chatOf [(js "gm", replyGm)])
  pageRun _ := .ok
    { start := 0
      dom0 := chatOf [(js "gm", replyGm)]
      events := [{ kind := .tick, now := 100000, dom := chatOf [(js "gm", replyGm)] }] }
  attempt _ := .delivered
  reload _ := .ok ()
  launch _ := .ok ()
  newPage _ := .ok ()
  navigate _ := .ok ()
  presence _ := .ok ()
  send _ := .ok ()
  ask _ := []


/-- The session is lost: every read of the document throws "Target closed";
everything else is as in `calmEnv`. -/
def lostSessionEnv : Env :=
  { calmEnv with dom := fun _ => .error targetClosed }

/-- Every read of the document throws a value without a `message` property;
everything else is as in `calmEnv`. -/
def bareThrowEnv : Env :=
  { calmEnv with dom := fun _ => .error { message := none } }

/-! ## Handler runs that overlap

The listener of `messages.upsert` is an `async` function that nothing awaits or
queues, so an event can be delivered while the run for an earlier event waits
on the socket.  A run is followed from the event to
`await sock.sendPresenceUpdate(...)`, from there to `await sock.sendMessage(...)`,
and from there to its end; between these parts other runs take their steps.
(Events delivered while a turn is in progress on the page are not followed:
the schedules covered here are some of those the program has, not all.) -/

/-- The `await` of the handler at which a run is suspended. -/
inductive AwaitPoint where
  | presence
  | send
  deriving DecidableEq, Repr

/-- A suspended handler run: its constants `msg`, `text` and `response`, the
`await` it stands at, and the index of the operation it waits for. -/
structure Suspended where
  msg : WAMessage
  text : JSString
  response : JSString
  point : AwaitPoint
  op : Nat
  deriving DecidableEq, Repr

/-- The handler from the event to its first `await` on the socket: the checks,
the turn, the comparison with `lastReply` and the call of
`sock.sendPresenceUpdate`; `none` when the run ended before that. -/
def arrive (cfg : Config) (env : Env) (fuel : Nat) (messages : List WAMessage) :
    Run (Option Suspended) := do
  match messages.head? with
  | none => throwJS (JSError.ofText "Cannot read properties of undefined (reading 'message')")
  | some msg =>
    match msg.message with
    | none => return none
    | some content =>
      if msg.fromMe then return none
      let remoteJid := msg.remoteJid.getD []
      if !allowed cfg remoteJid then return none
      let text := textOf content
      if text.isEmpty then return none
      let before := (← getSt).dedup
      if before.lastMsgId = some msg.id ∧ before.lastMsgText = some text then return none
      if cfg.WA_ONLY then return none
      emit (.askNotebook text)
      let response ← getResponseFromNotebookLM cfg env fuel text false
      match response with
      | some (c :: cs) =>
        if (← getSt).dedup.lastReply ≠ some (c :: cs) then
          let k ← nextOp
          return some { msg := msg, text := text, response := c :: cs, point := .presence, op := k }
        else return none
      | _ => return none

/-- A suspended run goes on when the operation it waits for has settled: from
the presence update through the manual review to the call of
`sock.sendMessage`, or from the send to the end of the handler, where the dedup
variables are set.  `none` when the run has ended. -/
def resume (cfg : Config) (env : Env) (w : Suspended) : Run (Option Suspended) :=
  match w.point with
  | .presence =>
    match env.presence w.op with
    | .error e => throwJS e
    | .ok _ => do
      if cfg.MANUAL_SEND then
        if !(← manualReview env) then return none
      emit (.sendMessage w.msg.remoteJid w.response)
      let k ← nextOp
      return some { w with point := .send, op := k }
  | .send =>
    match env.send w.op with
    | .error e => throwJS e
    | .ok _ => do
      emit (.replied w.response)
      modifySt (fun s => { s with dedup :=
        { lastMsgId := some w.msg.id, lastMsgText := some w.text, lastReply := some w.response } })
      return none

/-- A suspended run followed to its end with nothing else in between. -/
def finish (cfg : Config) (env : Env) (w : Suspended) : Run Unit := do
  match (← resume cfg env w) with
  | none => pure ()
  | some w1 =>
    let _ ← resume cfg env w1
    pure ()

/-- One step of the process as the router sees it. -/
inductive Move where
  /-- the event is delivered to the listener -/
  | deliver (m : List WAMessage)
  /-- the operation awaited by the `i`-th suspended run settles and the run goes on -/
  | resume (i : Nat)
  deriving DecidableEq, Repr

/-- The process with its suspended handler runs, oldest first. -/
structure Router where
  st : St
  waiting : List Suspended
  deriving DecidableEq, Repr

/-- One move: a run that throws or that never ends is not seen again. -/
def Router.step (cfg : Config) (env : Env) (fuel : Nat) (r : Router) : Move → Router
  | .deliver m =>
    match arrive cfg env fuel m r.st with
    | .ok (some w) s => { st := s, waiting := r.waiting ++ [w] }
    | .ok none s => { st := s, waiting := r.waiting }
    | .threw _ s => { st := s, waiting := r.waiting }
    | .pending s => { st := s, waiting := r.waiting }
  | .resume i =>
    match r.waiting[i]? with
    | none => r
    | some w =>
      match resume cfg env w r.st with
      | .ok (some w1) s => { st := s, waiting := r.waiting.set i w1 }
      | .ok none s => { st := s, waiting := r.waiting.eraseIdx i }
      | .threw _ s => { st := s, waiting := r.waiting.eraseIdx i }
      | .pending s => { st := s, waiting := r.waiting.eraseIdx i }

/-- A sequence of moves. -/
def runMoves (cfg : Config) (env : Env) (fuel : Nat) : List Move → Router → Router
  | [], r => r
  | mv :: mvs, r => runMoves cfg env fuel mvs (r.step cfg env fuel mv)

/-- The moves in which handler runs do not overlap: each event is delivered
when the run for the event before it has ended (a run passes two awaits on the
socket at most). -/
def inOrder (events : List (List WAMessage)) : List Move :=
  events.flatMap (fun m => [.deliver m, .resume 0, .resume 0])

/-- The process after the events were handled without overlap, started with no
run suspended. -/
def handledInOrder (cfg : Config) (env : Env) (fuel : Nat) (events : List (List WAMessage))
    (s : St) : Router :=
  runMoves cfg env fuel (inOrder events) { st := s, waiting := [] }

/-- The number of `sendMessage` calls in a trace. -/
def sendCount (trace : List Act) : Nat :=
  trace.countP Act.isSend

/-- At most `n` of the appended actions are `sendMessage` calls. -/
def sendFrame : Graded where
  counts := Act.isSend
  rel n s s1 := ∃ acts, s1.trace = s.trace ++ acts ∧ acts.countP Act.isSend ≤ n
  same s s1 _ ht := ⟨[], by simp [ht], by simp⟩
  emit0 s a ha := ⟨[a], rfl, by simp [ha]⟩
  comp a b s1 s2 s3 h12 h23 := by
    obtain ⟨acts, ht, hc⟩ := h12
    obtain ⟨acts2, ht2, hc2⟩ := h23
    refine ⟨acts ++ acts2, by simp [ht2, ht], ?_⟩
    simp only [List.countP_append]
    omega
  mono a b s1 s2 hab h := by
    obtain ⟨acts, ht, hc⟩ := h
    exact ⟨acts, ht, by omega⟩

/-- Two turns for `gm`, each answered with `replyGm`, the second started while
the run of the first waits for its presence update; then the two presence
updates and the two sends settle. -/
def scriptOverlap : List Answer :=
  turnAnswers [] (js "gm") replyGm 0 ++ [.done] ++
  turnAnswers [(js "gm", replyGm)] (js "gm") replyGm 100000 ++ [.done, .done, .done]

/-- The error of a send that did not go out. -/
def connectionClosed : JSError :=
  JSError.ofText "Connection Closed"

/-- Two turns for `gm` one after the other; the `sendMessage` call of the first
rejects. -/
def scriptSendRejected : List Answer :=
  turnAnswers [] (js "gm") replyGm 0 ++ [.done, .fails connectionClosed] ++
  turnAnswers [(js "gm", replyGm)] (js "gm") replyGm 100000 ++ [.done, .done]

/-- A turn for `how are you` and a turn for `gm`, the second started while the
run of the first waits for its presence update; the send for `gm` settles
first, then the send for `how are you`; then a third turn, again for `gm`. -/
def scriptOvertaken : List Answer :=
  turnAnswers [] (js "how are you") replyHow 0 ++ [.done] ++
  turnAnswers [(js "how are you", replyHow)] (js "gm") replyGm 100000 ++ [.done, .done, .done] ++
  turnAnswers [(js "how are you", replyHow), (js "gm", replyGm)] (js "gm") replyGm 200000 ++
    [.done, .done]

/-! ## What the callbacks of the stabilization wait observe

The readings a resolution rests on, told from the callbacks alone. -/

/-- The variable `target` has been set by the time the given callbacks have
run: the entry list was longer than `prevCount` when the wait started, or at a
callback of the body observer or of the timer. -/
def targetSet (prevCount : Nat) (dom0 : Dom) (es : List PageEvent) : Bool :=
  decide (dom0.entryList.length > prevCount) ||
    es.any (fun e => e.kind != .contentMutation && decide (e.dom.entryList.length > prevCount))

/-- The content observer has been attached by the time the given callbacks
have run: one of them was a timer callback that ran, or ended, with `target`
set (`attachContentObserver`). -/
def observerAttached (prevCount : Nat) (dom0 : Dom) (es : List PageEvent) : Bool :=
  es.inits.any (fun p =>
    match p.getLast? with
    | some e => e.kind == .tick && targetSet prevCount dom0 p
    | none => false)

/-- The callback `m`, coming after the callbacks `earlier`, records no change
for the target `id` holding the text `text`: the timer reads that text from
the target, the body observer sees no list longer than `prevCount`, and a
content mutation is not observed (the content observer is not attached yet). -/
def recordsNoChange (prevCount : Nat) (dom0 : Dom) (id : Nat) (text : JSString)
    (earlier : List PageEvent) (m : PageEvent) : Prop :=
  (m.kind = .tick → getTextFromMessage (m.dom.find id) = text) ∧
  (m.kind = .bodyMutation → m.dom.entryList.length ≤ prevCount) ∧
  (m.kind = .contentMutation → observerAttached prevCount dom0 earlier = false)

/-! ## How the final-stable wait comes to return a text -/

/-- The way `waitForFinalStable`, started with the baseline `start` and the
deadline `deadline`, comes to return the text `t` in the state `s1`: a
stabilization wait with a baseline `prev` returned `t`, the count was read
after it, and either the count had not grown beyond `prev`, or it had and then
the next reading of the clock was at or past the deadline, or it had and the
next stabilization wait, with the new count as baseline, came back blank. -/
def FinalStableExit (cfg : Config) (env : Env) (deadline : Int) (start : Nat) (t : JSString)
    (s1 : St) : Prop :=
  ∃ (prev : Nat) (maxMs : Int) (sW sR : St) (counts : Counts) (sC : St),
    start ≤ prev ∧
    waitForStableResponse cfg env prev (some maxMs) sW = .ok t sR ∧
    countMessages env sR = .ok counts sC ∧
    ((counts.msgCount ≤ prev ∧ s1 = sC) ∨
     (prev < counts.msgCount ∧
       ((∃ now, dateNow env sC = .ok now s1 ∧ deadline ≤ now) ∨
        (∃ now1 sA now2 sB blank, dateNow env sC = .ok now1 sA ∧ now1 < deadline ∧
          dateNow env sA = .ok now2 sB ∧
          waitForStableResponse cfg env counts.msgCount (some (max 1000 (deadline - now2))) sB =
            .ok blank s1 ∧
          nonBlank blank = false))))
/-! ## Strings -/

theorem trim_sublist (s : JSString) : (trim s).Sublist s := by
  unfold trim
  have h1 : ((s.dropWhile isWhiteSpace).reverse.dropWhile isWhiteSpace).Sublist
      (s.dropWhile isWhiteSpace).reverse := (List.dropWhile_suffix _).sublist
  have h2 := h1.reverse
  rw [List.reverse_reverse] at h2
  exact h2.trans (List.dropWhile_suffix _).sublist

theorem trim_length_le (s : JSString) : (trim s).length ≤ s.length :=
  (trim_sublist s).length_le

theorem toLowerCase_length_le (s : JSString) (h : 0x130 ∉ s) :
    (toLowerCase s).length ≤ s.length := by
  induction s with
  | nil => simp [toLowerCase]
  | cons c cs ih =>
    have hc : c ≠ 0x130 := fun hc => h (by simp [hc])
    have hcs : 0x130 ∉ cs := fun hcs => h (List.mem_cons_of_mem _ hcs)
    have := ih hcs
    simp only [toLowerCase, List.flatMap_cons, List.length_append, List.length_cons] at *
    have h1 : (lowerUnit c).length = 1 := by
      unfold lowerUnit
      split_ifs <;> simp_all
    omega

theorem isLoading_of_short (t : JSString) (h : (toLowerCase (trim t)).length < minAcceptLen) :
    isLoading t = true := by
  unfold isLoading
  split
  · rfl
  · simp [h]

theorem dropWhile_keeps_tail (p : Nat → Bool) (e : Nat) (he : p e = false) (ws : JSString) :
    ∀ pre : JSString, ∃ pre2, (pre ++ e :: ws).dropWhile p = pre2 ++ e :: ws
  | [] => ⟨[], by simp [List.dropWhile, he]⟩
  | c :: cs => by
    cases hc : p c with
    | true =>
      obtain ⟨pre2, h⟩ := dropWhile_keeps_tail p e he ws cs
      exact ⟨pre2, by simp [List.dropWhile, hc, h]⟩
    | false => exact ⟨c :: cs, by simp [List.dropWhile, hc]⟩

theorem dropWhile_all_prefix (p : Nat → Bool) (e : Nat) (he : p e = false) (r : JSString) :
    ∀ l : JSString, (∀ c ∈ l, p c = true) → (l ++ e :: r).dropWhile p = e :: r
  | [], _ => by simp [List.dropWhile, he]
  | c :: cs, h => by
    have hc : p c = true := h c (by simp)
    simp [List.dropWhile, hc, dropWhile_all_prefix p e he r cs (fun x hx => h x (by simp [hx]))]

theorem trim_ends_with (e : Nat) (he : isWhiteSpace e = false) (pre ws : JSString)
    (hws : ∀ c ∈ ws, isWhiteSpace c = true) :
    ∃ pre2, trim (pre ++ e :: ws) = pre2 ++ [e] := by
  obtain ⟨pre2, h⟩ := dropWhile_keeps_tail isWhiteSpace e he ws pre
  refine ⟨pre2, ?_⟩
  unfold trim
  rw [h]
  have : (pre2 ++ e :: ws).reverse = ws.reverse ++ e :: pre2.reverse := by simp
  rw [this, dropWhile_all_prefix isWhiteSpace e he _ _ (by simpa using hws)]
  simp

/-! ## Counting entries -/

theorem msgCount_le_of_grownTo (a b : Dom) (h : grownTo a b = true) :
    (countOf a).msgCount ≤ (countOf b).msgCount := by
  unfold grownTo appendedTo at h
  simp only [Bool.and_eq_true, Bool.or_eq_true, Bool.not_eq_true', List.isEmpty_eq_true,
    List.isEmpty_eq_false] at h
  obtain ⟨⟨hp, hc⟩, hsel⟩ := h
  have hp1 := (List.isPrefixOf_iff_prefix.mp hp).length_le
  have hc1 := (List.isPrefixOf_iff_prefix.mp hc).length_le
  simp only [List.length_map] at hp1 hc1
  unfold countOf
  dsimp only
  split_ifs with h1 h2 h2
  · exact hp1
  · omega
  · rcases hsel with hne | he
    · simp [List.length_eq_zero] at h1
      exact absurd h1 hne
    · simp [he] at h2
  · exact hc1

/-! ## Runs: how a sequence of statements moves the state -/

theorem run_pure {α : Type} (a : α) (s : St) : (pure a : Run α) s = .ok a s := rfl

theorem run_bind {α β : Type} (m : Run α) (f : α → Run β) (s : St) :
    (m >>= f) s = match m s with
      | .ok a s1 => f a s1
      | .threw e s1 => .threw e s1
      | .pending s1 => .pending s1 := rfl

theorem run_tryCatch {α : Type} (m : Run α) (h : JSError → Run α) (s : St) :
    tryCatch m h s = match m s with
      | .threw e s1 => h e s1
      | r => r := rfl

theorem moves_mono {G : Graded} {n k : Nat} {α : Type} {m : Run α}
    (h : Moves G n m) (hk : n ≤ k) : Moves G k m :=
  fun s => G.mono n k _ _ hk (h s)

theorem moves_of_same {G : Graded} {n : Nat} {α : Type} {m : Run α}
    (h : ∀ s, (m s).state.dedup = s.dedup ∧ (m s).state.trace = s.trace) : Moves G n m :=
  fun s => G.mono 0 n _ _ (Nat.zero_le _) (G.same _ _ (h s).1 (h s).2)

theorem moves_pure {G : Graded} {n : Nat} {α : Type} (a : α) : Moves G n (pure a : Run α) :=
  moves_of_same (fun _ => ⟨rfl, rfl⟩)

theorem moves_throwJS {G : Graded} {n : Nat} {α : Type} (e : JSError) :
    Moves G n (throwJS e : Run α) :=
  moves_of_same (fun _ => ⟨rfl, rfl⟩)

theorem moves_neverEnds {G : Graded} {n : Nat} {α : Type} : Moves G n (neverEnds : Run α) :=
  moves_of_same (fun _ => ⟨rfl, rfl⟩)

theorem moves_getSt {G : Graded} {n : Nat} : Moves G n getSt :=
  moves_of_same (fun _ => ⟨rfl, rfl⟩)

theorem moves_nextOp {G : Graded} {n : Nat} : Moves G n nextOp :=
  moves_of_same (fun _ => ⟨rfl, rfl⟩)

theorem moves_modifySt {G : Graded} {n : Nat} (f : St → St)
    (h : ∀ s, (f s).dedup = s.dedup ∧ (f s).trace = s.trace) : Moves G n (modifySt f) :=
  moves_of_same h

theorem moves_emit {G : Graded} {n : Nat} (a : Act) (h : G.counts a = false) :
    Moves G n (emit a) :=
  fun s => G.mono 0 n _ _ (Nat.zero_le _) (G.emit0 s a h)

theorem moves_bind_add {G : Graded} {a b : Nat} {α β : Type} {m : Run α} {f : α → Run β}
    (hm : Moves G a m) (hf : ∀ x, Moves G b (f x)) : Moves G (a + b) (m >>= f) := by
  intro s
  have h1 := hm s
  rw [run_bind]
  cases hms : m s with
  | ok x s1 =>
    rw [hms] at h1
    exact G.comp a b _ _ _ h1 (hf x s1)
  | threw e s1 =>
    rw [hms] at h1
    exact G.mono a (a + b) _ _ (Nat.le_add_right a b) h1
  | pending s1 =>
    rw [hms] at h1
    exact G.mono a (a + b) _ _ (Nat.le_add_right a b) h1

theorem moves_bind {G : Graded} {n : Nat} {α β : Type} {m : Run α} {f : α → Run β}
    (hm : Moves G 0 m) (hf : ∀ x, Moves G n (f x)) : Moves G n (m >>= f) := by
  have := moves_bind_add hm hf
  simpa using this

theorem moves_tryCatch_add {G : Graded} {a b : Nat} {α : Type} {m : Run α}
    {h : JSError → Run α} (hm : Moves G a m) (hh : ∀ e, Moves G b (h e)) :
    Moves G (a + b) (tryCatch m h) := by
  intro s
  have h1 := hm s
  rw [run_tryCatch]
  cases hms : m s with
  | ok x s1 =>
    rw [hms] at h1
    exact G.mono a (a + b) _ _ (Nat.le_add_right a b) h1
  | threw e s1 =>
    rw [hms] at h1
    exact G.comp a b _ _ _ h1 (hh e s1)
  | pending s1 =>
    rw [hms] at h1
    exact G.mono a (a + b) _ _ (Nat.le_add_right a b) h1

theorem moves_tryCatch {G : Graded} {n : Nat} {α : Type} {m : Run α}
    {h : JSError → Run α} (hm : Moves G 0 m) (hh : ∀ e, Moves G n (h e)) :
    Moves G n (tryCatch m h) := by
  have := moves_tryCatch_add hm hh
  simpa using this

theorem moves_awaitOp {G : Graded} {n : Nat} {α : Type} (answer : Nat → Except JSError α) :
    Moves G n (awaitOp answer) := by
  unfold awaitOp
  refine moves_bind moves_nextOp (fun k => ?_)
  split
  · exact moves_pure _
  · exact moves_throwJS _

theorem moves_getPage {G : Graded} {n : Nat} : Moves G n getPage := by
  unfold getPage
  refine moves_bind moves_getSt (fun k => ?_)
  split
  · exact moves_pure _
  · exact moves_throwJS _

theorem moves_usePage {G : Graded} {n : Nat} : Moves G n usePage := by
  unfold usePage
  refine moves_bind moves_getSt (fun k => ?_)
  split
  · exact moves_pure _
  · exact moves_throwJS _
  · exact moves_throwJS _

theorem moves_dateNow {G : Graded} {n : Nat} (env : Env) : Moves G n (dateNow env) := by
  unfold dateNow
  exact moves_bind moves_nextOp (fun k => moves_pure _)

theorem moves_countMessages {G : Graded} {n : Nat} (env : Env) :
    Moves G n (countMessages env) := by
  unfold countMessages
  exact moves_bind moves_usePage (fun _ => moves_bind (moves_awaitOp _) (fun _ => moves_pure _))

theorem moves_deliveryRound {G : Graded} {n : Nat} (env : Env) (text : JSString)
    (ha : ∀ a b, G.counts (.attempt a b) = false) (hs : G.counts (.submit text) = false) :
    ∀ k, Moves G n (deliveryRound env text k)
  | 0 => moves_pure _
  | k + 1 => by
    unfold deliveryRound
    refine moves_bind moves_nextOp (fun j => ?_)
    split
    · exact moves_bind (moves_emit _ (ha _ _))
        (fun _ => moves_bind (moves_emit _ hs) (fun _ => moves_pure _))
    · exact moves_bind (moves_emit _ (ha _ _)) (fun _ => moves_deliveryRound env text ha hs k)

/-- `typeAndSend` appends its own call and, besides, only attempts, the
submission and the reload. -/
theorem moves_typeAndSend_add {G : Graded} {n : Nat} (env : Env) (text : JSString)
    (ha : ∀ a b, G.counts (.attempt a b) = false) (hs : G.counts (.submit text) = false)
    (hr : G.counts .reload = false) (hts : Moves G n (emit (.typeAndSend text))) :
    Moves G n (typeAndSend env text) := by
  unfold typeAndSend
  dsimp only
  refine moves_mono (moves_bind_add (b := 0) hts (fun _ => ?_)) (by omega)
  repeat' first
    | exact moves_pure _
    | exact moves_throwJS _
    | exact moves_getPage
    | exact moves_awaitOp _
    | exact moves_deliveryRound env text ha hs _
    | exact moves_emit _ hr
    | apply moves_bind
    | split
    | intro _

theorem moves_waitForStableResponse {G : Graded} {n : Nat} (cfg : Config) (env : Env)
    (prev : Nat) (o : Option Int) (hG : ∀ p m t, G.counts (.stableResolved p m t) = false) :
    Moves G n (waitForStableResponse cfg env prev o) := by
  unfold waitForStableResponse
  dsimp only
  repeat' first
    | exact moves_pure _
    | exact moves_neverEnds
    | exact moves_usePage
    | exact moves_awaitOp _
    | exact moves_emit _ (hG _ _ _)
    | apply moves_bind
    | split
    | intro _

theorem moves_waitForFirstNonLoading {G : Graded} {n : Nat} (env : Env)
    (prev : Nat) (maxMs : Int) (hG : ∀ p m t, G.counts (.firstResolved p m t) = false) :
    Moves G n (waitForFirstNonLoading env prev maxMs) := by
  unfold waitForFirstNonLoading
  repeat' first
    | exact moves_pure _
    | exact moves_neverEnds
    | exact moves_usePage
    | exact moves_awaitOp _
    | exact moves_emit _ (hG _ _ _)
    | apply moves_bind
    | split
    | intro _

/-- A predicate on actions that holds of router actions only is false of every
other action. -/
theorem not_counted {G : Graded} (hG : ∀ a, G.counts a = true → a.isRouter = true) (a : Act)
    (h : a.isRouter = false) : G.counts a = false := by
  cases hq : G.counts a with
  | false => rfl
  | true => rw [hG a hq] at h; cases h

theorem quiet_typeAndSend {G : Graded} {n : Nat}
    (hG : ∀ a, G.counts a = true → a.isRouter = true)
    (env : Env) (text : JSString) : Moves G n (typeAndSend env text) :=
  moves_typeAndSend_add env text (fun _ _ => not_counted hG _ rfl) (not_counted hG _ rfl)
    (not_counted hG _ rfl) (moves_emit _ (not_counted hG _ rfl))

theorem quiet_ensurePersonaPinned {G : Graded} {n : Nat}
    (hG : ∀ a, G.counts a = true → a.isRouter = true) (cfg : Config) (env : Env) :
    Moves G n (ensurePersonaPinned cfg env) := by
  unfold ensurePersonaPinned
  dsimp only
  repeat' first
    | exact moves_pure _
    | exact moves_usePage
    | exact moves_awaitOp _
    | exact moves_countMessages _
    | exact quiet_typeAndSend hG _ _
    | exact moves_waitForStableResponse _ _ _ _ (fun _ _ _ => not_counted hG _ rfl)
    | apply moves_bind
    | split
    | intro _

theorem quiet_initNotebookLM {G : Graded} {n : Nat}
    (hG : ∀ a, G.counts a = true → a.isRouter = true) (cfg : Config) (env : Env) :
    Moves G n (initNotebookLM cfg env) := by
  unfold initNotebookLM
  dsimp only
  repeat' first
    | exact moves_pure _
    | exact moves_throwJS _
    | exact moves_nextOp
    | exact moves_awaitOp _
    | exact moves_modifySt _ (fun _ => ⟨rfl, rfl⟩)
    | exact moves_emit _ (not_counted hG _ rfl)
    | exact quiet_ensurePersonaPinned hG _ _
    | apply moves_bind
    | apply moves_tryCatch
    | split
    | intro _

theorem quiet_waitForFinalStableLoop {G : Graded} {n : Nat}
    (hG : ∀ a, G.counts a = true → a.isRouter = true) (cfg : Config) (env : Env)
    (deadline : Int) :
    ∀ fuel prev lastResp, Moves G n (waitForFinalStableLoop cfg env deadline fuel prev lastResp)
  | 0, _, _ => moves_neverEnds
  | fuel + 1, prev, lastResp => by
    unfold waitForFinalStableLoop
    dsimp only
    repeat' first
      | exact moves_pure _
      | exact moves_dateNow _
      | exact moves_countMessages _
      | exact moves_waitForStableResponse _ _ _ _ (fun _ _ _ => not_counted hG _ rfl)
      | exact quiet_waitForFinalStableLoop hG cfg env deadline fuel _ _
      | apply moves_bind
      | split
      | intro _

theorem quiet_turnBody {G : Graded} {n : Nat}
    (hG : ∀ a, G.counts a = true → a.isRouter = true) (cfg : Config) (env : Env) (fuel : Nat)
    (message : JSString) : Moves G n (turnBody cfg env fuel message) := by
  unfold turnBody waitForFinalStable deadlineIn
  dsimp only
  repeat' first
    | exact moves_pure _
    | exact moves_dateNow _
    | exact moves_getPage
    | exact moves_awaitOp _
    | exact moves_countMessages _
    | exact quiet_typeAndSend hG _ _
    | exact moves_waitForFirstNonLoading _ _ _ (fun _ _ _ => not_counted hG _ rfl)
    | exact quiet_waitForFinalStableLoop hG _ _ _ _ _ _
    | apply moves_bind
    | split
    | intro _

theorem quiet_recoverOrGiveUp {G : Graded} {n : Nat}
    (hG : ∀ a, G.counts a = true → a.isRouter = true) (cfg : Config) (env : Env)
    (retrying : Bool) (replay : Run (Option JSString)) (hr : Moves G 0 replay) (err : JSError) :
    Moves G n (recoverOrGiveUp cfg env retrying replay err) := by
  unfold recoverOrGiveUp
  dsimp only
  repeat' first
    | exact moves_pure _
    | exact moves_throwJS _
    | exact moves_getSt
    | exact moves_nextOp
    | exact moves_mono hr (Nat.zero_le _)
    | exact moves_modifySt _ (fun _ => ⟨rfl, rfl⟩)
    | exact moves_emit _ (not_counted hG _ rfl)
    | exact quiet_initNotebookLM hG _ _
    | apply moves_bind
    | apply moves_tryCatch
    | split
    | intro _

theorem quiet_getResponseWith {G : Graded} {n : Nat}
    (hG : ∀ a, G.counts a = true → a.isRouter = true) (cfg : Config) (env : Env) (fuel : Nat)
    (message : JSString) (retrying : Bool) (replay : Run (Option JSString))
    (hr : Moves G 0 replay) : Moves G n (getResponseWith cfg env fuel message retrying replay) := by
  unfold getResponseWith
  dsimp only
  repeat' first
    | exact moves_pure _
    | exact moves_getSt
    | exact moves_emit _ (not_counted hG _ rfl)
    | exact quiet_turnBody hG _ _ _ _
    | exact quiet_recoverOrGiveUp hG _ _ _ _ hr _
    | apply moves_bind
    | apply moves_tryCatch
    | split
    | intro _

/-- A turn appends no router action to the trace and keeps the dedup variables. -/
theorem quiet_getResponseFromNotebookLM {G : Graded} {n : Nat}
    (hG : ∀ a, G.counts a = true → a.isRouter = true) (cfg : Config) (env : Env) (fuel : Nat)
    (message : JSString) (retrying : Bool) :
    Moves G n (getResponseFromNotebookLM cfg env fuel message retrying) :=
  quiet_getResponseWith hG cfg env fuel message retrying _
    (quiet_getResponseWith hG cfg env fuel message true _ (moves_pure _))

/-! ## The router -/

theorem moves_manualReview {G : Graded} {n : Nat} (env : Env) : Moves G n (manualReview env) := by
  unfold manualReview
  dsimp only
  repeat' first
    | exact moves_pure _
    | exact moves_throwJS _
    | exact moves_nextOp
    | apply moves_bind
    | split
    | intro _

/-- The end of the send branch: the completed send is recorded and the dedup
variables are set. -/
theorem moves_replied (id : Option JSString) (text response : JSString) :
    Moves (routerFrame id text) 1
      (emit (.replied response) >>= fun _ =>
        modifySt (fun s => { s with dedup :=
          { lastMsgId := some id, lastMsgText := some text, lastReply := some response } })) := by
  intro s
  exact ⟨[.replied response], rfl, by simp [Act.isReplied],
    Or.inr ⟨by simp [Act.isReplied], response, rfl⟩⟩

theorem moves_dispatchReply (cfg : Config) (env : Env) (msg : WAMessage)
    (text response : JSString) :
    Moves (routerFrame msg.id text) 1 (dispatchReply cfg env msg text response) := by
  unfold dispatchReply
  dsimp only
  repeat' first
    | exact moves_pure _
    | exact moves_awaitOp _
    | exact moves_manualReview _
    | exact moves_emit _ rfl
    | exact moves_replied _ _ _
    | apply moves_bind
    | split
    | intro _

theorem moves_onMessagesUpsert (cfg : Config) (env : Env) (fuel : Nat) (m : List WAMessage)
    (id : Option JSString) (text : JSString) (hkey : eventKey m = some (id, text)) :
    Moves (routerFrame id text) 1 (onMessagesUpsert cfg env fuel m) := by
  cases m with
  | nil => cases hkey
  | cons msg rest =>
    obtain ⟨message, fromMe, remoteJid, mid⟩ := msg
    cases message with
    | none => cases hkey
    | some content =>
      simp only [eventKey, List.head?_cons, Option.map_some', Option.some.injEq,
        Prod.mk.injEq] at hkey
      obtain ⟨hid, htext⟩ := hkey
      subst hid
      subst htext
      unfold onMessagesUpsert
      dsimp only [List.head?_cons]
      repeat' first
        | exact moves_pure _
        | exact moves_getSt
        | exact moves_emit _ rfl
        | exact moves_dispatchReply _ _ _ _ _
        | exact quiet_getResponseFromNotebookLM
            (fun a ha => by cases a <;> simp_all [routerFrame, Act.isReplied, Act.isRouter]) _ _ _ _ _
        | apply moves_bind
        | split
        | intro _

/-- An event without a message leaves the state as it is. -/
theorem onMessagesUpsert_no_key (cfg : Config) (env : Env) (fuel : Nat) (m : List WAMessage)
    (hkey : eventKey m = none) (s : St) : (onMessagesUpsert cfg env fuel m s).state = s := by
  cases m with
  | nil => rfl
  | cons msg rest =>
    obtain ⟨message, fromMe, remoteJid, mid⟩ := msg
    cases message with
    | none => rfl
    | some content => simp [eventKey] at hkey

/-- An event whose id and text are the ones stored is skipped: the state is
left as it is. -/
theorem onMessagesUpsert_duplicate (cfg : Config) (env : Env) (fuel : Nat) (m : List WAMessage)
    (id : Option JSString) (text : JSString) (hkey : eventKey m = some (id, text)) (s : St)
    (hid : s.dedup.lastMsgId = some id) (htext : s.dedup.lastMsgText = some text) :
    onMessagesUpsert cfg env fuel m s = .ok () s := by
  cases m with
  | nil => cases hkey
  | cons msg rest =>
    obtain ⟨message, fromMe, remoteJid, mid⟩ := msg
    cases message with
    | none => cases hkey
    | some content =>
      simp only [eventKey, List.head?_cons, Option.map_some', Option.some.injEq,
        Prod.mk.injEq] at hkey
      obtain ⟨h1, h2⟩ := hkey
      subst h1
      subst h2
      unfold onMessagesUpsert
      dsimp only [List.head?_cons]
      cases fromMe with
      | true => rfl
      | false =>
        cases ha : allowed cfg (remoteJid.getD []) with
        | false => rfl
        | true =>
          cases he : (textOf content).isEmpty with
          | true => rfl
          | false =>
            simp only [Bool.false_eq_true, ↓reduceIte, Bool.not_true, run_bind, getSt, run_pure, hid,
              htext, and_self]

/-- One handler run: the number of completed sends grows by at most one, and
the dedup variables change only when it grows; when it grows the variables
hold the key of the event. -/
theorem onMessagesUpsert_step (cfg : Config) (env : Env) (fuel : Nat) (m : List WAMessage)
    (s : St) :
    let s1 := (onMessagesUpsert cfg env fuel m s).state
    repliedCount s.trace ≤ repliedCount s1.trace ∧
    repliedCount s1.trace ≤ repliedCount s.trace + 1 ∧
    (repliedCount s1.trace = repliedCount s.trace → s1.dedup = s.dedup) ∧
    (repliedCount s1.trace ≠ repliedCount s.trace →
      ∃ id text, eventKey m = some (id, text) ∧ s1.dedup.lastMsgId = some id ∧
        s1.dedup.lastMsgText = some text) := by
  intro s1
  cases hkey : eventKey m with
  | none =>
    have h : s1 = s := onMessagesUpsert_no_key cfg env fuel m hkey s
    rw [h]
    simp
  | some key =>
    obtain ⟨id, text⟩ := key
    obtain ⟨acts, ht, hc, hk⟩ := moves_onMessagesUpsert cfg env fuel m id text hkey s
    have htr : s1.trace = s.trace ++ acts := ht
    simp only [repliedCount, htr, List.countP_append]
    refine ⟨by omega, by omega, ?_, ?_⟩
    · intro h0
      rcases hk with ⟨hd, _⟩ | ⟨hpos, _⟩
      · exact hd
      · omega
    · intro hne
      rcases hk with ⟨_, h0⟩ | ⟨_, reply, hd⟩
      · omega
      · exact ⟨id, text, rfl, by rw [show s1.dedup = _ from hd], by rw [show s1.dedup = _ from hd]⟩

/-- A sequence of handler runs never lowers the number of completed sends, and
keeps the dedup variables when it does not raise it. -/
theorem handleAll_step (cfg : Config) (env : Env) (fuel : Nat) :
    ∀ (ms : List (List WAMessage)) (s : St),
      repliedCount s.trace ≤ repliedCount (handleAll cfg env fuel ms s).trace ∧
      (repliedCount (handleAll cfg env fuel ms s).trace = repliedCount s.trace →
        (handleAll cfg env fuel ms s).dedup = s.dedup)
  | [], s => ⟨le_refl _, fun _ => rfl⟩
  | m :: ms, s => by
    obtain ⟨h1, _, h3, _⟩ := onMessagesUpsert_step cfg env fuel m s
    obtain ⟨h4, h5⟩ := handleAll_step cfg env fuel ms (onMessagesUpsert cfg env fuel m s).state
    simp only [handleAll]
    refine ⟨h1.trans h4, fun heq => ?_⟩
    have e1 : repliedCount (onMessagesUpsert cfg env fuel m s).state.trace = repliedCount s.trace := by
      omega
    rw [h5 (by omega), h3 e1]

theorem handleAll_append (cfg : Config) (env : Env) (fuel : Nat) :
    ∀ (a b : List (List WAMessage)) (t : St),
      handleAll cfg env fuel (a ++ b) t = handleAll cfg env fuel b (handleAll cfg env fuel a t)
  | [], _, _ => rfl
  | x :: xs, b, t => by
    rw [List.cons_append]
    simp only [handleAll]
    exact handleAll_append cfg env fuel xs b _

/-! ## What a run is sure to leave in the trace -/

/-- A run only appends to the trace. -/
theorem trace_grows {α : Type} {m : Run α} (h : Moves (quietFrame (fun _ => false)) 0 m)
    (s : St) (a : Act) (ha : a ∈ s.trace) : a ∈ (m s).state.trace := by
  obtain ⟨_, acts, ht, _⟩ := h s
  rw [ht]
  exact List.mem_append_left _ ha

theorem nothing_counted (a : Act) (h : (quietFrame (fun _ => false)).counts a = true) :
    a.isRouter = true := by
  simp [quietFrame] at h

theorem mem_emit_bind {β : Type} (a : Act) (rest : Unit → Run β)
    (h : ∀ x, Moves (quietFrame (fun _ => false)) 0 (rest x)) (s : St) :
    a ∈ ((emit a >>= rest) s).state.trace := by
  rw [run_bind]
  exact trace_grows (h ()) _ a (by simp)

theorem mem_bind_of_mem {α β : Type} (m : Run α) (k : α → Run β) (a : Act)
    (hm : ∀ s, a ∈ (m s).state.trace) (hk : ∀ x, Moves (quietFrame (fun _ => false)) 0 (k x))
    (s : St) : a ∈ ((m >>= k) s).state.trace := by
  have h1 := hm s
  rw [run_bind]
  cases hms : m s with
  | ok x s1 => rw [hms] at h1; exact trace_grows (hk x) _ a h1
  | threw e s1 => rw [hms] at h1; exact h1
  | pending s1 => rw [hms] at h1; exact h1

theorem mem_tryCatch_of_mem {α : Type} (m : Run α) (h : JSError → Run α) (a : Act)
    (hm : ∀ s, a ∈ (m s).state.trace) (hh : ∀ e, Moves (quietFrame (fun _ => false)) 0 (h e))
    (s : St) : a ∈ (tryCatch m h s).state.trace := by
  have h1 := hm s
  rw [run_tryCatch]
  cases hms : m s with
  | ok x s1 => rw [hms] at h1; exact h1
  | threw e s1 => rw [hms] at h1; exact trace_grows (hh e) _ a h1
  | pending s1 => rw [hms] at h1; exact h1

/-- `initNotebookLM` records its call whatever happens next. -/
theorem initNotebookLM_recorded (cfg : Config) (env : Env) (s : St) :
    Act.initNotebookLM ∈ (initNotebookLM cfg env s).state.trace := by
  unfold initNotebookLM
  apply mem_emit_bind
  intro _
  dsimp only
  repeat' first
    | exact moves_pure _
    | exact moves_throwJS _
    | exact moves_nextOp
    | exact moves_awaitOp _
    | exact moves_modifySt _ (fun _ => ⟨rfl, rfl⟩)
    | exact quiet_ensurePersonaPinned nothing_counted _ _
    | apply moves_bind
    | apply moves_tryCatch
    | split
    | intro _

theorem recoverOrGiveUp_fatal (cfg : Config) (env : Env) (replay : Run (Option JSString))
    (text : JSString) (hfatal : isFatal text = true) (s : St) :
    recoverOrGiveUp cfg env false replay { message := some text } s =
      tryCatch (do
          initNotebookLM cfg env
          modifySt (fun s => { s with page := .undefined })
          replay) (fun _ => (pure none : Run (Option JSString))) (afterClose s) := by
  unfold recoverOrGiveUp afterClose
  simp only [Bool.false_eq_true, ↓reduceIte, hfatal, run_bind, run_pure]
  cases hb : s.browser.isSome with
  | true =>
    simp only [emit, modifySt, getSt, nextOp, hb, ↓reduceIte, run_bind, List.append_assoc,
      List.singleton_append]
  | false =>
    simp only [emit, modifySt, getSt, nextOp, hb, ↓reduceIte, run_bind, run_pure, Bool.false_eq_true]

/-! ## The turn -/

theorem inputUnavailable_is_fatal :
    ∃ text, inputUnavailable.message = some text ∧ isFatal text = true :=
  ⟨_, rfl, by decide⟩

/-- The `try` block throws what `typeAndSend` throws. -/
theorem turnBody_throws (cfg : Config) (env : Env) (fuel : Nat) (message : JSString)
    (s s1 s2 : St) (counts : Counts) (e : JSError)
    (hcount : countMessages env s = .ok counts s1)
    (hsend : typeAndSend env message s1 = .threw e s2) :
    turnBody cfg env fuel message s = .threw e s2 := by
  unfold turnBody
  simp only [run_bind, hcount, hsend]

theorem getResponseWith_caught (cfg : Config) (env : Env) (fuel : Nat) (message : JSString)
    (retrying : Bool) (replay : Run (Option JSString)) (s s2 : St) (e : JSError)
    (hpage : s.page.isSet = true)
    (hbody : turnBody cfg env fuel message
      { s with trace := s.trace ++ [.turn message retrying] } = .threw e s2) :
    getResponseWith cfg env fuel message retrying replay s =
      recoverOrGiveUp cfg env retrying replay e s2 := by
  unfold getResponseWith
  simp only [run_bind, getSt, hpage, Bool.not_true, Bool.false_eq_true, ↓reduceIte, run_pure, emit,
    modifySt, run_tryCatch, hbody]

/-! ## The final-stable wait -/

/-- A stabilization wait that returns has recorded the text it returns, and
nothing else. -/
theorem waitForStableResponse_ok (cfg : Config) (env : Env) (prev : Nat) (o : Option Int)
    (s s1 : St) (resp : JSString)
    (h : waitForStableResponse cfg env prev o s = .ok resp s1) :
    s1.trace = s.trace ++ [.stableResolved prev (o.getD cfg.RESPONSE_MAX_WAIT) resp] := by
  unfold waitForStableResponse usePage awaitOp at h
  simp only [run_bind, getSt, nextOp] at h
  cases hp : s.page with
  | null => simp [hp, throwJS] at h
  | undefined => simp [hp, throwJS] at h
  | handle n =>
    simp only [hp, run_pure] at h
    cases hr : env.pageRun s.step with
    | error e => simp [hr, throwJS] at h
    | ok run =>
      simp only [hr, run_pure] at h
      cases hw : stableWait prev cfg.RESPONSE_STABLE_MS (o.getD cfg.RESPONSE_MAX_WAIT) run with
      | none => simp [hw, neverEnds] at h
      | some r =>
        simp only [hw, run_bind, emit, modifySt, run_pure, Res.ok.injEq] at h
        obtain ⟨h1, h2⟩ := h
        rw [← h2, ← h1]

theorem countMessages_trace (env : Env) (s : St) :
    (countMessages env s).state.trace = s.trace := by
  obtain ⟨_, acts, ht, hc⟩ := (moves_countMessages (G := quietFrame (fun _ => true)) (n := 0) env) s
  have : acts = [] := by
    cases acts with
    | nil => rfl
    | cons a as => simp [quietFrame] at hc
  rw [ht, this, List.append_nil]

theorem dateNow_trace (env : Env) (s : St) : (dateNow env s).state.trace = s.trace := rfl

theorem dateNow_ok (env : Env) (s : St) :
    dateNow env s = .ok (env.clock s.step) { s with step := s.step + 1 } := rfl

theorem orNull_some (lastResp t : JSString) (h : orNull lastResp = some t) :
    t = lastResp ∧ lastResp ≠ [] := by
  unfold orNull at h
  split at h
  · cases h
  · rename_i hne
    simp only [Option.some.injEq] at h
    exact ⟨h.symm, by intro h0; simp [h0] at hne⟩

/-- The loop of `waitForFinalStable` returns either the `lastResp` it was
entered with or a non-blank text that one of its stabilization waits returned. -/
theorem waitForFinalStableLoop_returns (cfg : Config) (env : Env) (deadline : Int) :
    ∀ (fuel prev : Nat) (lastResp : JSString) (s s1 : St) (t : JSString),
      waitForFinalStableLoop cfg env deadline fuel prev lastResp s = .ok (some t) s1 →
      (t = lastResp ∧ lastResp ≠ []) ∨
      (nonBlank t = true ∧ ∃ acts p m, s1.trace = s.trace ++ acts ∧
        Act.stableResolved p m t ∈ acts)
  | 0, _, _, _, _, _, h => by simp [waitForFinalStableLoop, neverEnds] at h
  | fuel + 1, prev, lastResp, s, s1, t, h => by
    unfold waitForFinalStableLoop at h
    simp only [run_bind, dateNow_ok] at h
    split at h
    · -- before the deadline: one stabilization wait
      simp only [run_bind, dateNow_ok] at h
      generalize hw : waitForStableResponse cfg env prev _ _ = w at h
      cases w with
      | threw e s2 => simp at h
      | pending s2 => simp at h
      | ok resp s2 =>
        have htr := waitForStableResponse_ok cfg env prev _ _ s2 resp hw
        simp only [Option.getD_some] at htr
        simp only at h
        cases hnb : nonBlank resp with
        | false =>
          simp only [hnb, Bool.not_false, ↓reduceIte, run_pure, Res.ok.injEq] at h
          exact Or.inl (orNull_some _ _ h.1)
        | true =>
          simp only [hnb, Bool.not_true, Bool.false_eq_true, ↓reduceIte, run_bind, run_pure] at h
          have hct := countMessages_trace env s2
          generalize hc : countMessages env s2 = c at h hct
          cases c with
          | threw e s3 => simp at h
          | pending s3 => simp at h
          | ok counts s3 =>
            simp only [Res.state] at hct
            simp only at h
            split at h
            · rcases waitForFinalStableLoop_returns cfg env deadline fuel _ resp s3 s1 t h with
                ⟨h1, _⟩ | ⟨h1, acts, p, m, h2, h3⟩
              · subst h1
                obtain ⟨_, acts, h2, _⟩ := (quiet_waitForFinalStableLoop (n := 0) nothing_counted
                  cfg env deadline fuel counts.msgCount t) s3
                rw [h] at h2
                simp only [Res.state] at h2
                refine Or.inr ⟨hnb,
                  Act.stableResolved prev (max 1000 (deadline - env.clock (s.step + 1))) t :: acts,
                  prev, max 1000 (deadline - env.clock (s.step + 1)), ?_, List.mem_cons_self _ _⟩
                rw [h2, hct, htr]
                simp
              · refine Or.inr ⟨h1,
                  Act.stableResolved prev (max 1000 (deadline - env.clock (s.step + 1))) resp :: acts,
                  p, m, ?_, List.mem_cons_of_mem _ h3⟩
                rw [h2, hct, htr]
                simp
            · simp only [run_pure, Res.ok.injEq, Option.some.injEq] at h
              obtain ⟨h1, h2⟩ := h
              subst h1
              subst h2
              refine Or.inr ⟨hnb,
                [Act.stableResolved prev (max 1000 (deadline - env.clock (s.step + 1))) resp],
                prev, max 1000 (deadline - env.clock (s.step + 1)), ?_, List.mem_singleton_self _⟩
              rw [hct, htr]
    · simp only [run_pure, Res.ok.injEq] at h
      exact Or.inl (orNull_some _ _ h.1)

/-! ## The persona pin -/

/-- A pinning call that finds the marker sends nothing: it ends at once. -/
theorem ensurePersonaPinned_found (cfg : Config) (env : Env) (s : St) (d : Dom)
    (hpage : s.page.isSet = true) (hdom : env.dom s.step = .ok d)
    (hfound : alreadyPinned (personaMarker cfg) d = true) :
    ensurePersonaPinned cfg env s = .ok () { s with step := s.step + 1 } := by
  unfold ensurePersonaPinned usePage awaitOp
  cases hp : s.page with
  | null => simp [hp, PageRef.isSet] at hpage
  | undefined => simp [hp, PageRef.isSet] at hpage
  | handle n =>
    simp only [run_bind, getSt, hp, run_pure, nextOp, hdom, hfound, ↓reduceIte]

/-- A pinning call calls `typeAndSend` at most once. -/
theorem moves_ensurePersonaPinned_once (cfg : Config) (env : Env) :
    Moves (quietFrame Act.isTypeAndSend) 1 (ensurePersonaPinned cfg env) := by
  have hcall : Moves (quietFrame Act.isTypeAndSend) 1
      (typeAndSend env (buildPersonaPin cfg)) :=
    moves_typeAndSend_add _ _ (fun _ _ => rfl) rfl rfl (fun s => ⟨rfl, [_], rfl, List.countP_le_length _⟩)
  unfold ensurePersonaPinned
  dsimp only
  refine moves_bind moves_usePage (fun _ => moves_bind (moves_awaitOp _) (fun d => ?_))
  split
  · exact moves_pure _
  · refine moves_bind (moves_pure _) (fun _ => moves_bind (moves_countMessages _) (fun c => ?_))
    refine moves_mono (moves_bind_add (b := 0) hcall (fun _ => ?_)) (le_refl _)
    exact moves_bind (moves_countMessages _) (fun _ =>
      moves_bind (moves_waitForStableResponse _ _ _ _ (fun _ _ _ => rfl)) (fun _ => moves_pure _))

/-! ## What the router sends -/

theorem repliedTexts_append (a b : List Act) :
    repliedTexts (a ++ b) = repliedTexts a ++ repliedTexts b := by
  simp [repliedTexts, List.filterMap_append]

/-- A list without router actions holds no completed send and no `sendMessage` call. -/
theorem no_router_acts (acts : List Act) (h : acts.countP Act.isRouter ≤ 0) :
    repliedTexts acts = [] ∧ ∀ jid t, Act.sendMessage jid t ∉ acts := by
  have h0 : ∀ a ∈ acts, ¬ (a.isRouter = true) := List.countP_eq_zero.1 (Nat.le_zero.1 h)
  constructor
  · unfold repliedTexts
    rw [List.filterMap_eq_nil_iff]
    intro a ha
    have := h0 a ha
    cases a <;> simp_all [Act.repliedText?, Act.isRouter]
  · intro jid t hm
    exact h0 _ hm rfl

theorem moves_send {n : Nat} (jid : Option JSString) (r : JSString) :
    Moves (replyFrame r) n (emit (.sendMessage jid r)) := by
  intro s
  refine ⟨[.sendMessage jid r], rfl, by simp [repliedTexts, Act.repliedText?], ?_,
    by simp [repliedTexts, Act.repliedText?], fun _ => rfl,
    by simp [repliedTexts, Act.repliedText?]⟩
  intro jid2 t hm
  simp only [List.mem_singleton, Act.sendMessage.injEq] at hm
  exact hm.2

theorem moves_repliedWith (id : Option JSString) (text r : JSString) :
    Moves (replyFrame r) 1
      (emit (.replied r) >>= fun _ =>
        modifySt (fun s => { s with dedup :=
          { lastMsgId := some id, lastMsgText := some text, lastReply := some r } })) := by
  intro s
  exact ⟨[.replied r], rfl, by simp [repliedTexts, Act.repliedText?], by simp,
    by simp [repliedTexts, Act.repliedText?], by simp [repliedTexts, Act.repliedText?],
    fun _ => rfl⟩

/-- The send branch: what it sends is the reply, and at most one send completes. -/
theorem moves_dispatchReply_with (cfg : Config) (env : Env) (msg : WAMessage)
    (text response : JSString) :
    Moves (replyFrame response) 1 (dispatchReply cfg env msg text response) := by
  unfold dispatchReply
  dsimp only
  repeat' first
    | exact moves_pure _
    | exact moves_awaitOp _
    | exact moves_manualReview _
    | exact moves_send _ _
    | exact moves_repliedWith _ _ _
    | apply moves_bind
    | split
    | intro _

/-- One handler run: every `sendMessage` call it makes carries a non-empty text
that the turn returned and that differs from `lastReply`; either no send
completes and the dedup variables are kept, or exactly one does and
`lastReply` becomes its text. -/
theorem onMessagesUpsert_sends (cfg : Config) (env : Env) (fuel : Nat) (m : List WAMessage)
    (s : St) :
    ∃ acts, (onMessagesUpsert cfg env fuel m s).state.trace = s.trace ++ acts ∧
      (∀ jid t, Act.sendMessage jid t ∈ acts →
        t ≠ [] ∧ s.dedup.lastReply ≠ some t ∧
        ∃ msg content s2, m.head? = some msg ∧ msg.message = some content ∧
          getResponseFromNotebookLM cfg env fuel (textOf content) false
            { s with trace := s.trace ++ [.askNotebook (textOf content)] } = .ok (some t) s2) ∧
      ((repliedTexts acts = [] ∧ (onMessagesUpsert cfg env fuel m s).state.dedup = s.dedup) ∨
        ∃ t, repliedTexts acts = [t] ∧
          (onMessagesUpsert cfg env fuel m s).state.dedup.lastReply = some t ∧
          s.dedup.lastReply ≠ some t) := by
  generalize hr : onMessagesUpsert cfg env fuel m s = r
  have triv : r.state = s →
      ∃ acts, r.state.trace = s.trace ++ acts ∧
      (∀ jid t, Act.sendMessage jid t ∈ acts →
        t ≠ [] ∧ s.dedup.lastReply ≠ some t ∧
        ∃ msg content s2, m.head? = some msg ∧ msg.message = some content ∧
          getResponseFromNotebookLM cfg env fuel (textOf content) false
            { s with trace := s.trace ++ [.askNotebook (textOf content)] } = .ok (some t) s2) ∧
      ((repliedTexts acts = [] ∧ r.state.dedup = s.dedup) ∨
        ∃ t, repliedTexts acts = [t] ∧ r.state.dedup.lastReply = some t ∧
          s.dedup.lastReply ≠ some t) := by
    intro h
    refine ⟨[], by simp [h], by simp, Or.inl ⟨rfl, by rw [h]⟩⟩
  cases m with
  | nil => exact triv (by subst hr; rfl)
  | cons msg rest =>
    obtain ⟨message, fromMe, remoteJid, mid⟩ := msg
    cases message with
    | none => exact triv (by subst hr; rfl)
    | some content =>
      cases fromMe with
      | true => exact triv (by subst hr; rfl)
      | false =>
        unfold onMessagesUpsert at hr
        dsimp only [List.head?_cons] at hr
        cases ha : allowed cfg (remoteJid.getD []) with
        | false =>
          rw [ha] at hr
          exact triv (by subst hr; rfl)
        | true =>
          cases he : (textOf content).isEmpty with
          | true =>
            rw [ha, he] at hr
            exact triv (by subst hr; rfl)
          | false =>
            simp only [ha, he, Bool.false_eq_true, ↓reduceIte, Bool.not_true, run_bind, getSt,
              run_pure] at hr
            split at hr
            · exact triv (by subst hr; rfl)
            · simp only [run_bind, run_pure] at hr
              split at hr
              · exact triv (by subst hr; rfl)
              · simp only [run_bind, run_pure, emit, modifySt] at hr
                have hq := quiet_getResponseFromNotebookLM (G := quietFrame Act.isRouter) (n := 0)
                  (fun _ h => h) cfg env fuel (textOf content) false
                  { s with trace := s.trace ++ [.askNotebook (textOf content)] }
                obtain ⟨hd, acts2, ht2, hc2⟩ := hq
                obtain ⟨hnil, hnosend⟩ := no_router_acts acts2 hc2
                have quietEnd : r.state = (getResponseFromNotebookLM cfg env fuel (textOf content)
                      false { s with trace := s.trace ++ [.askNotebook (textOf content)] }).state →
                    ∃ acts, r.state.trace = s.trace ++ acts ∧
                    (∀ jid t, Act.sendMessage jid t ∈ acts →
                      t ≠ [] ∧ s.dedup.lastReply ≠ some t ∧
                      ∃ msg content_1 s2,
                        ({ message := some content, fromMe := false, remoteJid := remoteJid,
                            id := mid } :: rest : List WAMessage).head? = some msg ∧
                        msg.message = some content_1 ∧
                        getResponseFromNotebookLM cfg env fuel (textOf content_1) false
                          { s with trace := s.trace ++ [.askNotebook (textOf content_1)] } =
                            .ok (some t) s2) ∧
                    ((repliedTexts acts = [] ∧ r.state.dedup = s.dedup) ∨
                      ∃ t, repliedTexts acts = [t] ∧ r.state.dedup.lastReply = some t ∧
                        s.dedup.lastReply ≠ some t) := by
                  intro h
                  refine ⟨.askNotebook (textOf content) :: acts2, by rw [h, ht2]; simp, ?_,
                    Or.inl ⟨?_, by rw [h, hd]⟩⟩
                  · intro jid t hm
                    simp only [List.mem_cons] at hm
                    rcases hm with hm | hm
                    · cases hm
                    · exact absurd hm (hnosend jid t)
                  · rw [show Act.askNotebook (textOf content) :: acts2 =
                      [Act.askNotebook (textOf content)] ++ acts2 from rfl, repliedTexts_append, hnil]
                    rfl
                cases hturn : getResponseFromNotebookLM cfg env fuel (textOf content) false
                    { s with trace := s.trace ++ [.askNotebook (textOf content)] } with
                | threw e s2 =>
                  rw [hturn] at hr quietEnd
                  exact quietEnd (by subst hr; rfl)
                | pending s2 =>
                  rw [hturn] at hr quietEnd
                  exact quietEnd (by subst hr; rfl)
                | ok resp s2 =>
                  rw [hturn] at hr quietEnd ht2 hd
                  simp only [Res.state] at quietEnd ht2 hd
                  cases resp with
                  | none => exact quietEnd (by subst hr; rfl)
                  | some t =>
                    cases t with
                    | nil => exact quietEnd (by subst hr; rfl)
                    | cons c cs =>
                      simp only [run_bind, getSt] at hr
                      split at hr
                      · rename_i hne
                        obtain ⟨acts3, ht3, hc3, hs3, hr3, hk3, hl3⟩ := moves_dispatchReply_with cfg env
                          { message := some content, fromMe := false, remoteJid := remoteJid,
                            id := mid } (textOf content) (c :: cs) s2
                        rw [hr] at ht3 hk3 hl3
                        rw [hd] at hne
                        refine ⟨.askNotebook (textOf content) :: (acts2 ++ acts3),
                          by rw [ht3, ht2]; simp, ?_, ?_⟩
                        · intro jid t hm
                          simp only [List.mem_cons, List.mem_append] at hm
                          rcases hm with hm | hm | hm
                          · cases hm
                          · exact absurd hm (hnosend jid t)
                          · have := hs3 jid t hm
                            subst this
                            exact ⟨by simp, hne, _, content, s2, rfl, rfl, hturn⟩
                        · have hsplit : repliedTexts (.askNotebook (textOf content) :: (acts2 ++ acts3))
                              = repliedTexts acts3 := by
                            rw [show Act.askNotebook (textOf content) :: (acts2 ++ acts3) =
                              [Act.askNotebook (textOf content)] ++ (acts2 ++ acts3) from rfl,
                              repliedTexts_append, repliedTexts_append, hnil]
                            rfl
                          rw [hsplit]
                          cases h3 : repliedTexts acts3 with
                          | nil => exact Or.inl ⟨rfl, by rw [hk3 h3, hd]⟩
                          | cons t ts =>
                            have ht : t = c :: cs := hr3 t (by rw [h3]; simp)
                            have hts : ts = [] := by
                              rw [h3] at hc3
                              simp only [List.length_cons] at hc3
                              exact List.eq_nil_of_length_eq_zero (by omega)
                            subst ht
                            subst hts
                            exact Or.inr ⟨_, rfl, hl3 (by rw [h3]; simp), hne⟩
                      · exact quietEnd (by subst hr; rfl)
/-- One handler run keeps `lastReply` equal to the text of the last completed
send and keeps the texts of consecutive completed sends different. -/
theorem onMessagesUpsert_chain (cfg : Config) (env : Env) (fuel : Nat) (m : List WAMessage)
    (s : St) (hlast : s.dedup.lastReply = (repliedTexts s.trace).getLast?)
    (hchain : (repliedTexts s.trace).Chain' (· ≠ ·)) :
    (onMessagesUpsert cfg env fuel m s).state.dedup.lastReply =
      (repliedTexts (onMessagesUpsert cfg env fuel m s).state.trace).getLast? ∧
    (repliedTexts (onMessagesUpsert cfg env fuel m s).state.trace).Chain' (· ≠ ·) := by
  obtain ⟨acts, ht, _, h⟩ := onMessagesUpsert_sends cfg env fuel m s
  rw [ht, repliedTexts_append]
  rcases h with ⟨h0, hd⟩ | ⟨t, h1, hl, hne⟩
  · rw [h0, List.append_nil, hd]
    exact ⟨hlast, hchain⟩
  · rw [h1, hl]
    refine ⟨by simp, ?_⟩
    rw [List.chain'_append]
    refine ⟨hchain, List.chain'_singleton _, ?_⟩
    intro x hx y hy
    simp only [List.head?_cons, Option.mem_def, Option.some.injEq] at hy
    subst hy
    intro hxy
    subst hxy
    exact hne (hlast.trans hx)

theorem handleAll_chain (cfg : Config) (env : Env) (fuel : Nat) :
    ∀ (events : List (List WAMessage)) (s : St),
      s.dedup.lastReply = (repliedTexts s.trace).getLast? →
      (repliedTexts s.trace).Chain' (· ≠ ·) →
      (handleAll cfg env fuel events s).dedup.lastReply =
        (repliedTexts (handleAll cfg env fuel events s).trace).getLast? ∧
      (repliedTexts (handleAll cfg env fuel events s).trace).Chain' (· ≠ ·)
  | [], _, hlast, hchain => ⟨hlast, hchain⟩
  | m :: ms, s, hlast, hchain => by
    obtain ⟨h1, h2⟩ := onMessagesUpsert_chain cfg env fuel m s hlast hchain
    exact handleAll_chain cfg env fuel ms _ h1 h2

theorem noRepeat_iff_chain : ∀ l : List JSString, noRepeat l = true ↔ l.Chain' (· ≠ ·)
  | [] => by simp [noRepeat]
  | [a] => by simp [noRepeat]
  | a :: b :: rest => by
    have ih := noRepeat_iff_chain (b :: rest)
    simp only [noRepeat, Bool.and_eq_true, bne_iff_ne, ne_eq, List.chain'_cons, ih]

/-- An event whose sender is not allowed is ignored: the handler returns and
the state is as before. -/
theorem onMessagesUpsert_not_allowed (cfg : Config) (env : Env) (fuel : Nat) (msg : WAMessage)
    (rest : List WAMessage) (s : St) (h : allowed cfg (msg.remoteJid.getD []) = false) :
    onMessagesUpsert cfg env fuel (msg :: rest) s = .ok () s := by
  obtain ⟨message, fromMe, remoteJid, mid⟩ := msg
  unfold onMessagesUpsert
  dsimp only [List.head?_cons] at h ⊢
  cases message with
  | none => rfl
  | some content =>
    cases fromMe with
    | true => rfl
    | false =>
      rw [h]
      rfl

/-- Events whose senders are not allowed leave the state as it is. -/
theorem handleAll_not_allowed (cfg : Config) (env : Env) (fuel : Nat) :
    ∀ (events : List (List WAMessage)) (s : St),
      (∀ e ∈ events, ∃ msg rest, e = msg :: rest ∧ allowed cfg (msg.remoteJid.getD []) = false) →
      handleAll cfg env fuel events s = s
  | [], _, _ => rfl
  | e :: es, s, h => by
    obtain ⟨msg, rest, he, ha⟩ := h e (by simp)
    subst he
    simp only [handleAll, onMessagesUpsert_not_allowed cfg env fuel msg rest s ha, Res.state]
    exact handleAll_not_allowed cfg env fuel es s (fun e he => h e (by simp [he]))

theorem removeFirst_append (a : Nat) (tl : JSString) :
    ∀ phone : JSString, a ∉ phone → removeFirst (a :: tl) (phone ++ a :: tl) = phone
  | [], _ => by
    simp [removeFirst]
  | c :: cs, h => by
    have hc : c ≠ a := fun hc => h (by simp [hc])
    have hcs : a ∉ cs := fun hcs => h (List.mem_cons_of_mem _ hcs)
    have hp : (a :: tl).isPrefixOf (c :: (cs ++ a :: tl)) = false := by
      simp [List.isPrefixOf, Ne.symm hc]
    have ih := removeFirst_append a tl cs hcs
    rw [List.cons_append, removeFirst]
    simp only [hp, Bool.false_eq_true, ↓reduceIte, ih]

theorem suffix_after_head (a : Nat) (tl : JSString) (ha : a ∉ tl) (phone : JSString)
    (hp : a ∉ phone) (h : (a :: tl) <:+ (a :: tl) ++ phone) : phone = [] := by
  obtain ⟨q, hq⟩ := h
  have hlen : q.length = phone.length := by
    have := congrArg List.length hq
    simp only [List.length_append, List.length_cons] at this
    omega
  cases q with
  | nil => exact List.eq_nil_of_length_eq_zero (by simpa using hlen.symm)
  | cons x xs =>
    have hx : x = a := by
      simp only [List.cons_append, List.cons.injEq] at hq
      exact hq.1
    subst hx
    have hcount := congrArg (List.count x) hq
    simp only [List.cons_append, List.count_cons_self, List.count_append,
      List.count_eq_zero_of_not_mem ha, List.count_eq_zero_of_not_mem hp] at hcount
    omega

theorem removeFirst_eq_iff (a : Nat) (tl : JSString) (ha : a ∉ tl) :
    ∀ (l phone : JSString), a ∉ phone →
      (((a :: tl).isSuffixOf l = true ∧ removeFirst (a :: tl) l = phone) ↔ l = phone ++ a :: tl)
  | l, phone, hp => by
    constructor
    · rintro ⟨hsuf, hrem⟩
      rw [List.isSuffixOf_iff_suffix] at hsuf
      induction l generalizing phone with
      | nil => simp at hsuf
      | cons c cs ih =>
        unfold removeFirst at hrem
        split at hrem
        · rename_i hpre
          rw [ List.isPrefixOf_iff_prefix] at hpre
          obtain ⟨t, ht⟩ := hpre
          rw [← ht] at hrem hsuf ⊢
          rw [List.drop_left] at hrem
          subst hrem
          rw [suffix_after_head a tl ha t hp hsuf]
          simp
        · rename_i hpre
          cases phone with
          | nil => cases hrem
          | cons p ps =>
            simp only [List.cons.injEq] at hrem
            obtain ⟨h1, h2⟩ := hrem
            subst h1
            have hps : a ∉ ps := fun h => hp (List.mem_cons_of_mem _ h)
            rcases List.suffix_cons_iff.1 hsuf with heq | hs
            · exfalso
              apply hpre
              rw [heq]
              simp
            · rw [ih ps hps hs h2]
              rfl
    · intro h
      subst h
      refine ⟨?_, removeFirst_append a tl phone hp⟩
      rw [List.isSuffixOf_iff_suffix]
      exact List.suffix_append _ _
/-! ## Counting turns, recoveries and re-initialisations -/

theorem not_control {G : Graded} (hG : ∀ a, G.counts a = true → a.isControl = true) (a : Act)
    (h : a.isControl = false) : G.counts a = false := by
  cases hq : G.counts a with
  | false => rfl
  | true => rw [hG a hq] at h; cases h

theorem calm_typeAndSend {G : Graded} {n : Nat}
    (hG : ∀ a, G.counts a = true → a.isControl = true)
    (env : Env) (text : JSString) : Moves G n (typeAndSend env text) :=
  moves_typeAndSend_add env text (fun _ _ => not_control hG _ rfl) (not_control hG _ rfl)
    (not_control hG _ rfl) (moves_emit _ (not_control hG _ rfl))

theorem calm_ensurePersonaPinned {G : Graded} {n : Nat}
    (hG : ∀ a, G.counts a = true → a.isControl = true) (cfg : Config) (env : Env) :
    Moves G n (ensurePersonaPinned cfg env) := by
  unfold ensurePersonaPinned
  dsimp only
  repeat' first
    | exact moves_pure _
    | exact moves_usePage
    | exact moves_awaitOp _
    | exact moves_countMessages _
    | exact calm_typeAndSend hG _ _
    | exact moves_waitForStableResponse _ _ _ _ (fun _ _ _ => not_control hG _ rfl)
    | apply moves_bind
    | split
    | intro _

theorem calm_waitForFinalStableLoop {G : Graded} {n : Nat}
    (hG : ∀ a, G.counts a = true → a.isControl = true) (cfg : Config) (env : Env)
    (deadline : Int) :
    ∀ fuel prev lastResp, Moves G n (waitForFinalStableLoop cfg env deadline fuel prev lastResp)
  | 0, _, _ => moves_neverEnds
  | fuel + 1, prev, lastResp => by
    unfold waitForFinalStableLoop
    dsimp only
    repeat' first
      | exact moves_pure _
      | exact moves_dateNow _
      | exact moves_countMessages _
      | exact moves_waitForStableResponse _ _ _ _ (fun _ _ _ => not_control hG _ rfl)
      | exact calm_waitForFinalStableLoop hG cfg env deadline fuel _ _
      | apply moves_bind
      | split
      | intro _

theorem calm_turnBody {G : Graded} {n : Nat}
    (hG : ∀ a, G.counts a = true → a.isControl = true) (cfg : Config) (env : Env) (fuel : Nat)
    (message : JSString) : Moves G n (turnBody cfg env fuel message) := by
  unfold turnBody waitForFinalStable deadlineIn
  dsimp only
  repeat' first
    | exact moves_pure _
    | exact moves_dateNow _
    | exact moves_getPage
    | exact moves_awaitOp _
    | exact moves_countMessages _
    | exact calm_typeAndSend hG _ _
    | exact moves_waitForFirstNonLoading _ _ _ (fun _ _ _ => not_control hG _ rfl)
    | exact calm_waitForFinalStableLoop hG _ _ _ _ _ _
    | apply moves_bind
    | split
    | intro _

/-- `initNotebookLM` records its own call once; nothing else it does is a
control action. -/
theorem calm_initNotebookLM {G : Graded} {i : Nat}
    (hG : ∀ a, G.counts a = true → a.isControl = true) (cfg : Config) (env : Env)
    (hi : Moves G i (emit .initNotebookLM)) : Moves G i (initNotebookLM cfg env) := by
  unfold initNotebookLM
  refine moves_mono (moves_bind_add (b := 0) hi (fun _ => ?_)) (by omega)
  dsimp only
  repeat' first
    | exact moves_pure _
    | exact moves_throwJS _
    | exact moves_nextOp
    | exact moves_awaitOp _
    | exact moves_modifySt _ (fun _ => ⟨rfl, rfl⟩)
    | exact calm_ensurePersonaPinned hG _ _
    | apply moves_bind
    | apply moves_tryCatch
    | split
    | intro _

theorem recoverOrGiveUp_replaying (cfg : Config) (env : Env) (replay : Run (Option JSString))
    (err : JSError) (s : St) : recoverOrGiveUp cfg env true replay err s = .ok none s := rfl

theorem recoverOrGiveUp_other (cfg : Config) (env : Env) (retrying : Bool)
    (replay : Run (Option JSString)) (text : JSString) (h : isFatal text = false) (s : St) :
    recoverOrGiveUp cfg env retrying replay { message := some text } s = .ok none s := by
  unfold recoverOrGiveUp
  cases retrying with
  | true => rfl
  | false =>
    simp only [Bool.false_eq_true, ↓reduceIte, h]
    rfl

/-- The `catch` block: one recovery at most, then what the re-initialisation and
the replay do. -/
theorem calm_recoverOrGiveUp {G : Graded} {i r p : Nat}
    (hG : ∀ a, G.counts a = true → a.isControl = true) (cfg : Config) (env : Env)
    (hi : Moves G i (emit .initNotebookLM)) (hr : Moves G r (emit .recover))
    (hc : Moves G 0 (emit .closeBrowser))
    (retrying : Bool) (replay : Run (Option JSString)) (hp : Moves G p replay) (err : JSError) :
    Moves G (r + (i + p)) (recoverOrGiveUp cfg env retrying replay err) := by
  unfold recoverOrGiveUp
  dsimp only
  split
  · exact moves_pure _
  · split
    · exact moves_throwJS _
    · split
      · have htry : Moves G (i + p) (tryCatch
            (do
              initNotebookLM cfg env
              modifySt (fun s => { s with page := .undefined })
              replay)
            (fun _ => (pure none : Run (Option JSString)))) := by
          refine moves_tryCatch_add (b := 0) ?_ (fun _ => moves_pure _)
          refine moves_bind_add (calm_initNotebookLM hG cfg env hi) (fun _ => ?_)
          exact moves_bind (moves_modifySt _ (fun _ => ⟨rfl, rfl⟩)) (fun _ => hp)
        refine moves_bind (moves_pure _) (fun _ => ?_)
        refine moves_bind_add hr (fun _ => ?_)
        refine moves_bind moves_getSt (fun st => ?_)
        split
        · exact moves_bind hc (fun _ => moves_bind moves_nextOp (fun _ =>
            moves_bind (moves_modifySt _ (fun _ => ⟨rfl, rfl⟩)) (fun _ => htry)))
        · exact moves_bind (moves_pure _) (fun _ => htry)
      · exact moves_pure _

theorem calm_getResponseWith {G : Graded} {t q : Nat}
    (hG : ∀ a, G.counts a = true → a.isControl = true) (cfg : Config) (env : Env) (fuel : Nat)
    (message : JSString) (retrying : Bool) (replay : Run (Option JSString))
    (ht : Moves G t (emit (.turn message retrying)))
    (hq : ∀ err, Moves G q (recoverOrGiveUp cfg env retrying replay err)) :
    Moves G (t + q) (getResponseWith cfg env fuel message retrying replay) := by
  unfold getResponseWith
  dsimp only
  refine moves_bind moves_getSt (fun st => ?_)
  split
  · exact moves_pure _
  · refine moves_bind (moves_pure _) (fun _ => ?_)
    refine moves_bind_add ht (fun _ => ?_)
    exact moves_tryCatch (calm_turnBody hG _ _ _ _) hq

/-- Appending one action raises a count by one at most. -/
theorem moves_emit_one (Q : Act → Bool) (a : Act) : Moves (quietFrame Q) 1 (emit a) :=
  fun _ => ⟨rfl, [a], rfl, List.countP_le_length _⟩

/-- A replay makes no recovery and no re-initialisation, and one turn at most. -/
theorem replay_counts (cfg : Config) (env : Env) (fuel : Nat) (message : JSString) :
    Moves (quietFrame Act.isInit) 0 (getResponseFromNotebookLM cfg env fuel message true) ∧
    Moves (quietFrame Act.isRecover) 0 (getResponseFromNotebookLM cfg env fuel message true) ∧
    Moves (quietFrame Act.isTurn) 1 (getResponseFromNotebookLM cfg env fuel message true) := by
  refine ⟨?_, ?_, ?_⟩
  · exact calm_getResponseWith (t := 0) (q := 0)
      (fun a ha => by cases a <;> simp_all [quietFrame, Act.isInit, Act.isControl])
      cfg env fuel message true _ (moves_emit _ rfl) (fun _ => moves_pure _)
  · exact calm_getResponseWith (t := 0) (q := 0)
      (fun a ha => by cases a <;> simp_all [quietFrame, Act.isRecover, Act.isControl])
      cfg env fuel message true _ (moves_emit _ rfl) (fun _ => moves_pure _)
  · exact calm_getResponseWith (t := 1) (q := 0)
      (fun a ha => by cases a <;> simp_all [quietFrame, Act.isTurn, Act.isControl])
      cfg env fuel message true _ (moves_emit_one _ _) (fun _ => moves_pure _)

/-- A call that is not a replay makes one recovery and one re-initialisation at
most, and two turns at most. -/
theorem toplevel_counts (cfg : Config) (env : Env) (fuel : Nat) (message : JSString) :
    Moves (quietFrame Act.isInit) 1 (getResponseFromNotebookLM cfg env fuel message false) ∧
    Moves (quietFrame Act.isRecover) 1 (getResponseFromNotebookLM cfg env fuel message false) ∧
    Moves (quietFrame Act.isTurn) 2 (getResponseFromNotebookLM cfg env fuel message false) := by
  have hI : ∀ a, (quietFrame Act.isInit).counts a = true → a.isControl = true :=
    fun a ha => by cases a <;> simp_all [quietFrame, Act.isInit, Act.isControl]
  have hR : ∀ a, (quietFrame Act.isRecover).counts a = true → a.isControl = true :=
    fun a ha => by cases a <;> simp_all [quietFrame, Act.isRecover, Act.isControl]
  have hT : ∀ a, (quietFrame Act.isTurn).counts a = true → a.isControl = true :=
    fun a ha => by cases a <;> simp_all [quietFrame, Act.isTurn, Act.isControl]
  obtain ⟨h1, h2, h3⟩ := replay_counts cfg env fuel message
  refine ⟨?_, ?_, ?_⟩
  · exact calm_getResponseWith (t := 0) (q := 0 + (1 + 0)) hI cfg env fuel message false _
      (moves_emit _ rfl) (fun err => calm_recoverOrGiveUp hI cfg env (moves_emit_one _ _)
        (moves_emit _ rfl) (moves_emit _ rfl) false _ h1 err)
  · exact calm_getResponseWith (t := 0) (q := 1 + (0 + 0)) hR cfg env fuel message false _
      (moves_emit _ rfl) (fun err => calm_recoverOrGiveUp hR cfg env (moves_emit _ rfl)
        (moves_emit_one _ _) (moves_emit _ rfl) false _ h2 err)
  · exact calm_getResponseWith (t := 1) (q := 0 + (0 + 1)) hT cfg env fuel message false _
      (moves_emit_one _ _) (fun err => calm_recoverOrGiveUp hT cfg env (moves_emit _ rfl)
        (moves_emit _ rfl) (moves_emit _ rfl) false _ h3 err)

/-- With a session-loss text and outside a replay, the `catch` block records the
recovery first. -/
theorem recoverOrGiveUp_enters (cfg : Config) (env : Env) (replay : Run (Option JSString))
    (text : JSString) (hfatal : isFatal text = true)
    (hreplay : Moves (quietFrame (fun _ => false)) 0 replay) (s : St) :
    ∃ acts, (recoverOrGiveUp cfg env false replay { message := some text } s).state.trace =
      s.trace ++ Act.recover :: acts := by
  rw [recoverOrGiveUp_fatal cfg env replay text hfatal s]
  have hwhole : Moves (quietFrame (fun _ => false)) 0
      (tryCatch (do
        initNotebookLM cfg env
        modifySt (fun s => { s with page := .undefined })
        replay)
        (fun _ => (pure none : Run (Option JSString)))) :=
    moves_tryCatch (moves_bind (quiet_initNotebookLM nothing_counted cfg env)
      (fun _ => moves_bind (moves_modifySt _ (fun _ => ⟨rfl, rfl⟩)) (fun _ => hreplay)))
      (fun _ => moves_pure _)
  obtain ⟨_, acts, ht, _⟩ := hwhole (afterClose s)
  rw [ht]
  unfold afterClose
  split
  · exact ⟨.closeBrowser :: acts, by simp⟩
  · exact ⟨acts, by simp⟩
/-! ## Delivery attempts -/

/-- A list of failed attempts. -/
theorem deliveryRound_shape (env : Env) (text : JSString) :
    ∀ (n : Nat) (s : St), ∃ (fails tail : List Act) (b : Bool) (s1 : St),
      deliveryRound env text n s = .ok b s1 ∧ s1.page = s.page ∧
      s1.trace = s.trace ++ fails ++ tail ∧
      (∀ a ∈ fails, ∃ k, a = Act.attempt k false) ∧
      ((b = false ∧ tail = []) ∨ (b = true ∧ ∃ k, tail = [.attempt k true, .submit text]))
  | 0, s => ⟨[], [], false, s, rfl, rfl, by simp, by simp, Or.inl ⟨rfl, rfl⟩⟩
  | n + 1, s => by
    unfold deliveryRound
    simp only [run_bind, nextOp]
    have hfail : ∀ r : Res Bool,
        r = (emit (.attempt (maxAttempts - (n + 1)) false) >>= fun _ =>
          deliveryRound env text n) { s with step := s.step + 1 } →
        ∃ (fails tail : List Act) (b : Bool) (s1 : St),
          r = .ok b s1 ∧ s1.page = s.page ∧ s1.trace = s.trace ++ fails ++ tail ∧
          (∀ a ∈ fails, ∃ k, a = Act.attempt k false) ∧
          ((b = false ∧ tail = []) ∨ (b = true ∧ ∃ k, tail = [.attempt k true, .submit text])) := by
      intro r hr
      simp only [run_bind, emit, modifySt] at hr
      obtain ⟨fails, tail, b, s1, h1, h2, h3, h4, h5⟩ := deliveryRound_shape env text n
        { s with step := s.step + 1,
                 trace := s.trace ++ [.attempt (maxAttempts - (n + 1)) false] }
      refine ⟨.attempt (maxAttempts - (n + 1)) false :: fails, tail, b, s1, hr.trans h1, h2,
        by rw [h3]; simp, ?_, h5⟩
      intro a ha
      rcases List.mem_cons.1 ha with h | h
      · exact ⟨_, h⟩
      · exact h4 a h
    cases hk : env.attempt s.step with
    | delivered =>
      refine ⟨[], [.attempt (maxAttempts - (n + 1)) true, .submit text], true, _, rfl, rfl,
        by simp [emit, modifySt, run_bind, run_pure], by simp, Or.inr ⟨rfl, _, rfl⟩⟩
    | inputMissing => exact hfail _ rfl
    | overlay => exact hfail _ rfl
    | notInteractable => exact hfail _ rfl
    | threw e => exact hfail _ rfl

/-- A round in which no attempt delivers makes all its attempts, counting from
`maxAttempts - n`. -/
theorem deliveryRound_all_fail (env : Env) (text : JSString)
    (hfail : ∀ k, env.attempt k ≠ .delivered) :
    ∀ (n : Nat) (s : St), n ≤ maxAttempts →
      deliveryRound env text n s = .ok false
        { s with step := s.step + n
                 trace := s.trace ++
                   (List.range n).map (fun i => Act.attempt (maxAttempts - n + i) false) }
  | 0, s, _ => by simp [deliveryRound, run_pure]
  | n + 1, s, hn => by
    have ih := deliveryRound_all_fail env text hfail n
      { s with step := s.step + 1,
               trace := s.trace ++ [.attempt (maxAttempts - (n + 1)) false] } (by omega)
    have hlist : (List.range (n + 1)).map (fun i => Act.attempt (maxAttempts - (n + 1) + i) false) =
        Act.attempt (maxAttempts - (n + 1)) false ::
          (List.range n).map (fun i => Act.attempt (maxAttempts - n + i) false) := by
      rw [List.range_succ_eq_map, List.map_cons, List.map_map]
      refine congrArg₂ _ rfl (List.map_congr_left (fun i _ => ?_))
      simp only [Function.comp, Act.attempt.injEq, and_true]
      omega
    have hstep : (emit (.attempt (maxAttempts - (n + 1)) false) >>= fun _ =>
          deliveryRound env text n) { s with step := s.step + 1 } = .ok false
        { s with step := s.step + (n + 1)
                 trace := s.trace ++
                   (List.range (n + 1)).map
                     (fun i => Act.attempt (maxAttempts - (n + 1) + i) false) } := by
      simp only [run_bind, emit, modifySt, ih, hlist, Res.ok.injEq, true_and]
      simp only [List.append_assoc, List.singleton_append, Nat.add_assoc, Nat.add_comm 1 n]
    unfold deliveryRound
    simp only [run_bind, nextOp]
    have := hfail s.step
    cases hk : env.attempt s.step with
    | delivered => exact absurd hk this
    | inputMissing => exact hstep
    | overlay => exact hstep
    | notInteractable => exact hstep
    | threw e => exact hstep

/-- A round of `n` attempts makes `n` attempts at most. -/
theorem moves_deliveryRound_attempts (env : Env) (text : JSString) :
    ∀ n, Moves (quietFrame Act.isAttempt) n (deliveryRound env text n)
  | 0 => moves_pure _
  | n + 1 => by
    unfold deliveryRound
    refine moves_bind moves_nextOp (fun j => ?_)
    split
    · refine moves_mono (moves_bind_add (b := 0) (moves_emit_one _ _) (fun _ => ?_)) (by omega)
      exact moves_bind (moves_emit _ rfl) (fun _ => moves_pure _)
    · exact moves_mono (moves_bind_add (moves_emit_one _ _)
        (fun _ => moves_deliveryRound_attempts env text n)) (by omega)
/-- `typeAndSend` makes twelve attempts at most. -/
theorem typeAndSend_attempts (env : Env) (text : JSString) :
    Moves (quietFrame Act.isAttempt) 12 (typeAndSend env text) := by
  unfold typeAndSend
  dsimp only
  refine moves_bind (moves_emit _ rfl) (fun _ => moves_bind moves_getPage (fun _ => ?_))
  refine moves_bind_add (a := 6) (b := 6) (moves_deliveryRound_attempts env text maxAttempts)
    (fun b => ?_)
  split
  · exact moves_pure _
  · refine moves_bind (moves_pure _) (fun _ => moves_bind moves_getPage (fun _ =>
      moves_bind (moves_awaitOp _) (fun _ => moves_bind (moves_emit _ rfl) (fun _ =>
        moves_bind moves_getPage (fun _ => ?_)))))
    refine moves_mono (moves_bind_add (b := 0)
      (moves_deliveryRound_attempts env text maxAttempts) (fun b => ?_)) (le_refl _)
    split
    · exact moves_pure _
    · exact moves_bind (moves_pure _) (fun _ => moves_bind moves_getPage (fun _ =>
        moves_bind (moves_awaitOp _) (fun _ => moves_throwJS _)))

/-- `typeAndSend` reloads the page once at most. -/
theorem typeAndSend_reloads (env : Env) (text : JSString) :
    Moves (quietFrame Act.isReload) 1 (typeAndSend env text) := by
  unfold typeAndSend
  dsimp only
  refine moves_bind (moves_emit _ rfl) (fun _ => moves_bind moves_getPage (fun _ => ?_))
  refine moves_bind (moves_deliveryRound env text (fun _ _ => rfl) rfl maxAttempts) (fun b => ?_)
  split
  · exact moves_pure _
  · refine moves_bind (moves_pure _) (fun _ => moves_bind moves_getPage (fun _ =>
      moves_bind (moves_awaitOp _) (fun _ => ?_)))
    refine moves_mono (moves_bind_add (b := 0) (moves_emit_one _ _) (fun _ => ?_)) (le_refl _)
    refine moves_bind moves_getPage (fun _ => ?_)
    refine moves_bind (moves_deliveryRound env text (fun _ _ => rfl) rfl maxAttempts)
      (fun b => ?_)
    split
    · exact moves_pure _
    · exact moves_bind (moves_pure _) (fun _ => moves_bind moves_getPage (fun _ =>
        moves_bind (moves_awaitOp _) (fun _ => moves_throwJS _)))

/-- When no attempt delivers and the reload completes, `typeAndSend` makes six
attempts, reloads, makes six more and throws. -/
theorem typeAndSend_all_fail (env : Env) (text : JSString) (s : St) (n : Nat)
    (hpage : s.page = .handle n) (hfail : ∀ k, env.attempt k ≠ .delivered)
    (hreload : ∀ k, env.reload k = .ok ()) :
    ∃ e, typeAndSend env text s = .threw e
      { s with step := s.step + 14
               trace := s.trace ++ ([.typeAndSend text] ++
                 (List.range 6).map (fun i => Act.attempt i false) ++ [.reload] ++
                 (List.range 6).map (fun i => Act.attempt i false)) } := by
  have h1 := deliveryRound_all_fail env text hfail maxAttempts
  have hsub : ∀ i, maxAttempts - maxAttempts + i = i := fun i => by simp
  simp only [hsub] at h1
  unfold typeAndSend
  simp only [run_bind, emit, modifySt, getPage, getSt, hpage, run_pure, h1 _ (le_refl _),
    Bool.false_eq_true, ↓reduceIte, awaitOp, nextOp, hreload]
  cases hd : env.dom (s.step + maxAttempts + 1 + maxAttempts) with
  | error e =>
    refine ⟨e, ?_⟩
    simp only [throwJS, maxAttempts, List.append_assoc, Res.threw.injEq, true_and]
  | ok d =>
    refine ⟨inputUnavailable, ?_⟩
    simp only [throwJS, maxAttempts, List.append_assoc, run_pure, Nat.add_assoc, Nat.reduceAdd,
      inputUnavailable]
/-- `typeAndSend` returns exactly when an attempt delivered the text, and then
that attempt and the submission are the last things it did. -/
theorem typeAndSend_success (env : Env) (text : JSString) (s : St) :
    ∃ acts, (typeAndSend env text s).state.trace = s.trace ++ acts ∧
      (((∀ k, Act.attempt k true ∉ acts) ∧ (typeAndSend env text s).value? = none) ∨
       (∃ pre k, acts = pre ++ [.attempt k true, .submit text] ∧
         (∀ j, Act.attempt j true ∉ pre) ∧ (typeAndSend env text s).value? = some ())) := by
  have nofail : ∀ (l : List Act), (∀ a ∈ l, ∃ k, a = Act.attempt k false) →
      ∀ j, Act.attempt j true ∉ l := by
    intro l hl j hj
    obtain ⟨k, hk⟩ := hl _ hj
    cases hk
  unfold typeAndSend
  simp only [run_bind, emit, modifySt, getPage, getSt]
  cases hp : s.page with
  | null =>
    refine ⟨[.typeAndSend text], rfl, Or.inl ⟨by simp, rfl⟩⟩
  | undefined =>
    refine ⟨[.typeAndSend text], rfl, Or.inl ⟨by simp, rfl⟩⟩
  | handle n =>
    simp only [run_pure]
    obtain ⟨f1, t1, b1, s1, h1, hp1, ht1, hf1, hb1⟩ := deliveryRound_shape env text maxAttempts
      { s with trace := s.trace ++ [.typeAndSend text] }
    simp only [hp] at h1 hp1 ht1
    rw [h1]
    rcases hb1 with ⟨hb, htl⟩ | ⟨hb, k, htl⟩
    · subst hb
      subst htl
      have hp1' : s1.page = .handle n := hp1
      simp only [Bool.false_eq_true, ↓reduceIte, run_bind, run_pure, getSt, hp1', awaitOp, nextOp]
      cases hr : env.reload s1.step with
      | error e =>
        refine ⟨.typeAndSend text :: f1, by simp [throwJS, Res.state, ht1], Or.inl ⟨?_, rfl⟩⟩
        intro j hj
        rcases List.mem_cons.1 hj with h | h
        · cases h
        · exact nofail f1 hf1 j h
      | ok u =>
        simp only [run_pure, emit, modifySt]
        obtain ⟨f2, t2, b2, s2, h2, hp2, ht2, hf2, hb2⟩ := deliveryRound_shape env text
          maxAttempts { s1 with step := s1.step + 1, trace := s1.trace ++ [.reload] }
        simp only [hp1'] at h2 hp2 ht2
        rw [h2]
        have hpre : ∀ j, Act.attempt j true ∉ .typeAndSend text :: (f1 ++ .reload :: f2) := by
          intro j hj
          simp only [List.mem_cons, List.mem_append] at hj
          rcases hj with h | h | h | h
          · cases h
          · exact nofail f1 hf1 j h
          · cases h
          · exact nofail f2 hf2 j h
        rcases hb2 with ⟨hb, htl⟩ | ⟨hb, k, htl⟩
        · subst hb
          subst htl
          have hp2' : s2.page = .handle n := hp2
          simp only [Bool.false_eq_true, ↓reduceIte, run_bind, run_pure, getSt, hp2', nextOp]
          refine ⟨.typeAndSend text :: (f1 ++ .reload :: f2), ?_, Or.inl ⟨hpre, ?_⟩⟩
          · cases env.dom s2.step <;> simp [throwJS, Res.state, ht2, ht1, run_pure]
          · cases env.dom s2.step <;> rfl
        · subst hb
          subst htl
          refine ⟨(.typeAndSend text :: (f1 ++ .reload :: f2)) ++ [.attempt k true, .submit text],
            by simp [Res.state, ht2, ht1, run_pure], Or.inr ⟨_, k, rfl, hpre, rfl⟩⟩
    · subst hb
      subst htl
      refine ⟨(.typeAndSend text :: f1) ++ [.attempt k true, .submit text],
        by simp [Res.state, ht1, run_pure], Or.inr ⟨_, k, rfl, ?_, rfl⟩⟩
      intro j hj
      rcases List.mem_cons.1 hj with h | h
      · cases h
      · exact nofail f1 hf1 j h
/-! ## The timeout of the stabilization wait -/

theorem stableLoop_resolves (prevCount : Nat) (stableMs maxMs start : Int) :
    ∀ (events : List PageEvent) (st : StableState) (k m : Nat),
      tickTimes events = (List.range' (k + 1) m).map (fun (i : Nat) => start + 300 * (i : Int)) →
      300 * (k : Int) ≤ maxMs → maxMs < 300 * ((k + m : Nat) : Int) →
      ∃ r, stableLoop prevCount stableMs maxMs start st events = some r ∧
        r.time ≤ start + maxMs + 300 ∧
        (st.target = none → (∀ e ∈ events, e.dom.entryList.length ≤ prevCount) → r.text = [])
  | [], st, k, m, ht, hk, hm => by
    cases m with
    | zero =>
      exfalso
      simp only [Nat.add_zero] at hm
      omega
    | succ m => simp [tickTimes, List.range'] at ht
  | e :: es, st, k, m, ht, hk, hm => by
    obtain ⟨kind, now, dom⟩ := e
    cases kind with
    | bodyMutation =>
      simp only [tickTimes] at ht
      obtain ⟨r, h1, h2, h3⟩ := stableLoop_resolves prevCount stableMs maxMs start es
        (retarget prevCount { kind := .bodyMutation, now := now, dom := dom } st false) k m ht hk hm
      refine ⟨r, by simp only [stableLoop, stableStep]; exact h1, h2, ?_⟩
      intro hnone hall
      have hle := hall _ (List.mem_cons_self _ _)
      simp only at hle
      apply h3
      · unfold retarget
        simp only [gt_iff_lt, Nat.not_lt.2 hle, ↓reduceIte]
        exact hnone
      · exact fun e he => hall e (List.mem_cons_of_mem _ he)
    | contentMutation =>
      simp only [tickTimes] at ht
      obtain ⟨r, h1, h2, h3⟩ := stableLoop_resolves prevCount stableMs maxMs start es
        (if st.observing then { st with lastChange := now } else st) k m ht hk hm
      refine ⟨r, by simp only [stableLoop, stableStep]; exact h1, h2, ?_⟩
      intro hnone hall
      apply h3
      · split
        · exact hnone
        · exact hnone
      · exact fun e he => hall e (List.mem_cons_of_mem _ he)
    | tick =>
      cases m with
      | zero => simp [tickTimes, List.range'] at ht
      | succ m =>
        simp only [tickTimes, List.range', List.map_cons, List.cons.injEq] at ht
        obtain ⟨hnow, ht2⟩ := ht
        have hnow2 : now = start + 300 * ((k : Int) + 1) := by
          rw [hnow]
          push_cast
          ring
        have hm2 : maxMs < 300 * ((k + 1 + m : Nat) : Int) := by
          have : k + 1 + m = k + (m + 1) := by omega
          rw [this]
          exact hm
        simp only [stableLoop]
        cases hstep : stableStep prevCount stableMs maxMs start st
            { kind := .tick, now := now, dom := dom } with
        | mk res st1 =>
          have key : (∀ r, res = some r → r.time = now ∧
                (st.target = none → dom.entryList.length ≤ prevCount → r.text = [])) ∧
              (res = none → ¬ (now - start > maxMs) ∧
                (st.target = none → dom.entryList.length ≤ prevCount → st1.target = none)) := by
            unfold stableStep at hstep
            simp only at hstep
            cases htg : st.target with
            | none =>
              simp only [htg] at hstep
              have hre : dom.entryList.length ≤ prevCount →
                  retarget prevCount { kind := .tick, now := now, dom := dom } st true = st := by
                intro hle
                simp only [retarget, gt_iff_lt, Nat.not_lt.2 hle, ↓reduceIte]
              split_ifs at hstep with hto
              · simp only [Prod.mk.injEq] at hstep
                obtain ⟨hr, hs⟩ := hstep
                subst hr
                refine ⟨fun r hr => ?_, fun h => by cases h⟩
                simp only [Option.some.injEq] at hr
                subst hr
                refine ⟨rfl, fun _ hle => ?_⟩
                simp only [hre hle, htg]
              · simp only [Prod.mk.injEq] at hstep
                obtain ⟨hr, hs⟩ := hstep
                subst hr
                refine ⟨fun r hr => (by cases hr), fun _ => ⟨hto, fun _ hle => ?_⟩⟩
                rw [← hs, hre hle]
                exact htg
            | some id =>
              simp only [htg] at hstep
              split_ifs at hstep <;>
                (simp only [Prod.mk.injEq] at hstep
                 obtain ⟨hr, hs⟩ := hstep
                 subst hr
                 first
                   | exact ⟨fun r hr => by
                        simp only [Option.some.injEq] at hr
                        subst hr
                        exact ⟨rfl, fun h => by cases h⟩, fun h => by cases h⟩
                   | exact ⟨fun r hr => (by cases hr),
                        fun _ => ⟨by assumption, fun h => by cases h⟩⟩)
          cases res with
          | some r =>
            obtain ⟨htime, htext⟩ := key.1 r rfl
            refine ⟨r, rfl, by rw [htime, hnow2]; omega, fun hnone hall => ?_⟩
            exact htext hnone (hall _ (List.mem_cons_self _ _))
          | none =>
            obtain ⟨hnot, htarget⟩ := key.2 rfl
            have hk2 : 300 * ((k + 1 : Nat) : Int) ≤ maxMs := by
              push_cast
              rw [hnow2] at hnot
              omega
            obtain ⟨r, h1, h2, h3⟩ := stableLoop_resolves prevCount stableMs maxMs start es
              st1 (k + 1) m ht2 hk2 hm2
            refine ⟨r, h1, h2, fun hnone hall => ?_⟩
            exact h3 (htarget hnone (hall _ (List.mem_cons_self _ _)))
              (fun e he => hall e (List.mem_cons_of_mem _ he))
/-! ## The replacements of the cleanup -/

theorem collapseRunsSpec_ws (c : Nat) (hc : isWhiteSpace c = true) :
    ∀ r : JSString, collapseRunsSpec (c :: r) = 0x20 :: collapseRunsSpec (skipSpaces r)
  | [] => by simp [collapseRunsSpec, hc, skipSpaces]
  | d :: r => by
    cases hd : isWhiteSpace d with
    | true =>
      rw [collapseRunsSpec, if_pos hc, if_pos hd, collapseRunsSpec_ws d hd r]
      simp [skipSpaces, List.dropWhile, hd]
    | false =>
      rw [collapseRunsSpec, if_pos hc, if_neg (by simp [hd])]
      simp [skipSpaces, List.dropWhile, hd]

theorem collapseRunsSpec_cons (c : Nat) (hc : isWhiteSpace c = false) (r : JSString) :
    collapseRunsSpec (c :: r) = c :: collapseRunsSpec r := by
  cases r with
  | nil => simp [collapseRunsSpec, hc]
  | cons d r => rw [collapseRunsSpec, if_neg (by simp [hc])]

theorem skipSpaces_length_le (r : JSString) : (skipSpaces r).length ≤ r.length :=
  (List.dropWhile_suffix _).sublist.length_le

/-- The replacement of `\s+` by one space is the collapse of the runs. -/
theorem replaceAll_spaces : ∀ (fuel : Nat) (s : JSString), s.length < fuel →
    replaceAllFuel spacesPattern fuel s = collapseRunsSpec s
  | 0, _, h => by omega
  | fuel + 1, [], _ => by simp [replaceAllFuel, spacesPattern, collapseRunsSpec]
  | fuel + 1, c :: r, h => by
    simp only [List.length_cons] at h
    cases hc : isWhiteSpace c with
    | true =>
      have ih := replaceAll_spaces fuel (skipSpaces r) (by
        have := skipSpaces_length_le r
        omega)
      simp only [replaceAllFuel, spacesPattern, hc, ↓reduceIte, ih, collapseRunsSpec_ws c hc r]
      rfl
    | false =>
      have ih := replaceAll_spaces fuel r (by omega)
      simp only [replaceAllFuel, spacesPattern, hc, Bool.false_eq_true, ↓reduceIte, ih,
        collapseRunsSpec_cons c hc r]

/-- A pattern that matches nowhere leaves the text as it is. -/
theorem replaceAll_of_no_match (p : Pattern) :
    ∀ (fuel : Nat) (s : JSString), (∀ t, t <:+ s → p t = none) → replaceAllFuel p fuel s = s
  | 0, _, _ => rfl
  | fuel + 1, [], h => by simp [replaceAllFuel, h [] (List.suffix_refl _)]
  | fuel + 1, c :: r, h => by
    have ih := replaceAll_of_no_match p fuel r
      (fun t ht => h t (ht.trans (List.suffix_cons c r)))
    simp only [replaceAllFuel, h (c :: r) (List.suffix_refl _), ih]

theorem spanDigits_of_no_digit (s : JSString) (h : ∀ c ∈ s, isDigit c = false) :
    spanDigits s = ([], s) := by
  cases s with
  | nil => rfl
  | cons c r =>
    have hc := h c (List.mem_cons_self _ _)
    simp [spanDigits, List.span_eq_take_drop, List.takeWhile, List.dropWhile, hc]

theorem citationPattern_of_no_digit (s : JSString) (h : ∀ c ∈ s, isDigit c = false) :
    citationPattern s = none := by
  unfold citationPattern
  split
  · rename_i r
    rw [spanDigits_of_no_digit r (fun c hc => h c (List.mem_cons_of_mem _ hc))]
  · rfl

theorem trailingNumberPattern_of_no_digit (s : JSString) (h : ∀ c ∈ s, isDigit c = false) :
    trailingNumberPattern s = none := by
  unfold trailingNumberPattern
  split
  · rename_i c r
    rw [spanDigits_of_no_digit r (fun c hc => h c (List.mem_cons_of_mem _ hc))]
    split <;> rfl
  · rfl

theorem trailingNumbersPattern_of_no_digit (s : JSString) (h : ∀ c ∈ s, isDigit c = false) :
    trailingNumbersPattern s = none := by
  unfold trailingNumbersPattern
  split
  · rename_i a b r hspan
    have hr : ∀ c ∈ r, isDigit c = false := by
      intro c hc
      apply h
      have := congrArg Prod.snd hspan
      rw [List.span_eq_take_drop] at this
      simp only at this
      rw [← this] at hc
      exact (List.dropWhile_suffix _).subset hc
    rw [spanDigits_of_no_digit r hr]
  · rfl

theorem numberedPattern_of_no_digit (s : JSString) (h : ∀ c ∈ s, isDigit c = false) :
    numberedPattern s = none := by
  unfold numberedPattern
  rw [spanDigits_of_no_digit s h]

theorem no_digit_suffix {s t : JSString} (h : ∀ c ∈ s, isDigit c = false) (ht : t <:+ s) :
    ∀ c ∈ t, isDigit c = false :=
  fun c hc => h c (ht.subset hc)

theorem filter_collapseRunsSpec : ∀ s : JSString,
    (collapseRunsSpec s).filter (fun c => !isWhiteSpace c) = s.filter (fun c => !isWhiteSpace c)
  | [] => rfl
  | c :: r => by
    have h20 : isWhiteSpace 0x20 = true := by decide
    cases hc : isWhiteSpace c with
    | true =>
      have hlt : (skipSpaces r).length < (c :: r).length := by
        have := skipSpaces_length_le r
        simp only [List.length_cons]
        omega
      rw [collapseRunsSpec_ws c hc r, List.filter_cons, List.filter_cons]
      simp only [h20, hc, Bool.not_true, Bool.false_eq_true, ↓reduceIte]
      rw [filter_collapseRunsSpec (skipSpaces r)]
      unfold skipSpaces
      induction r with
      | nil => rfl
      | cons d r ih =>
        cases hd : isWhiteSpace d with
        | true =>
          simp only [List.dropWhile, hd, List.filter_cons, Bool.not_true, Bool.false_eq_true,
            ↓reduceIte]
          apply ih
          simp only [List.length_cons] at hlt ⊢
          have := skipSpaces_length_le r
          omega
        | false => simp [List.dropWhile, hd]
    | false =>
      rw [collapseRunsSpec_cons c hc r, List.filter_cons, List.filter_cons]
      simp only [hc, Bool.not_false, ↓reduceIte, filter_collapseRunsSpec r]
termination_by s => s.length

theorem filter_dropWhile_ws (l : JSString) :
    (l.dropWhile isWhiteSpace).filter (fun c => !isWhiteSpace c) =
      l.filter (fun c => !isWhiteSpace c) := by
  induction l with
  | nil => rfl
  | cons d r ih =>
    cases hd : isWhiteSpace d with
    | true => simp [List.dropWhile, hd, ih]
    | false => simp [List.dropWhile, hd]

theorem filter_trim (l : JSString) :
    (trim l).filter (fun c => !isWhiteSpace c) = l.filter (fun c => !isWhiteSpace c) := by
  unfold trim
  rw [List.filter_reverse, filter_dropWhile_ws, List.filter_reverse, List.reverse_reverse,
    filter_dropWhile_ws]
/-! ## White space after the cleanup -/

theorem head_dropWhile (p : Nat → Bool) : ∀ (l : JSString) (c : Nat),
    (l.dropWhile p).head? = some c → p c = false
  | [], _, h => by simp at h
  | d :: r, c, h => by
    cases hd : p d with
    | true =>
      simp only [List.dropWhile, hd] at h
      exact head_dropWhile p r c h
    | false =>
      simp only [List.dropWhile, hd, List.head?_cons, Option.some.injEq] at h
      rw [← h]
      exact hd

/-- The trimmed text is what is left of the text without its leading white
space when trailing units are cut off. -/
theorem trim_is_start (l : JSString) : ∃ w, l.dropWhile isWhiteSpace = trim l ++ w := by
  unfold trim
  obtain ⟨t, ht⟩ := List.dropWhile_suffix (l := (l.dropWhile isWhiteSpace).reverse) isWhiteSpace
  refine ⟨t.reverse, ?_⟩
  have := congrArg List.reverse ht
  simp only [List.reverse_append, List.reverse_reverse] at this
  exact this.symm

theorem trim_head (l : JSString) (c : Nat) (h : (trim l).head? = some c) :
    isWhiteSpace c = false := by
  obtain ⟨w, hw⟩ := trim_is_start l
  apply head_dropWhile isWhiteSpace l c
  rw [hw]
  cases ht : trim l with
  | nil => rw [ht] at h; simp at h
  | cons a as => rw [ht] at h; simpa using h

theorem trim_last (l : JSString) (c : Nat) (h : (trim l).getLast? = some c) :
    isWhiteSpace c = false := by
  unfold trim at h
  rw [List.getLast?_reverse] at h
  exact head_dropWhile isWhiteSpace _ c h

theorem trim_is_part (l : JSString) : ∃ a b, l = a ++ trim l ++ b := by
  obtain ⟨w, hw⟩ := trim_is_start l
  obtain ⟨a, ha⟩ := List.dropWhile_suffix (l := l) isWhiteSpace
  exact ⟨a, w, by rw [List.append_assoc, ← hw, ha]⟩

theorem collapseRunsSpec_head : ∀ (s : JSString) (c : Nat), s.head? = some c →
    isWhiteSpace c = false → (collapseRunsSpec s).head? = some c
  | [], _, h, _ => by simp at h
  | d :: r, c, h, hc => by
    simp only [List.head?_cons, Option.some.injEq] at h
    subst h
    rw [collapseRunsSpec_cons d hc r]
    rfl

/-- After the collapse every white-space unit is a space and no two white-space
units are neighbours. -/
theorem collapseRunsSpec_normal : ∀ s : JSString,
    (∀ c ∈ collapseRunsSpec s, isWhiteSpace c = true → c = 0x20) ∧
    (collapseRunsSpec s).Chain' (fun a b => ¬ (isWhiteSpace a = true ∧ isWhiteSpace b = true))
  | [] => by simp [collapseRunsSpec]
  | c :: r => by
    cases hc : isWhiteSpace c with
    | true =>
      have hlt : (skipSpaces r).length < (c :: r).length := by
        have := skipSpaces_length_le r
        simp only [List.length_cons]
        omega
      obtain ⟨ih1, ih2⟩ := collapseRunsSpec_normal (skipSpaces r)
      rw [collapseRunsSpec_ws c hc r]
      refine ⟨?_, ?_⟩
      · intro x hx hws
        rcases List.mem_cons.1 hx with h | h
        · exact h
        · exact ih1 x h hws
      · refine List.Chain'.cons' ih2 ?_
        intro y hy
        simp only [Option.mem_def] at hy
        intro hboth
        cases hs : skipSpaces r with
        | nil => rw [hs] at hy; simp [collapseRunsSpec] at hy
        | cons d r2 =>
          have hd : isWhiteSpace d = false :=
            head_dropWhile isWhiteSpace r d (by unfold skipSpaces at hs; rw [hs]; rfl)
          rw [hs, collapseRunsSpec_cons d hd r2] at hy
          simp only [List.head?_cons, Option.some.injEq] at hy
          rw [← hy, hd] at hboth
          exact absurd hboth.2 (by simp)
    | false =>
      obtain ⟨ih1, ih2⟩ := collapseRunsSpec_normal r
      rw [collapseRunsSpec_cons c hc r]
      refine ⟨?_, ?_⟩
      · intro x hx hws
        rcases List.mem_cons.1 hx with h | h
        · rw [h, hc] at hws
          exact absurd hws (by simp)
        · exact ih1 x h hws
      · refine List.Chain'.cons' ih2 ?_
        intro y _ hboth
        rw [hc] at hboth
        exact absurd hboth.1 (by simp)
termination_by s => s.length

theorem noDoubleSpace_of_chain : ∀ l : JSString,
    l.Chain' (fun a b => ¬ (isWhiteSpace a = true ∧ isWhiteSpace b = true)) →
    noDoubleSpace l = true
  | [], _ => rfl
  | [_], _ => rfl
  | a :: b :: r, h => by
    rw [List.chain'_cons] at h
    have ih := noDoubleSpace_of_chain (b :: r) h.2
    have h20 : isWhiteSpace 0x20 = true := by decide
    simp only [noDoubleSpace, ih, Bool.and_true, Bool.not_eq_true', Bool.and_eq_false_iff,
      beq_eq_false_iff_ne, ne_eq]
    by_contra hcon
    simp only [not_or, not_not] at hcon
    apply h.1
    rw [hcon.1, hcon.2]
    exact ⟨h20, h20⟩

/-- The last two steps of the cleanup, on any text. -/
theorem trim_collapse_normal (s : JSString) :
    (∀ c ∈ trim (collapseRunsSpec s), isWhiteSpace c = true → c = 0x20) ∧
    noDoubleSpace (trim (collapseRunsSpec s)) = true := by
  obtain ⟨h1, h2⟩ := collapseRunsSpec_normal s
  obtain ⟨a, b, hab⟩ := trim_is_part (collapseRunsSpec s)
  refine ⟨fun c hc => h1 c ((trim_sublist _).subset hc), noDoubleSpace_of_chain _ ?_⟩
  rw [hab] at h2
  exact (List.chain'_append.1 (List.chain'_append.1 h2).1).2.1
/-! ## Brackets after the cleanup -/

theorem spanDigits_snd_suffix (s : JSString) : (spanDigits s).2 <:+ s := by
  unfold spanDigits
  rw [List.span_eq_take_drop]
  exact List.dropWhile_suffix _

theorem spanDigits_append (s : JSString) : (spanDigits s).1 ++ (spanDigits s).2 = s := by
  unfold spanDigits
  rw [List.span_eq_take_drop]
  exact List.takeWhile_append_dropWhile _ _

/-- A match of the citation pattern: nothing replaces it, and the text is `[`,
digits, `]` and the rest. -/
theorem citationPattern_some (s rep rest : JSString)
    (h : citationPattern s = some (rep, rest)) :
    rep = [] ∧ ∃ ds, s = 0x5B :: (ds ++ 0x5D :: rest) := by
  unfold citationPattern at h
  split at h
  · rename_i r
    have happ := spanDigits_append r
    split at h
    · rename_i d ds rest2 hspan
      simp only [Option.some.injEq, Prod.mk.injEq] at h
      rw [hspan] at happ
      refine ⟨h.1.symm, d :: ds, ?_⟩
      rw [← h.2, ← happ]
    · cases h
  · cases h

theorem citationPattern_head (s : JSString) (h : (citationPattern s).isSome = true) :
    s.head? = some 0x5B := by
  cases hp : citationPattern s with
  | none => rw [hp] at h; cases h
  | some pr =>
    obtain ⟨rep, rest⟩ := pr
    obtain ⟨_, ds, hs⟩ := citationPattern_some s rep rest hp
    rw [hs]
    rfl

theorem bracketsCited_suffix {s t : JSString} (h : bracketsCited s = true) (ht : t <:+ s) :
    bracketsCited t = true := by
  unfold bracketsCited at h ⊢
  rw [List.all_eq_true] at h ⊢
  intro u hu
  exact h u ((List.mem_tails _ _).2 (((List.mem_tails _ _).1 hu).trans ht))

/-- When every `[` starts a marker, the first replacement leaves no `[`. -/
theorem replaceAll_citation_no_bracket : ∀ (fuel : Nat) (s : JSString), s.length < fuel →
    bracketsCited s = true → 0x5B ∉ replaceAllFuel citationPattern fuel s
  | 0, _, h, _ => by omega
  | fuel + 1, s, hlen, hb => by
    unfold replaceAllFuel
    cases hp : citationPattern s with
    | some pr =>
      obtain ⟨rep, rest⟩ := pr
      obtain ⟨hrep, ds, hs⟩ := citationPattern_some s rep rest hp
      have hsuf : rest <:+ s := by
        rw [hs]
        exact ⟨0x5B :: (ds ++ [0x5D]), by simp⟩
      have hl : rest.length < fuel := by
        have := congrArg List.length hs
        simp only [List.length_cons, List.length_append] at this
        omega
      simp only [hrep, List.nil_append]
      exact replaceAll_citation_no_bracket fuel rest hl (bracketsCited_suffix hb hsuf)
    | none =>
      cases s with
      | nil => simp
      | cons c r =>
        simp only [List.length_cons] at hlen
        have hc : c ≠ 0x5B := by
          unfold bracketsCited at hb
          rw [List.all_eq_true] at hb
          have := hb (c :: r) ((List.mem_tails _ _).2 (List.suffix_refl _))
          simp only [hp, Option.isSome_none, Bool.or_false, List.head?_cons, bne_iff_ne, ne_eq,
            Option.some.injEq] at this
          exact this
        simp only [List.mem_cons, not_or]
        exact ⟨fun h => hc h.symm, replaceAll_citation_no_bracket fuel r (by omega)
          (bracketsCited_suffix hb (List.suffix_cons c r))⟩

/-- A replacement whose patterns put back only units of the text or a space
yields only units of the text or spaces. -/
theorem replaceAll_mem (p : Pattern)
    (hp : ∀ s rep rest, p s = some (rep, rest) →
      (∀ x ∈ rep, x ∈ s ∨ x = 0x20) ∧ (∀ x ∈ rest, x ∈ s)) :
    ∀ (fuel : Nat) (s : JSString) (x : Nat), x ∈ replaceAllFuel p fuel s → x ∈ s ∨ x = 0x20
  | 0, _, _, h => Or.inl h
  | fuel + 1, s, x, h => by
    unfold replaceAllFuel at h
    cases hps : p s with
    | some pr =>
      obtain ⟨rep, rest⟩ := pr
      obtain ⟨h1, h2⟩ := hp s rep rest hps
      simp only [hps, List.mem_append] at h
      rcases h with h | h
      · exact h1 x h
      · rcases replaceAll_mem p hp fuel rest x h with h3 | h3
        · exact Or.inl (h2 x h3)
        · exact Or.inr h3
    | none =>
      simp only [hps] at h
      cases s with
      | nil => simp at h
      | cons c r =>
        simp only [List.mem_cons] at h ⊢
        rcases h with h | h
        · exact Or.inl (Or.inl h)
        · rcases replaceAll_mem p hp fuel r x h with h3 | h3
          · exact Or.inl (Or.inr h3)
          · exact Or.inr h3

theorem skipNumberDots_subset : ∀ (fuel : Nat) (s : JSString) (x : Nat),
    x ∈ skipNumberDots fuel s → x ∈ s
  | 0, _, _, h => h
  | fuel + 1, s, x, h => by
    unfold skipNumberDots at h
    split at h
    · rename_i d ds rest hspan
      have hsuf := spanDigits_snd_suffix s
      rw [hspan] at hsuf
      exact hsuf.subset (List.mem_cons_of_mem _ (skipNumberDots_subset fuel rest x h))
    · exact h

theorem trailingNumberPattern_mem (s rep rest : JSString)
    (h : trailingNumberPattern s = some (rep, rest)) :
    (∀ x ∈ rep, x ∈ s ∨ x = 0x20) ∧ (∀ x ∈ rest, x ∈ s) := by
  unfold trailingNumberPattern at h
  split at h
  · rename_i c r
    split at h
    · split at h
      · split at h
        · simp only [Option.some.injEq, Prod.mk.injEq] at h
          rw [← h.1, ← h.2]
          simp
        · cases h
      · cases h
    · cases h
  · cases h

theorem trailingNumbersPattern_mem (s rep rest : JSString)
    (h : trailingNumbersPattern s = some (rep, rest)) :
    (∀ x ∈ rep, x ∈ s ∨ x = 0x20) ∧ (∀ x ∈ rest, x ∈ s) := by
  unfold trailingNumbersPattern at h
  split at h
  · split at h
    · split at h
      · simp only [Option.some.injEq, Prod.mk.injEq] at h
        rw [← h.1, ← h.2]
        simp
      · cases h
    · cases h
  · cases h

theorem numberedPattern_mem (s rep rest : JSString)
    (h : numberedPattern s = some (rep, rest)) :
    (∀ x ∈ rep, x ∈ s ∨ x = 0x20) ∧ (∀ x ∈ rest, x ∈ s) := by
  unfold numberedPattern at h
  split at h
  · rename_i d ds rest2 hspan
    simp only [Option.some.injEq, Prod.mk.injEq] at h
    rw [← h.1, ← h.2]
    refine ⟨by simp, fun x hx => ?_⟩
    have hsuf := spanDigits_snd_suffix s
    rw [hspan] at hsuf
    exact hsuf.subset (List.mem_cons_of_mem _
      (skipNumberDots_subset _ _ x ((List.dropWhile_suffix _).subset hx)))
  · cases h

theorem spacesPattern_mem (s rep rest : JSString)
    (h : spacesPattern s = some (rep, rest)) :
    (∀ x ∈ rep, x ∈ s ∨ x = 0x20) ∧ (∀ x ∈ rest, x ∈ s) := by
  unfold spacesPattern at h
  split at h
  · rename_i c r
    split at h
    · simp only [Option.some.injEq, Prod.mk.injEq] at h
      rw [← h.1, ← h.2]
      refine ⟨by simp, fun x hx => ?_⟩
      exact List.mem_cons_of_mem _ ((List.dropWhile_suffix _).subset hx)
    · cases h
  · cases h

/-- The steps of the cleanup after the first put no unit into the text other
than spaces. -/
theorem cleanup_tail_mem (s : JSString) (x : Nat)
    (h : x ∈ trim (replaceAll spacesPattern (replaceAll numberedPattern
      (replaceAll trailingNumbersPattern (replaceAll trailingNumberPattern s))))) :
    x ∈ s ∨ x = 0x20 := by
  have h1 := (trim_sublist _).subset h
  rcases replaceAll_mem _ spacesPattern_mem _ _ x h1 with h2 | h2
  · rcases replaceAll_mem _ numberedPattern_mem _ _ x h2 with h3 | h3
    · rcases replaceAll_mem _ trailingNumbersPattern_mem _ _ x h3 with h4 | h4
      · exact replaceAll_mem _ trailingNumberPattern_mem _ _ x h4
      · exact Or.inr h4
    · exact Or.inr h3
  · exact Or.inr h2
/-! ## The dedup variables -/

/-- A handler run whose turn returns `null`, the empty text or the text of
`lastReply` ends in the state it started in or in the state the turn ended in. -/
theorem onMessagesUpsert_unanswered (cfg : Config) (env : Env) (fuel : Nat)
    (msg : WAMessage) (rest : List WAMessage) (content : MsgContent) (s s2 : St)
    (resp : Option JSString) (hmsg : msg.message = some content)
    (hturn : getResponseFromNotebookLM cfg env fuel (textOf content) false
      { s with trace := s.trace ++ [.askNotebook (textOf content)] } = .ok resp s2)
    (hresp : resp = none ∨ resp = some [] ∨ resp = s.dedup.lastReply) :
    (onMessagesUpsert cfg env fuel (msg :: rest) s).state = s ∨
    (onMessagesUpsert cfg env fuel (msg :: rest) s).state = s2 := by
  generalize hr : onMessagesUpsert cfg env fuel (msg :: rest) s = r
  obtain ⟨message, fromMe, remoteJid, mid⟩ := msg
  simp only at hmsg
  subst hmsg
  cases fromMe with
  | true => exact Or.inl (by subst hr; rfl)
  | false =>
    unfold onMessagesUpsert at hr
    dsimp only [List.head?_cons] at hr
    cases ha : allowed cfg (remoteJid.getD []) with
    | false =>
      rw [ha] at hr
      exact Or.inl (by subst hr; rfl)
    | true =>
      cases he : (textOf content).isEmpty with
      | true =>
        rw [ha, he] at hr
        exact Or.inl (by subst hr; rfl)
      | false =>
        simp only [ha, he, Bool.false_eq_true, ↓reduceIte, Bool.not_true, run_bind, getSt,
          run_pure] at hr
        split at hr
        · exact Or.inl (by subst hr; rfl)
        · simp only [run_bind, run_pure] at hr
          split at hr
          · exact Or.inl (by subst hr; rfl)
          · simp only [run_bind, run_pure, emit, modifySt, hturn] at hr
            have hq := quiet_getResponseFromNotebookLM (G := quietFrame Act.isRouter) (n := 0)
              (fun _ h => h) cfg env fuel (textOf content) false
              { s with trace := s.trace ++ [.askNotebook (textOf content)] }
            rw [hturn] at hq
            obtain ⟨hd, _⟩ := hq
            simp only [Res.state] at hd
            right
            cases resp with
            | none => subst hr; rfl
            | some t =>
              cases t with
              | nil => subst hr; rfl
              | cons c cs =>
                have hlast : s2.dedup.lastReply = some (c :: cs) := by
                  rcases hresp with h | h | h
                  · cases h
                  · cases h
                  · rw [hd]
                    exact h.symm
                simp only [getSt, run_bind, hlast, ne_eq, not_true_eq_false, ↓reduceIte,
                  run_pure] at hr
                subst hr
                rfl
/-! ## What the stabilization wait resolves with -/

theorem targetBeyond_mono {prevCount : Nat} {docs more : List Dom} {id : Nat}
    (h : targetBeyond prevCount docs id) : targetBeyond prevCount (docs ++ more) id := by
  obtain ⟨d, hd, h1, h2⟩ := h
  exact ⟨d, List.mem_append_left _ hd, h1, h2⟩

/-- Retargeting keeps the target an entry beyond `prevCount`. -/
theorem retarget_beyond (prevCount : Nat) (e : PageEvent) (st : StableState) (attach : Bool)
    (docs : List Dom)
    (h : ∀ id, st.target = some id → targetBeyond prevCount docs id) :
    ∀ id, (retarget prevCount e st attach).target = some id →
      targetBeyond prevCount (docs ++ [e.dom]) id := by
  intro id hid
  unfold retarget at hid
  split at hid
  · rename_i hlen
    exact ⟨e.dom, by simp, hlen, hid⟩
  · exact targetBeyond_mono (h id hid)

/-- One callback: the target stays an entry beyond `prevCount`; a resolution is
made by the timer, and either the timeout has passed or the text is that of
the target, non-empty, not loading, the last text recorded, and unchanged for
`stableMs`. -/
theorem stableStep_resolution (prevCount : Nat) (stableMs maxMs start : Int)
    (st : StableState) (e : PageEvent) (docs : List Dom)
    (h : ∀ id, st.target = some id → targetBeyond prevCount docs id) :
    (∀ id, (stableStep prevCount stableMs maxMs start st e).2.target = some id →
      targetBeyond prevCount (docs ++ [e.dom]) id) ∧
    (∀ r, (stableStep prevCount stableMs maxMs start st e).1 = some r →
      e.kind = .tick ∧ r.time = e.now ∧
      (maxMs < e.now - start ∨
        ∃ id, (stableStep prevCount stableMs maxMs start st e).2.target = some id ∧
          r.text = getTextFromMessage (e.dom.find id) ∧ r.text ≠ [] ∧
          isLoading r.text = false ∧
          (stableStep prevCount stableMs maxMs start st e).2.lastText = r.text ∧
          stableMs ≤ e.now - (stableStep prevCount stableMs maxMs start st e).2.lastChange)) := by
  obtain ⟨kind, now, dom⟩ := e
  cases kind with
  | bodyMutation =>
    simp only [stableStep]
    exact ⟨retarget_beyond prevCount _ st false docs h, fun r hr => by cases hr⟩
  | contentMutation =>
    simp only [stableStep]
    refine ⟨fun id hid => targetBeyond_mono (h id ?_), fun r hr => by cases hr⟩
    split at hid
    · exact hid
    · exact hid
  | tick =>
    cases htg : st.target with
    | none =>
      by_cases hto : now - start > maxMs
      · have hs2 : (stableStep prevCount stableMs maxMs start st
            { kind := .tick, now := now, dom := dom }).2 =
            retarget prevCount { kind := .tick, now := now, dom := dom } st true := by
          simp only [stableStep, htg, hto, ↓reduceIte]
        have hs1 : ∀ r, (stableStep prevCount stableMs maxMs start st
            { kind := .tick, now := now, dom := dom }).1 = some r → r.time = now := by
          intro r hr
          simp only [stableStep, htg, hto, ↓reduceIte, Option.some.injEq] at hr
          rw [← hr]
        refine ⟨fun id hid => ?_, fun r hr => ⟨rfl, hs1 r hr, Or.inl hto⟩⟩
        rw [hs2] at hid
        exact retarget_beyond prevCount _ st true docs h id hid
      · have hs : stableStep prevCount stableMs maxMs start st
            { kind := .tick, now := now, dom := dom } =
            (none, retarget prevCount { kind := .tick, now := now, dom := dom } st true) := by
          simp only [stableStep, htg, hto, ↓reduceIte]
        rw [hs]
        exact ⟨retarget_beyond prevCount _ st true docs h, fun r hr => by cases hr⟩
    | some id =>
      have hb : targetBeyond prevCount (docs ++ [dom]) id := targetBeyond_mono (h id htg)
      generalize hst1 : (if getTextFromMessage (dom.find id) ≠ st.lastText then
          ({ target := some id, lastText := getTextFromMessage (dom.find id), lastChange := now,
             observing := true } : StableState)
        else { target := some id, lastText := st.lastText, lastChange := st.lastChange,
               observing := true }) = st1
      have ht1 : st1.target = some id := by
        rw [← hst1]
        split <;> rfl
      have hl1 : st1.lastText = getTextFromMessage (dom.find id) := by
        rw [← hst1]
        split
        · rfl
        · rename_i heq
          simp only [ne_eq, not_not] at heq
          exact heq.symm
      have hs : stableStep prevCount stableMs maxMs start st
          { kind := .tick, now := now, dom := dom } =
          (if now - st1.lastChange ≥ stableMs ∧ getTextFromMessage (dom.find id) ≠ [] ∧
              isLoading (getTextFromMessage (dom.find id)) = false then
            (some { text := getTextFromMessage (dom.find id), time := now }, st1)
          else if now - start > maxMs then
            (some { text := getTextFromMessage (dom.find id), time := now }, st1)
          else (none, st1)) := by
        simp only [stableStep, htg, hst1]
      rw [hs]
      by_cases hstable : now - st1.lastChange ≥ stableMs ∧
          getTextFromMessage (dom.find id) ≠ [] ∧
          isLoading (getTextFromMessage (dom.find id)) = false
      · rw [if_pos hstable]
        refine ⟨fun id2 hid => ?_, fun r hr => ?_⟩
        · have hid2 : st1.target = some id2 := hid
          rw [ht1] at hid2
          cases hid2
          exact hb
        · simp only [Option.some.injEq] at hr
          subst hr
          exact ⟨rfl, rfl, Or.inr ⟨id, ht1, rfl, hstable.2.1, hstable.2.2, hl1, hstable.1⟩⟩
      · rw [if_neg hstable]
        by_cases hto : now - start > maxMs
        · rw [if_pos hto]
          refine ⟨fun id2 hid => ?_, fun r hr => ?_⟩
          · have hid2 : st1.target = some id2 := hid
            rw [ht1] at hid2
            cases hid2
            exact hb
          · simp only [Option.some.injEq] at hr
            subst hr
            exact ⟨rfl, rfl, Or.inl hto⟩
        · rw [if_neg hto]
          refine ⟨fun id2 hid => ?_, fun r hr => by cases hr⟩
          have hid2 : st1.target = some id2 := hid
          rw [ht1] at hid2
          cases hid2
          exact hb

/-- The callbacks up to the first resolution. -/
theorem stableLoop_resolution (prevCount : Nat) (stableMs maxMs start : Int) (r : Resolution) :
    ∀ (events : List PageEvent) (st : StableState) (docs : List Dom),
      (∀ id, st.target = some id → targetBeyond prevCount docs id) →
      stableLoop prevCount stableMs maxMs start st events = some r →
      ∃ pre e post, events = pre ++ e :: post ∧ e.kind = .tick ∧ r.time = e.now ∧
        (maxMs < e.now - start ∨
          ∃ id, targetBeyond prevCount (docs ++ (pre ++ [e]).map (fun x => x.dom)) id ∧
            (stableVars prevCount stableMs maxMs start st (pre ++ [e])).target = some id ∧
            r.text = getTextFromMessage (e.dom.find id) ∧ r.text ≠ [] ∧
            isLoading r.text = false ∧
            (stableVars prevCount stableMs maxMs start st (pre ++ [e])).lastText = r.text ∧
            stableMs ≤
              e.now - (stableVars prevCount stableMs maxMs start st (pre ++ [e])).lastChange)
  | [], _, _, _, h => by simp [stableLoop] at h
  | e :: es, st, docs, hinv, h => by
    obtain ⟨h1, h2⟩ := stableStep_resolution prevCount stableMs maxMs start st e docs hinv
    unfold stableLoop at h
    cases hstep : stableStep prevCount stableMs maxMs start st e with
    | mk res st1 =>
      rw [hstep] at h h1 h2
      cases res with
      | some r2 =>
        simp only [Option.some.injEq] at h
        subst h
        obtain ⟨hk, ht, hc⟩ := h2 r2 rfl
        refine ⟨[], e, es, rfl, hk, ht, ?_⟩
        rcases hc with hc | ⟨id, c1, c2, c3, c4, c5, c6⟩
        · exact Or.inl hc
        · refine Or.inr ⟨id, ?_, ?_, c2, c3, c4, ?_, ?_⟩
          · simpa using h1 id c1
          · simp only [List.nil_append, stableVars, hstep]
            exact c1
          · simp only [List.nil_append, stableVars, hstep]
            exact c5
          · simp only [List.nil_append, stableVars, hstep]
            exact c6
      | none =>
        simp only at h
        obtain ⟨pre, e2, post, he, hk, ht, hc⟩ :=
          stableLoop_resolution prevCount stableMs maxMs start r es st1 (docs ++ [e.dom]) h1 h
        refine ⟨e :: pre, e2, post, by rw [he]; rfl, hk, ht, ?_⟩
        rcases hc with hc | ⟨id, c0, c1, c2, c3, c4, c5, c6⟩
        · exact Or.inl hc
        · refine Or.inr ⟨id, ?_, ?_, c2, c3, c4, ?_, ?_⟩
          · simpa using c0
          · simp only [List.cons_append, stableVars, hstep]
            exact c1
          · simp only [List.cons_append, stableVars, hstep]
            exact c5
          · simp only [List.cons_append, stableVars, hstep]
            exact c6
/-! ## How runs end -/

theorem ends_weaken {strict mayThrow : Prop} {α : Type} {m : Run α}
    (h : Ends strict False m) : Ends strict mayThrow m := by
  intro s
  obtain ⟨h1, h2⟩ := h s
  refine ⟨h1, ?_⟩
  cases hm : m s with
  | ok a s1 => trivial
  | threw e s1 => rw [hm] at h2; exact absurd h2.1 id
  | pending s1 => rw [hm] at h2; exact h2

theorem ends_pure {strict mayThrow : Prop} {α : Type} (a : α) :
    Ends strict mayThrow (pure a : Run α) :=
  fun s => ⟨Nat.le_refl s.step, trivial⟩

theorem ends_getSt {strict mayThrow : Prop} : Ends strict mayThrow getSt :=
  fun s => ⟨Nat.le_refl s.step, trivial⟩

theorem ends_nextOp {strict mayThrow : Prop} : Ends strict mayThrow nextOp :=
  fun s => ⟨Nat.le_succ s.step, trivial⟩

theorem ends_modifySt {strict mayThrow : Prop} (f : St → St) (h : ∀ s, s.step ≤ (f s).step) :
    Ends strict mayThrow (modifySt f) :=
  fun s => ⟨h s, trivial⟩

theorem ends_emit {strict mayThrow : Prop} (a : Act) : Ends strict mayThrow (emit a) :=
  fun s => ⟨Nat.le_refl s.step, trivial⟩

theorem ends_throwJS {strict : Prop} {α : Type} (e : JSError) (h : e.message ≠ none) :
    Ends strict True (throwJS e : Run α) :=
  fun s => ⟨Nat.le_refl s.step, trivial, h⟩

theorem ends_throwText {strict : Prop} {α : Type} (text : String) :
    Ends strict True (throwJS (JSError.ofText text) : Run α) :=
  fun s => ⟨Nat.le_refl s.step, trivial, by simp [JSError.ofText]⟩

theorem ends_neverEnds {strict mayThrow : Prop} {α : Type} (h : ¬ strict) :
    Ends strict mayThrow (neverEnds : Run α) :=
  fun s => ⟨Nat.le_refl s.step, h⟩

theorem ends_bind {strict mayThrow : Prop} {α β : Type} {m : Run α} {f : α → Run β}
    (hm : Ends strict mayThrow m) (hf : ∀ x, Ends strict mayThrow (f x)) :
    Ends strict mayThrow (m >>= f) := by
  intro s
  obtain ⟨h0, h1⟩ := hm s
  rw [run_bind]
  cases hms : m s with
  | ok x s1 =>
    rw [hms] at h0 h1
    obtain ⟨h2, h3⟩ := hf x s1
    exact ⟨Nat.le_trans h0 h2, h3⟩
  | threw e s1 => rw [hms] at h0 h1; exact ⟨h0, h1⟩
  | pending s1 => rw [hms] at h0 h1; exact ⟨h0, h1⟩

/-- A `try` block whose handler ends as permitted on every value with a message. -/
theorem ends_tryCatch {strict mayThrow : Prop} {α : Type} {m : Run α} {h : JSError → Run α}
    (hm : Ends strict True m) (hh : ∀ e, e.message ≠ none → Ends strict mayThrow (h e)) :
    Ends strict mayThrow (tryCatch m h) := by
  intro s
  obtain ⟨h0, h1⟩ := hm s
  rw [run_tryCatch]
  cases hms : m s with
  | ok x s1 => rw [hms] at h0; exact ⟨h0, trivial⟩
  | threw e s1 =>
    rw [hms] at h0 h1
    obtain ⟨h2, h3⟩ := hh e h1.2 s1
    exact ⟨Nat.le_trans h0 h2, h3⟩
  | pending s1 => rw [hms] at h0 h1; exact ⟨h0, h1⟩

theorem ends_awaitOp {strict : Prop} {α : Type} (answer : Nat → Except JSError α)
    (h : ∀ k e, answer k = .error e → e.message ≠ none) : Ends strict True (awaitOp answer) := by
  unfold awaitOp
  refine ends_bind ends_nextOp (fun k => ?_)
  split
  · exact ends_pure _
  · rename_i e he
    exact ends_throwJS e (h k e he)

theorem ends_getPage {strict : Prop} : Ends strict True getPage := by
  unfold getPage
  refine ends_bind ends_getSt (fun k => ?_)
  split
  · exact ends_pure _
  · exact ends_throwText _

theorem ends_usePage {strict : Prop} : Ends strict True usePage := by
  unfold usePage
  refine ends_bind ends_getSt (fun k => ?_)
  split
  · exact ends_pure _
  · exact ends_throwText _
  · exact ends_throwText _

theorem ends_dateNow {strict mayThrow : Prop} (env : Env) : Ends strict mayThrow (dateNow env) := by
  unfold dateNow
  exact ends_bind ends_nextOp (fun k => ends_pure _)

theorem ends_countMessages {strict : Prop} (env : Env) (hmsg : env.messaged) :
    Ends strict True (countMessages env) := by
  unfold countMessages
  exact ends_bind ends_usePage (fun _ => ends_bind (ends_awaitOp _ hmsg.1) (fun _ => ends_pure _))

theorem ends_deliveryRound {strict mayThrow : Prop} (env : Env) (text : JSString) :
    ∀ k, Ends strict mayThrow (deliveryRound env text k)
  | 0 => ends_pure _
  | k + 1 => by
    unfold deliveryRound
    refine ends_bind ends_nextOp (fun j => ?_)
    split
    · exact ends_bind (ends_emit _) (fun _ => ends_bind (ends_emit _) (fun _ => ends_pure _))
    · exact ends_bind (ends_emit _) (fun _ => ends_deliveryRound env text k)

theorem ends_typeAndSend {strict : Prop} (env : Env) (hmsg : env.messaged) (text : JSString) :
    Ends strict True (typeAndSend env text) := by
  unfold typeAndSend
  dsimp only
  repeat' first
    | exact ends_pure _
    | exact ends_throwText _
    | exact ends_getPage
    | exact ends_emit _
    | exact ends_awaitOp _ hmsg.1
    | exact ends_awaitOp _ hmsg.2.2.1
    | exact ends_deliveryRound env text _
    | apply ends_bind
    | split
    | intro _

/-- A timer callback later than `maxMs` after the start makes the stabilization
wait resolve. -/
theorem stableLoop_of_late_tick (prevCount : Nat) (stableMs maxMs start : Int) :
    ∀ (events : List PageEvent) (st : StableState),
      (∃ e ∈ events, e.kind = .tick ∧ maxMs < e.now - start) →
      ∃ r, stableLoop prevCount stableMs maxMs start st events = some r
  | [], _, h => by
    obtain ⟨e, he, _⟩ := h
    cases he
  | e :: es, st, h => by
    unfold stableLoop
    cases hstep : stableStep prevCount stableMs maxMs start st e with
    | mk res st1 =>
      cases res with
      | some r => exact ⟨r, rfl⟩
      | none =>
        simp only
        apply stableLoop_of_late_tick prevCount stableMs maxMs start es st1
        obtain ⟨e2, he2, hk, hl⟩ := h
        rcases List.mem_cons.1 he2 with heq | hmem
        · exfalso
          subst heq
          obtain ⟨kind, now, dom⟩ := e2
          simp only at hk hl
          subst hk
          unfold stableStep at hstep
          simp only at hstep
          have hto : now - start > maxMs := hl
          cases htg : st.target with
          | none =>
            simp only [htg, hto, ↓reduceIte, Prod.mk.injEq] at hstep
            exact absurd hstep.1 (by simp)
          | some id =>
            simp only [htg, hto, ↓reduceIte] at hstep
            split at hstep <;>
              (split at hstep <;>
                (simp only [Prod.mk.injEq] at hstep
                 exact absurd hstep.1 (by simp)))
        · exact ⟨e2, hmem, hk, hl⟩

/-- A timer callback later than `maxMs` after the start makes
`waitForFirstNonLoading` resolve. -/
theorem firstWait_of_late_tick (prevCount : Nat) (maxMs : Int) (run : PageRun)
    (h : ∃ e ∈ run.events, e.kind = .tick ∧ maxMs < e.now - run.start) :
    ∃ r, firstWait prevCount maxMs run = some r := by
  obtain ⟨e, he, hk, hl⟩ := h
  unfold firstWait
  have hsome : (firstStep prevCount maxMs run.start e).isSome = true := by
    obtain ⟨kind, now, dom⟩ := e
    simp only at hk hl
    subst hk
    have hto : now - run.start > maxMs := hl
    unfold firstStep
    simp only [hto, ↓reduceIte]
    split <;> rfl
  have : (run.events.findSome? (firstStep prevCount maxMs run.start)).isSome = true := by
    rw [List.findSome?_isSome_iff]
    exact ⟨e, he, hsome⟩
  exact Option.isSome_iff_exists.1 this

theorem ends_waitForStableResponse {strict : Prop} (cfg : Config) (env : Env) (bound : Nat)
    (hmsg : env.messaged) (hp : strict → env.patient cfg bound) (prev : Nat) (o : Option Int)
    (ho : strict → o.getD cfg.RESPONSE_MAX_WAIT ≤ waitBound cfg) :
    Ends strict True (waitForStableResponse cfg env prev o) := by
  intro s
  unfold waitForStableResponse usePage awaitOp
  simp only [run_bind, getSt, nextOp]
  cases hpg : s.page with
  | null => exact ⟨Nat.le_refl _, trivial, by simp [JSError.ofText]⟩
  | undefined => exact ⟨Nat.le_refl _, trivial, by simp [JSError.ofText]⟩
  | handle n =>
    simp only [run_pure]
    cases hr : env.pageRun s.step with
    | error e => exact ⟨Nat.le_succ _, trivial, hmsg.2.1 _ e hr⟩
    | ok run =>
      simp only [run_pure]
      cases hw : stableWait prev cfg.RESPONSE_STABLE_MS (o.getD cfg.RESPONSE_MAX_WAIT) run with
      | some r => exact ⟨Nat.le_succ _, trivial⟩
      | none =>
        refine ⟨Nat.le_succ _, fun hs => ?_⟩
        obtain ⟨e, he, hk, hl⟩ := (hp hs).2.1 s.step run hr
        obtain ⟨r, hr2⟩ := stableLoop_of_late_tick prev cfg.RESPONSE_STABLE_MS
          (o.getD cfg.RESPONSE_MAX_WAIT) run.start run.events
          (stableInit prev run.start run.dom0) ⟨e, he, hk, lt_of_le_of_lt (ho hs) hl⟩
        unfold stableWait at hw
        rw [hr2] at hw
        cases hw

theorem ends_waitForFirstNonLoading {strict : Prop} (cfg : Config) (env : Env) (bound : Nat)
    (hmsg : env.messaged) (hp : strict → env.patient cfg bound) (prev : Nat) (maxMs : Int)
    (ho : strict → maxMs ≤ waitBound cfg) :
    Ends strict True (waitForFirstNonLoading env prev maxMs) := by
  intro s
  unfold waitForFirstNonLoading usePage awaitOp
  simp only [run_bind, getSt, nextOp]
  cases hpg : s.page with
  | null => exact ⟨Nat.le_refl _, trivial, by simp [JSError.ofText]⟩
  | undefined => exact ⟨Nat.le_refl _, trivial, by simp [JSError.ofText]⟩
  | handle n =>
    simp only [run_pure]
    cases hr : env.pageRun s.step with
    | error e => exact ⟨Nat.le_succ _, trivial, hmsg.2.1 _ e hr⟩
    | ok run =>
      simp only [run_pure]
      cases hw : firstWait prev maxMs run with
      | some r => exact ⟨Nat.le_succ _, trivial⟩
      | none =>
        refine ⟨Nat.le_succ _, fun hs => ?_⟩
        obtain ⟨e, he, hk, hl⟩ := (hp hs).2.1 s.step run hr
        obtain ⟨r, hr2⟩ := firstWait_of_late_tick prev maxMs run
          ⟨e, he, hk, lt_of_le_of_lt (ho hs) hl⟩
        rw [hr2] at hw
        cases hw
theorem le_waitBound_max (cfg : Config) : cfg.RESPONSE_MAX_WAIT ≤ waitBound cfg :=
  le_max_of_le_right (le_max_left _ _)

theorem le_waitBound_quick (cfg : Config) : cfg.QUICK_SEND_MAX_MS ≤ waitBound cfg :=
  le_max_of_le_right (le_max_right _ _)

theorem ends_ensurePersonaPinned {strict : Prop} (cfg : Config) (env : Env) (bound : Nat)
    (hmsg : env.messaged) (hp : strict → env.patient cfg bound) :
    Ends strict True (ensurePersonaPinned cfg env) := by
  unfold ensurePersonaPinned
  dsimp only
  repeat' first
    | exact ends_pure _
    | exact ends_usePage
    | exact ends_awaitOp _ hmsg.1
    | exact ends_countMessages _ hmsg
    | exact ends_typeAndSend _ hmsg _
    | exact ends_waitForStableResponse cfg env bound hmsg hp _ none
        (fun _ => le_waitBound_max cfg)
    | apply ends_bind
    | split
    | intro _

theorem ends_initNotebookLM {strict : Prop} (cfg : Config) (env : Env) (bound : Nat)
    (hmsg : env.messaged) (hp : strict → env.patient cfg bound) :
    Ends strict True (initNotebookLM cfg env) := by
  unfold initNotebookLM
  dsimp only
  repeat' first
    | exact ends_pure _
    | exact ends_emit _
    | exact ends_nextOp
    | exact ends_modifySt _ (fun _ => Nat.le_refl _)
    | exact ends_throwJS _ (hmsg.2.2.2.1 _ _ (by assumption))
    | exact ends_throwJS _ (hmsg.2.2.2.2.1 _ _ (by assumption))
    | exact ends_awaitOp _ hmsg.2.2.2.2.2
    | exact ends_ensurePersonaPinned cfg env bound hmsg hp
    | apply ends_bind
    | apply ends_tryCatch
    | split
    | intro _

theorem countMessages_ok (env : Env) (s s1 : St) (c : Counts)
    (h : countMessages env s = .ok c s1) : ∃ d, env.dom s.step = .ok d ∧ c = countOf d := by
  unfold countMessages usePage awaitOp at h
  simp only [run_bind, getSt, nextOp] at h
  cases hp : s.page with
  | null => simp [hp, throwJS] at h
  | undefined => simp [hp, throwJS] at h
  | handle n =>
    simp only [hp, run_pure] at h
    cases hd : env.dom s.step with
    | error e => simp [hd, throwJS] at h
    | ok d =>
      simp only [hd, run_pure, run_bind, Res.ok.injEq] at h
      exact ⟨d, rfl, h.1.symm⟩

/-- The loop of `waitForFinalStable` with a deadline set `W` after an earlier
clock reading: it ends, and without a throw other than of a value with a
message, when the waits are followed long enough and the loop budget covers the
growth of the count. -/
theorem waitForFinalStableLoop_ends {strict : Prop} (cfg : Config) (env : Env) (bound : Nat)
    (hmsg : env.messaged) (hp : strict → env.patient cfg bound) (k0 : Nat) (W : Int)
    (hW : W ≤ cfg.RESPONSE_MAX_WAIT) :
    ∀ (fuel prev : Nat) (last : JSString) (s : St), k0 ≤ s.step →
      (strict → bound - prev + 1 ≤ fuel) →
      s.step ≤ (waitForFinalStableLoop cfg env (env.clock k0 + W) fuel prev last s).state.step ∧
      match waitForFinalStableLoop cfg env (env.clock k0 + W) fuel prev last s with
      | .ok _ _ => True
      | .threw e _ => True ∧ e.message ≠ none
      | .pending _ => ¬ strict
  | 0, prev, last, s, _, hf => by
    refine ⟨Nat.le_refl _, fun hs => ?_⟩
    have := hf hs
    omega
  | fuel + 1, prev, last, s, hk, hf => by
    unfold waitForFinalStableLoop
    simp only [run_bind, dateNow_ok]
    split
    · simp only [run_bind, dateNow_ok]
      have ho : strict →
          (some (max 1000 (env.clock k0 + W - env.clock (s.step + 1)))).getD
            cfg.RESPONSE_MAX_WAIT ≤ waitBound cfg := by
        intro hs
        have hmono := (hp hs).1 k0 (s.step + 1) (by omega)
        have h1 : (1000 : Int) ≤ waitBound cfg := le_max_left _ _
        have h2 := le_waitBound_max cfg
        simp only [Option.getD_some]
        apply max_le h1
        omega
      obtain ⟨w0, w1⟩ := ends_waitForStableResponse cfg env bound hmsg hp prev
        (some (max 1000 (env.clock k0 + W - env.clock (s.step + 1)))) ho
        { s with step := s.step + 1 + 1 }
      generalize hw : waitForStableResponse cfg env prev
        (some (max 1000 (env.clock k0 + W - env.clock (s.step + 1))))
        { s with step := s.step + 1 + 1 } = w at w0 w1
      cases w with
      | threw e s3 =>
        simp only [Res.state] at w0 ⊢
        exact ⟨by omega, w1⟩
      | pending s3 =>
        simp only [Res.state] at w0 ⊢
        exact ⟨by omega, w1⟩
      | ok resp s3 =>
        simp only [Res.state] at w0
        simp only
        split
        · simp only [run_pure, Res.state]
          exact ⟨by omega, trivial⟩
        · simp only [run_bind, run_pure]
          obtain ⟨c0, c1⟩ := @ends_countMessages strict env hmsg s3
          generalize hc : countMessages env s3 = c at c0 c1
          cases c with
          | threw e s4 =>
            simp only [Res.state] at c0 ⊢
            exact ⟨by omega, c1⟩
          | pending s4 =>
            simp only [Res.state] at c0 ⊢
            exact ⟨by omega, c1⟩
          | ok counts s4 =>
            simp only [Res.state] at c0
            simp only
            split
            · rename_i hgrow
              obtain ⟨d, hd, hcd⟩ := countMessages_ok env s3 s4 counts hc
              obtain ⟨r0, r1⟩ := waitForFinalStableLoop_ends cfg env bound hmsg hp k0 W hW fuel
                counts.msgCount resp s4 (by omega) (fun hs => by
                  have hb := (hp hs).2.2 s3.step d hd
                  have := hf hs
                  rw [← hcd] at hb
                  have hg : prev < counts.msgCount := hgrow
                  omega)
              exact ⟨by omega, r1⟩
            · simp only [run_pure, Res.state]
              exact ⟨by omega, trivial⟩
    · simp only [run_pure, Res.state]
      exact ⟨by omega, trivial⟩

/-- The deadline is set and the final-stable wait is made. -/
theorem ends_deadline_wait {strict : Prop} {α : Type} (cfg : Config) (env : Env) (bound : Nat)
    (hmsg : env.messaged) (hp : strict → env.patient cfg bound) (fuel prev : Nat) (W : Int)
    (hW : W ≤ cfg.RESPONSE_MAX_WAIT) (hf : strict → bound + 1 ≤ fuel)
    (k : Option JSString → Run α) (hk : ∀ x, Ends strict True (k x)) :
    Ends strict True
      (deadlineIn env W >>= fun deadline =>
        waitForFinalStable cfg env fuel prev deadline >>= k) := by
  intro s
  unfold deadlineIn waitForFinalStable
  simp only [run_bind, dateNow_ok, run_pure]
  obtain ⟨r0, r1⟩ := waitForFinalStableLoop_ends cfg env bound hmsg hp s.step W hW fuel prev []
    { s with step := s.step + 1 } (Nat.le_succ _) (fun hs => by
      have := hf hs
      omega)
  generalize waitForFinalStableLoop cfg env (env.clock s.step + W) fuel prev []
    { s with step := s.step + 1 } = w at r0 r1
  cases w with
  | threw e s1 =>
    simp only [Res.state] at r0 ⊢
    exact ⟨by omega, r1⟩
  | pending s1 =>
    simp only [Res.state] at r0 ⊢
    exact ⟨by omega, r1⟩
  | ok x s1 =>
    simp only [Res.state] at r0
    obtain ⟨k0, k1⟩ := hk x s1
    simp only
    exact ⟨by omega, k1⟩
theorem ends_deadline_wait_last {strict : Prop} (cfg : Config) (env : Env) (bound : Nat)
    (hmsg : env.messaged) (hp : strict → env.patient cfg bound) (fuel prev : Nat) (W : Int)
    (hW : W ≤ cfg.RESPONSE_MAX_WAIT) (hf : strict → bound + 1 ≤ fuel) :
    Ends strict True
      (deadlineIn env W >>= fun deadline => waitForFinalStable cfg env fuel prev deadline) := by
  intro s
  unfold deadlineIn waitForFinalStable
  simp only [run_bind, dateNow_ok, run_pure]
  obtain ⟨r0, r1⟩ := waitForFinalStableLoop_ends cfg env bound hmsg hp s.step W hW fuel prev []
    { s with step := s.step + 1 } (Nat.le_succ _) (fun hs => by
      have := hf hs
      omega)
  generalize waitForFinalStableLoop cfg env (env.clock s.step + W) fuel prev []
    { s with step := s.step + 1 } = w at r0 r1
  cases w with
  | threw e s1 =>
    simp only [Res.state] at r0 ⊢
    exact ⟨by omega, r1⟩
  | pending s1 =>
    simp only [Res.state] at r0 ⊢
    exact ⟨by omega, r1⟩
  | ok x s1 =>
    simp only [Res.state] at r0 ⊢
    exact ⟨by omega, trivial⟩

/-- The `try` block of a turn ends; what it throws has a message. -/
theorem ends_turnBody {strict : Prop} (cfg : Config) (env : Env) (bound fuel : Nat)
    (hmsg : env.messaged) (hp : strict → env.patient cfg bound)
    (hf : strict → bound + 1 ≤ fuel) (message : JSString) :
    Ends strict True (turnBody cfg env fuel message) := by
  unfold turnBody
  refine ends_bind (ends_countMessages env hmsg) (fun baseline => ?_)
  refine ends_bind (ends_typeAndSend env hmsg _) (fun _ => ?_)
  refine ends_bind ends_getPage (fun _ => ?_)
  refine ends_bind (ends_awaitOp _ hmsg.1) (fun _ => ?_)
  dsimp only
  split
  · refine ends_bind (ends_waitForFirstNonLoading cfg env bound hmsg hp _ _
      (fun _ => le_waitBound_quick cfg)) (fun quick => ?_)
    split
    · refine ends_deadline_wait cfg env bound hmsg hp fuel _ _ (le_refl _) hf _ (fun y => ?_)
      repeat' first
        | exact ends_pure _
        | split
    · refine ends_deadline_wait cfg env bound hmsg hp fuel _ _ (min_le_left _ _) hf _
        (fun y => ?_)
      repeat' first
        | exact ends_pure _
        | apply ends_bind
        | split
        | intro _
  · refine ends_deadline_wait cfg env bound hmsg hp fuel _ _ (le_refl _) hf _ (fun y => ?_)
    repeat' first
      | exact ends_pure _
      | split

/-- The `catch` block of a turn, entered with an error that has a message, ends
without throwing. -/
theorem ends_recoverOrGiveUp {strict : Prop} (cfg : Config) (env : Env) (bound : Nat)
    (hmsg : env.messaged) (hp : strict → env.patient cfg bound) (retrying : Bool)
    (replay : Run (Option JSString)) (hr : Ends strict True replay) (err : JSError)
    (he : err.message ≠ none) :
    Ends strict False (recoverOrGiveUp cfg env retrying replay err) := by
  unfold recoverOrGiveUp
  cases hm : err.message with
  | none => exact absurd hm he
  | some text =>
    dsimp only
    repeat' first
      | exact ends_pure _
      | exact ends_emit _
      | exact ends_nextOp
      | exact ends_getSt
      | exact ends_modifySt _ (fun _ => Nat.le_refl _)
      | exact ends_initNotebookLM cfg env bound hmsg hp
      | exact hr
      | apply ends_bind
      | apply ends_tryCatch
      | split
      | intro _

theorem ends_getResponseWith {strict : Prop} (cfg : Config) (env : Env) (bound fuel : Nat)
    (hmsg : env.messaged) (hp : strict → env.patient cfg bound)
    (hf : strict → bound + 1 ≤ fuel) (message : JSString) (retrying : Bool)
    (replay : Run (Option JSString)) (hr : Ends strict True replay) :
    Ends strict False (getResponseWith cfg env fuel message retrying replay) := by
  unfold getResponseWith
  refine ends_bind ends_getSt (fun st => ?_)
  split
  · exact ends_pure _
  · refine ends_bind (ends_pure _) (fun _ => ?_)
    refine ends_bind (ends_emit _) (fun _ => ?_)
    exact ends_tryCatch (ends_turnBody cfg env bound fuel hmsg hp hf message)
      (fun e he => ends_recoverOrGiveUp cfg env bound hmsg hp retrying replay hr e he)

/-- A call of `getResponseFromNotebookLM` ends without throwing: with a string
or `null` when the waits are followed long enough, and otherwise at worst
still waiting. -/
theorem ends_getResponseFromNotebookLM {strict : Prop} (cfg : Config) (env : Env)
    (bound fuel : Nat) (hmsg : env.messaged) (hp : strict → env.patient cfg bound)
    (hf : strict → bound + 1 ≤ fuel) (message : JSString) (retrying : Bool) :
    Ends strict False (getResponseFromNotebookLM cfg env fuel message retrying) :=
  ends_getResponseWith cfg env bound fuel hmsg hp hf message retrying _
    (ends_weaken (ends_getResponseWith cfg env bound fuel hmsg hp hf message true _
      (ends_pure _)))

/-- A thrown value without a `message` property is outside the reach of the
`catch` block: `err.message.includes` throws a `TypeError` there, and the call
of `getResponseFromNotebookLM` throws it on. -/
theorem bare_throw_propagates :
    (getResponseFromNotebookLM shortWaits bareThrowEnv 3 (js "gm") false ready).error? =
      some (JSError.ofText "Cannot read properties of undefined (reading 'includes')") := by
  decide!
/-- The loop of `waitForFinalStable`, entered with a `lastResp` that is empty or
that a stabilization wait returned before the count grew to `prev`, returns a
text only in one of the ways of `FinalStableExit`. -/
theorem waitForFinalStableLoop_exit (cfg : Config) (env : Env) (deadline : Int) (start : Nat) :
    ∀ (fuel prev : Nat) (lastResp : JSString) (s s1 : St) (t : JSString),
      start ≤ prev →
      (lastResp = [] ∨ ∃ (prev0 : Nat) (maxMs : Int) (sW sR : St) (counts : Counts),
        start ≤ prev0 ∧
        waitForStableResponse cfg env prev0 (some maxMs) sW = .ok lastResp sR ∧
        countMessages env sR = .ok counts s ∧ prev0 < counts.msgCount ∧
        prev = counts.msgCount) →
      waitForFinalStableLoop cfg env deadline fuel prev lastResp s = .ok (some t) s1 →
      FinalStableExit cfg env deadline start t s1
  | 0, _, _, _, _, _, _, _, h => by simp [waitForFinalStableLoop, neverEnds] at h
  | fuel + 1, prev, lastResp, s, s1, t, hprev, hinv, h => by
    have hheld : ∀ t, orNull lastResp = some t →
        ∃ (prev0 : Nat) (maxMs : Int) (sW sR : St) (counts : Counts),
          start ≤ prev0 ∧
          waitForStableResponse cfg env prev0 (some maxMs) sW = .ok t sR ∧
          countMessages env sR = .ok counts s ∧ prev0 < counts.msgCount ∧
          prev = counts.msgCount := by
      intro t ht
      obtain ⟨h1, h2⟩ := orNull_some _ _ ht
      rcases hinv with h0 | h0
      · exact absurd h0 h2
      · rw [h1]
        exact h0
    unfold waitForFinalStableLoop at h
    simp only [run_bind, dateNow_ok] at h
    split at h
    · rename_i hbefore
      simp only [run_bind, dateNow_ok] at h
      generalize hw : waitForStableResponse cfg env prev _ _ = w at h
      cases w with
      | threw e s2 => simp at h
      | pending s2 => simp at h
      | ok resp s2 =>
        simp only at h
        cases hnb : nonBlank resp with
        | false =>
          simp only [hnb, Bool.not_false, ↓reduceIte, run_pure, Res.ok.injEq] at h
          obtain ⟨h1, h2⟩ := h
          subst h2
          obtain ⟨prev0, maxMs, sW, sR, counts, g1, g2, g3, g4, g5⟩ := hheld t h1
          subst g5
          exact ⟨prev0, maxMs, sW, sR, counts, s, g1, g2, g3, Or.inr ⟨g4, Or.inr
            ⟨env.clock s.step, _, env.clock (s.step + 1), _, resp, rfl, hbefore, rfl, hw, hnb⟩⟩⟩
        | true =>
          simp only [hnb, Bool.not_true, Bool.false_eq_true, ↓reduceIte, run_bind, run_pure] at h
          generalize hc : countMessages env s2 = c at h
          cases c with
          | threw e s3 => simp at h
          | pending s3 => simp at h
          | ok counts s3 =>
            simp only at h
            split at h
            · rename_i hgrow
              exact waitForFinalStableLoop_exit cfg env deadline start fuel counts.msgCount resp
                s3 s1 t (by omega)
                (Or.inr ⟨prev, _, _, s2, counts, hprev, hw, hc, hgrow, rfl⟩) h
            · rename_i hgrow
              simp only [run_pure, Res.ok.injEq, Option.some.injEq] at h
              obtain ⟨h1, h2⟩ := h
              subst h1
              subst h2
              exact ⟨prev, _, _, s2, counts, s3, hprev, hw, hc, Or.inl ⟨by omega, rfl⟩⟩
    · rename_i hpast
      simp only [run_pure, Res.ok.injEq] at h
      obtain ⟨h1, h2⟩ := h
      obtain ⟨prev0, maxMs, sW, sR, counts, g1, g2, g3, g4, g5⟩ := hheld t h1
      exact ⟨prev0, maxMs, sW, sR, counts, s, g1, g2, g3, Or.inr ⟨g4, Or.inl
        ⟨env.clock s.step, by rw [dateNow_ok, h2], by omega⟩⟩⟩
/-! ## The readings behind a resolution -/

theorem stableVars_snoc (prevCount : Nat) (stableMs maxMs start : Int) :
    ∀ (es : List PageEvent) (st : StableState) (e : PageEvent),
      stableVars prevCount stableMs maxMs start st (es ++ [e]) =
        (stableStep prevCount stableMs maxMs start
          (stableVars prevCount stableMs maxMs start st es) e).2
  | [], _, _ => rfl
  | x :: xs, st, e => by
    simp only [List.cons_append, stableVars]
    exact stableVars_snoc prevCount stableMs maxMs start xs _ e

theorem stableStep_body (prevCount : Nat) (stableMs maxMs start : Int) (st : StableState)
    (e : PageEvent) (hk : e.kind = .bodyMutation) :
    (stableStep prevCount stableMs maxMs start st e).2 = retarget prevCount e st false := by
  simp only [stableStep, hk]

theorem stableStep_content (prevCount : Nat) (stableMs maxMs start : Int) (st : StableState)
    (e : PageEvent) (hk : e.kind = .contentMutation) :
    (stableStep prevCount stableMs maxMs start st e).2 =
      if st.observing then { st with lastChange := e.now } else st := by
  simp only [stableStep, hk]

theorem stableStep_tick_none (prevCount : Nat) (stableMs maxMs start : Int) (st : StableState)
    (e : PageEvent) (hk : e.kind = .tick) (ht : st.target = none) :
    (stableStep prevCount stableMs maxMs start st e).2 = retarget prevCount e st true := by
  simp only [stableStep, hk, ht]
  split <;> rfl

theorem stableStep_tick_some (prevCount : Nat) (stableMs maxMs start : Int) (st : StableState)
    (e : PageEvent) (id : Nat) (hk : e.kind = .tick) (ht : st.target = some id) :
    (stableStep prevCount stableMs maxMs start st e).2 =
      if getTextFromMessage (e.dom.find id) ≠ st.lastText then
        { st with lastText := getTextFromMessage (e.dom.find id), lastChange := e.now,
                  observing := true }
      else { st with observing := true } := by
  simp only [stableStep, hk, ht]
  split <;> simp only [apply_ite Prod.snd, ite_self]

theorem targetSet_snoc (prevCount : Nat) (dom0 : Dom) (es : List PageEvent) (e : PageEvent) :
    targetSet prevCount dom0 (es ++ [e]) =
      (targetSet prevCount dom0 es ||
        (e.kind != .contentMutation && decide (e.dom.entryList.length > prevCount))) := by
  simp only [targetSet, List.any_append, List.any_cons, List.any_nil, Bool.or_false,
    Bool.or_assoc]

theorem observerAttached_snoc (prevCount : Nat) (dom0 : Dom) (es : List PageEvent)
    (e : PageEvent) :
    observerAttached prevCount dom0 (es ++ [e]) =
      (observerAttached prevCount dom0 es ||
        (e.kind == .tick && targetSet prevCount dom0 (es ++ [e]))) := by
  simp only [observerAttached, List.inits_append, List.inits, List.tail_cons, List.map_cons,
    List.map_nil, List.any_append, List.any_cons, List.any_nil, Bool.or_false,
    List.getLast?_append, List.getLast?_singleton, Option.or_some]

/-- The variables `target` and the attachment of the content observer, told
from the callbacks. -/
theorem stableVars_attached (prevCount : Nat) (stableMs maxMs start : Int) (dom0 : Dom)
    (es : List PageEvent) :
    (stableVars prevCount stableMs maxMs start (stableInit prevCount start dom0) es).target.isSome =
      targetSet prevCount dom0 es ∧
    (stableVars prevCount stableMs maxMs start (stableInit prevCount start dom0) es).observing =
      observerAttached prevCount dom0 es := by
  induction es using List.reverseRecOn with
  | nil =>
    simp only [stableVars, stableInit, targetSet, List.any_nil, Bool.or_false, observerAttached,
      List.inits, List.any_cons, List.getLast?_nil]
    refine ⟨?_, trivial⟩
    by_cases hb : dom0.entryList.length > prevCount
    · simp only [hb, ↓reduceIte, decide_True, Option.isSome_map']
      cases hl : dom0.entryList with
      | nil => rw [hl] at hb; simp at hb
      | cons a as => simp [List.getLast?_cons_cons, List.getLast?_isSome]
    · simp [hb]
  | append_singleton es e ih =>
    obtain ⟨ih1, ih2⟩ := ih
    rw [stableVars_snoc, observerAttached_snoc, targetSet_snoc]
    generalize stableVars prevCount stableMs maxMs start (stableInit prevCount start dom0) es = st
      at ih1 ih2
    have hlast : ∀ d : Dom, d.entryList.length > prevCount →
        (d.entryList.getLast?.map (fun m => m.id)).isSome = true := by
      intro d hd
      cases hl : d.entryList with
      | nil => rw [hl] at hd; simp at hd
      | cons a as => simp [List.getLast?_isSome]
    cases hk : e.kind with
    | bodyMutation =>
      rw [stableStep_body _ _ _ _ _ _ hk]
      unfold retarget
      by_cases hb : e.dom.entryList.length > prevCount
      · simp [hb, hlast e.dom hb, ← ih2]
      · simp [hb, ih1, ih2]
    | contentMutation =>
      rw [stableStep_content _ _ _ _ _ _ hk]
      split <;> simp [ih1, ih2]
    | tick =>
      cases ht : st.target with
      | none =>
        rw [stableStep_tick_none _ _ _ _ _ _ hk ht]
        rw [ht] at ih1
        unfold retarget
        by_cases hb : e.dom.entryList.length > prevCount
        · simp [hb, hlast e.dom hb]
        · simp [hb, ht, ← ih1, ih2]
      | some id =>
        rw [stableStep_tick_some _ _ _ _ _ _ id hk ht]
        rw [ht] at ih1
        split <;> simp [ht, ← ih1]
theorem snoc_eq_split {α : Type} (quiet q1 q2 : List α) (e m : α)
    (h : quiet ++ [e] = q1 ++ m :: q2) :
    (∃ q3, quiet = q1 ++ m :: q3 ∧ q2 = q3 ++ [e]) ∨ (q1 = quiet ∧ m = e ∧ q2 = []) := by
  induction q2 using List.reverseRecOn with
  | nil =>
    have h2 : quiet ++ [e] = q1 ++ [m] := h
    obtain ⟨h3, h4⟩ := List.append_inj' h2 rfl
    simp only [List.cons.injEq, and_true] at h4
    exact Or.inr ⟨h3.symm, h4.symm, rfl⟩
  | append_singleton q3 x _ =>
    have h2 : quiet ++ [e] = (q1 ++ m :: q3) ++ [x] := by simpa using h
    obtain ⟨h3, h4⟩ := List.append_inj' h2 rfl
    simp only [List.cons.injEq, and_true] at h4
    exact Or.inl ⟨q3, h3, by rw [h4]⟩

/-- The variables `lastText` and `lastChange`, told from the callbacks: either
no text was recorded yet, or `lastChange` is the clock reading of a callback
`c` that, unless it was a content mutation, read the text held (from the last
entry when it set the target, from the target otherwise), and after which no
callback recorded a change for the target and the text held. -/
theorem stableVars_quiet (prevCount : Nat) (stableMs maxMs start : Int) (dom0 : Dom)
    (es : List PageEvent) :
    (stableVars prevCount stableMs maxMs start (stableInit prevCount start dom0) es).lastText = [] ∨
    ∃ before c quiet, es = before ++ c :: quiet ∧
      (stableVars prevCount stableMs maxMs start (stableInit prevCount start dom0) es).lastChange =
        c.now ∧
      (c.kind ≠ .contentMutation →
        (stableVars prevCount stableMs maxMs start (stableInit prevCount start dom0) es).lastText =
          getTextFromMessage c.dom.entryList.getLast? ∨
        ∃ id, (stableVars prevCount stableMs maxMs start (stableInit prevCount start dom0)
            es).target = some id ∧
          (stableVars prevCount stableMs maxMs start (stableInit prevCount start dom0)
            es).lastText = getTextFromMessage (c.dom.find id)) ∧
      ∀ id, (stableVars prevCount stableMs maxMs start (stableInit prevCount start dom0)
          es).target = some id →
        ∀ q1 m q2, quiet = q1 ++ m :: q2 →
          recordsNoChange prevCount dom0 id
            (stableVars prevCount stableMs maxMs start (stableInit prevCount start dom0)
              es).lastText (before ++ c :: q1) m := by
  induction es using List.reverseRecOn with
  | nil => exact Or.inl rfl
  | append_singleton es e ih =>
    have hatt := (stableVars_attached prevCount stableMs maxMs start dom0 es).2
    rw [stableVars_snoc]
    generalize stableVars prevCount stableMs maxMs start (stableInit prevCount start dom0) es = st
      at ih hatt
    -- a callback that records a change starts a new quiet period
    have writer : ∀ st1 : StableState, st1.lastChange = e.now →
        (e.kind ≠ .contentMutation →
          st1.lastText = getTextFromMessage e.dom.entryList.getLast? ∨
          ∃ id, st1.target = some id ∧ st1.lastText = getTextFromMessage (e.dom.find id)) →
        st1.lastText = [] ∨
        ∃ before c quiet, es ++ [e] = before ++ c :: quiet ∧ st1.lastChange = c.now ∧
          (c.kind ≠ .contentMutation →
            st1.lastText = getTextFromMessage c.dom.entryList.getLast? ∨
            ∃ id, st1.target = some id ∧ st1.lastText = getTextFromMessage (c.dom.find id)) ∧
          ∀ id, st1.target = some id → ∀ q1 m q2, quiet = q1 ++ m :: q2 →
            recordsNoChange prevCount dom0 id st1.lastText (before ++ c :: q1) m := by
      intro st1 h1 hread
      refine Or.inr ⟨es, e, [], rfl, h1, hread, ?_⟩
      intro id _ q1 m q2 hq
      simp at hq
    -- a callback that records none prolongs the quiet period
    have keeper : ∀ st1 : StableState, st1.target = st.target → st1.lastText = st.lastText →
        st1.lastChange = st.lastChange →
        (∀ id, st.target = some id → recordsNoChange prevCount dom0 id st.lastText es e) →
        st1.lastText = [] ∨
        ∃ before c quiet, es ++ [e] = before ++ c :: quiet ∧ st1.lastChange = c.now ∧
          (c.kind ≠ .contentMutation →
            st1.lastText = getTextFromMessage c.dom.entryList.getLast? ∨
            ∃ id, st1.target = some id ∧ st1.lastText = getTextFromMessage (c.dom.find id)) ∧
          ∀ id, st1.target = some id → ∀ q1 m q2, quiet = q1 ++ m :: q2 →
            recordsNoChange prevCount dom0 id st1.lastText (before ++ c :: q1) m := by
      intro st1 h1 h2 h3 hnew
      rcases ih with h0 | ⟨before, c, quiet, hes, hlc, hread, hq⟩
      · exact Or.inl (h2.trans h0)
      · refine Or.inr ⟨before, c, quiet ++ [e], by rw [hes]; simp, h3.trans hlc, ?_, ?_⟩
        · rw [h1, h2]
          exact hread
        · intro id hid q1 m q2 hsplit
          rw [h1] at hid
          rw [h2]
          rcases snoc_eq_split quiet q1 q2 e m hsplit with ⟨q3, g1, _⟩ | ⟨g1, g2, _⟩
          · exact hq id hid q1 m q3 g1
          · subst g1
            subst g2
            rw [← hes]
            exact hnew id hid
    cases hk : e.kind with
    | bodyMutation =>
      rw [stableStep_body _ _ _ _ _ _ hk]
      unfold retarget
      by_cases hb : e.dom.entryList.length > prevCount
      · rw [if_pos hb]
        exact writer _ rfl (fun _ => Or.inl rfl)
      · rw [if_neg hb]
        exact keeper st rfl rfl rfl (fun id _ =>
          ⟨fun h => (by rw [hk] at h; cases h), fun _ => (by omega),
            fun h => (by rw [hk] at h; cases h)⟩)
    | contentMutation =>
      rw [stableStep_content _ _ _ _ _ _ hk]
      by_cases ho : st.observing = true
      · rw [if_pos ho]
        exact writer _ rfl (fun h => absurd hk h)
      · rw [if_neg ho]
        exact keeper st rfl rfl rfl (fun id _ =>
          ⟨fun h => (by rw [hk] at h; cases h), fun h => (by rw [hk] at h; cases h),
            fun _ => (by rw [← hatt]; simpa using ho)⟩)
    | tick =>
      cases ht : st.target with
      | none =>
        rw [stableStep_tick_none _ _ _ _ _ _ hk ht]
        unfold retarget
        by_cases hb : e.dom.entryList.length > prevCount
        · rw [if_pos hb]
          exact writer _ rfl (fun _ => Or.inl rfl)
        · rw [if_neg hb]
          exact keeper st rfl rfl rfl (fun id hid => by rw [ht] at hid; cases hid)
      | some id =>
        rw [stableStep_tick_some _ _ _ _ _ _ id hk ht]
        by_cases hx : getTextFromMessage (e.dom.find id) ≠ st.lastText
        · rw [if_pos hx]
          exact writer _ rfl (fun _ => Or.inr ⟨id, ht, rfl⟩)
        · rw [if_neg hx]
          simp only [ne_eq, not_not] at hx
          exact keeper _ rfl rfl rfl (fun id2 hid => by
            rw [ht] at hid
            cases hid
            exact ⟨fun _ => hx, fun h => (by rw [hk] at h; cases h),
              fun h => (by rw [hk] at h; cases h)⟩)

/-! ## Handler runs one after the other and the moves in order -/

/-- The part of the handler after the presence update, as `finish` runs it. -/
theorem dispatchReply_eq_finish (cfg : Config) (env : Env) (msg : WAMessage)
    (text response : JSString) (s : St) :
    dispatchReply cfg env msg text response s =
      (nextOp >>= fun k => finish cfg env
        { msg := msg, text := text, response := response, point := .presence, op := k }) s := by
  unfold dispatchReply finish resume awaitOp
  simp only [run_bind, nextOp, run_pure]
  cases hp : env.presence s.step with
  | error e => rfl
  | ok u =>
    simp only [run_bind, run_pure]
    cases hm : cfg.MANUAL_SEND with
    | false =>
      simp only [Bool.false_eq_true, ↓reduceIte, run_bind, run_pure, emit, modifySt, nextOp]
      cases hs : env.send (s.step + 1) with
      | error e => rfl
      | ok u2 => rfl
    | true =>
      simp only [↓reduceIte, run_bind, run_pure]
      cases hr : manualReview env { s with step := s.step + 1 } with
      | threw e s1 => rfl
      | pending s1 => rfl
      | ok go s1 =>
        cases go with
        | false => rfl
        | true =>
          simp only [Bool.not_true, Bool.false_eq_true, ↓reduceIte, run_bind, run_pure, emit,
            modifySt, nextOp]
          cases hs : env.send s1.step with
          | error e => rfl
          | ok u2 => rfl

/-- A handler run is the run from the event to the first `await` on the socket,
followed to its end. -/
theorem onMessagesUpsert_eq_arrive (cfg : Config) (env : Env) (fuel : Nat)
    (m : List WAMessage) (s : St) :
    onMessagesUpsert cfg env fuel m s =
      (arrive cfg env fuel m >>= fun o =>
        match o with
        | none => pure ()
        | some w => finish cfg env w) s := by
  cases m with
  | nil => rfl
  | cons msg rest =>
    obtain ⟨message, fromMe, remoteJid, mid⟩ := msg
    cases message with
    | none => rfl
    | some content =>
      cases fromMe with
      | true => rfl
      | false =>
        unfold onMessagesUpsert arrive
        dsimp only [List.head?_cons]
        cases ha : allowed cfg (remoteJid.getD []) with
        | false => rfl
        | true =>
          cases he : (textOf content).isEmpty with
          | true => rfl
          | false =>
            simp only [Bool.false_eq_true, ↓reduceIte, Bool.not_true, run_bind, getSt, run_pure]
            split
            · rfl
            · simp only [run_bind, run_pure]
              split
              · rfl
              · simp only [run_bind, run_pure, emit, modifySt]
                cases hturn : getResponseFromNotebookLM cfg env fuel (textOf content) false
                    { s with trace := s.trace ++ [.askNotebook (textOf content)] } with
                | threw e s2 => rfl
                | pending s2 => rfl
                | ok resp s2 =>
                  cases resp with
                  | none => rfl
                  | some t =>
                    cases t with
                    | nil => rfl
                    | cons c cs =>
                      simp only [run_bind, getSt, run_pure]
                      split
                      · simp only [run_bind, run_pure]
                        exact dispatchReply_eq_finish cfg env _ _ _ s2
                      · rfl
/-- What `resume` hands back stands at the send. -/
theorem resume_some (cfg : Config) (env : Env) (w w1 : Suspended) (s s1 : St)
    (h : resume cfg env w s = .ok (some w1) s1) : w.point = .presence ∧ w1.point = .send := by
  obtain ⟨msg, text, response, point, op⟩ := w
  cases point with
  | send =>
    unfold resume at h
    simp only at h
    cases hs : env.send op with
    | error e => simp [hs, throwJS] at h
    | ok u => simp [hs, run_bind, run_pure, emit, modifySt] at h
  | presence =>
    refine ⟨rfl, ?_⟩
    unfold resume at h
    simp only at h
    cases hp : env.presence op with
    | error e => simp [hp, throwJS] at h
    | ok u =>
      simp only [hp, run_bind, run_pure] at h
      cases hm : cfg.MANUAL_SEND with
      | false =>
        simp only [hm, Bool.false_eq_true, ↓reduceIte, run_bind, run_pure, emit, modifySt,
          nextOp, Res.ok.injEq, Option.some.injEq] at h
        rw [← h.1]
      | true =>
        simp only [hm, ↓reduceIte, run_bind, run_pure] at h
        cases hr : manualReview env s with
        | threw e s2 => simp [hr] at h
        | pending s2 => simp [hr] at h
        | ok go s2 =>
          cases go with
          | false => simp [hr, run_pure] at h
          | true =>
            simp only [hr, Bool.not_true, Bool.false_eq_true, ↓reduceIte, run_bind, run_pure,
              emit, modifySt, nextOp, Res.ok.injEq, Option.some.injEq] at h
            rw [← h.1]

/-- One event handled with nothing else in between: the three moves leave the
state of the handler run and no run suspended. -/
theorem runMoves_one (cfg : Config) (env : Env) (fuel : Nat) (m : List WAMessage) (s : St) :
    runMoves cfg env fuel [.deliver m, .resume 0, .resume 0] { st := s, waiting := [] } =
      { st := (onMessagesUpsert cfg env fuel m s).state, waiting := [] } := by
  rw [onMessagesUpsert_eq_arrive]
  simp only [runMoves, Router.step, run_bind]
  cases ha : arrive cfg env fuel m s with
  | threw e s1 => rfl
  | pending s1 => rfl
  | ok o s1 =>
    cases o with
    | none => rfl
    | some w =>
      simp only [List.nil_append, List.getElem?_cons_zero, finish, run_bind]
      cases hr : resume cfg env w s1 with
      | threw e s2 => rfl
      | pending s2 => rfl
      | ok o2 s2 =>
        cases o2 with
        | none => rfl
        | some w1 =>
          have hpt := (resume_some cfg env w w1 s1 s2 hr).2
          simp only [List.set_cons_zero, List.getElem?_cons_zero, run_bind, run_pure]
          cases hr2 : resume cfg env w1 s2 with
          | threw e s3 => rfl
          | pending s3 => rfl
          | ok o3 s3 =>
            cases o3 with
            | none => rfl
            | some w2 =>
              have := (resume_some cfg env w1 w2 s2 s3 hr2).1
              rw [hpt] at this
              cases this

theorem runMoves_append (cfg : Config) (env : Env) (fuel : Nat) :
    ∀ (a b : List Move) (r : Router),
      runMoves cfg env fuel (a ++ b) r = runMoves cfg env fuel b (runMoves cfg env fuel a r)
  | [], _, _ => rfl
  | x :: xs, b, r => by
    rw [List.cons_append]
    simp only [runMoves]
    exact runMoves_append cfg env fuel xs b _

/-- Events handled without overlap: the state is that of the handler runs made
one after the other, and no run is left suspended. -/
theorem handledInOrder_eq (cfg : Config) (env : Env) (fuel : Nat) :
    ∀ (events : List (List WAMessage)) (s : St),
      handledInOrder cfg env fuel events s =
        { st := handleAll cfg env fuel events s, waiting := [] }
  | [], _ => rfl
  | m :: ms, s => by
    have h1 := runMoves_one cfg env fuel m s
    have h2 := handledInOrder_eq cfg env fuel ms (onMessagesUpsert cfg env fuel m s).state
    unfold handledInOrder at h2 ⊢
    rw [show inOrder (m :: ms) = [.deliver m, .resume 0, .resume 0] ++ inOrder ms from by
      simp [inOrder], runMoves_append, h1, h2]
    rfl
/-! ## The `sendMessage` calls of a handler run -/

theorem sends_tail (env : Env) (jid id : Option JSString) (text r : JSString) :
    Moves sendFrame 1
      (emit (.sendMessage jid r) >>= fun _ =>
        awaitOp env.send >>= fun _ =>
          emit (.replied r) >>= fun _ =>
            modifySt (fun s => { s with dedup :=
              { lastMsgId := some id, lastMsgText := some text, lastReply := some r } })) := by
  have h1 : Moves sendFrame 1 (emit (.sendMessage jid r)) :=
    fun _ => ⟨[.sendMessage jid r], rfl, List.countP_le_length _⟩
  have h2 : Moves sendFrame 0 (modifySt (fun s => { s with dedup :=
      { lastMsgId := some id, lastMsgText := some text, lastReply := some r } })) :=
    fun _ => ⟨[], by simp [modifySt, Res.state], by simp⟩
  have h3 := moves_bind_add h1 (fun _ =>
    moves_bind (moves_awaitOp env.send) (fun _ =>
      moves_bind (moves_emit (G := sendFrame) (.replied r) rfl) (fun _ => h2)))
  simpa using h3

theorem sends_dispatchReply (cfg : Config) (env : Env) (msg : WAMessage)
    (text response : JSString) :
    Moves sendFrame 1 (dispatchReply cfg env msg text response) := by
  unfold dispatchReply
  dsimp only
  repeat' first
    | exact moves_pure _
    | exact moves_awaitOp _
    | exact moves_manualReview _
    | exact sends_tail _ _ _ _ _
    | apply moves_bind
    | split
    | intro _

/-- One handler run makes one `sendMessage` call at most. -/
theorem sends_onMessagesUpsert (cfg : Config) (env : Env) (fuel : Nat) (m : List WAMessage) :
    Moves sendFrame 1 (onMessagesUpsert cfg env fuel m) := by
  unfold onMessagesUpsert
  dsimp only
  repeat' first
    | exact moves_pure _
    | exact moves_throwJS _
    | exact moves_getSt
    | exact moves_emit _ rfl
    | exact sends_dispatchReply _ _ _ _ _
    | exact quiet_getResponseFromNotebookLM
        (fun a ha => by cases a <;> simp_all [sendFrame, Act.isSend, Act.isRouter]) _ _ _ _ _
    | apply moves_bind
    | split
    | intro _

/-- One handler run: the number of `sendMessage` calls grows by one at most, and
not at all when the run leaves the state as it was. -/
theorem sendCount_step (cfg : Config) (env : Env) (fuel : Nat) (m : List WAMessage) (s : St) :
    sendCount s.trace ≤ sendCount (onMessagesUpsert cfg env fuel m s).state.trace ∧
    sendCount (onMessagesUpsert cfg env fuel m s).state.trace ≤ sendCount s.trace + 1 := by
  obtain ⟨acts, ht, hc⟩ := sends_onMessagesUpsert cfg env fuel m s
  rw [ht]
  simp only [sendCount, List.countP_append]
  omega

/-! ## The baseline and the list it is compared with -/

/-- The count `countMessages` returns equals the length of the list the waits
compare with `prevCount` exactly when the document has no pair, or has an
individual message below a pair, or has no `chat-message` at all. -/
theorem msgCount_eq_entry_list_iff (d : Dom) :
    (countOf d).msgCount = d.entryList.length ↔
      d.pairs = [] ∨ d.pairIndividuals ≠ [] ∨ d.chatMessages = [] := by
  unfold countOf Dom.entryList
  simp only [ne_eq, List.length_eq_zero]
  by_cases hp : d.pairs = []
  · have hi : d.pairIndividuals = [] := by
      unfold Dom.pairIndividuals
      rw [hp]
      rfl
    simp [hp, hi]
  · by_cases hi : d.pairIndividuals = []
    · simp only [hp, hi, not_true_eq_false, ↓reduceIte, not_false_eq_true, List.length_nil,
        List.length_eq_zero, false_or]
    · simp [hp, hi]
/-! ## The claims -/

/-- C1 (as stated, refuted): the output cleanup does not map `the answer[1] is 42.3.` to
`the answer is 42.`. -/
theorem cleanup_scenarioE_not_as_stated :
    cleanResponse (js "the answer[1] is 42.3.") ≠ js "the answer is 42." := by
  decide

/-- C1 (amended): the output cleanup maps `the answer[1] is 42.3.` to `the answer is`: the
pattern for numbered items also removes `42.3.`. -/
theorem cleanup_scenarioE :
    cleanResponse (js "the answer[1] is 42.3.") = js "the answer is" := by
  decide

/-- C2 (as stated, refuted), three runs in which the same event is answered twice.
(1) Without any overlap: `MSG-A`/`gm` is handled, then `MSG-B`/`how are you`, then `MSG-A`/`gm`
again, and each of the three handler runs calls `sendMessage`.  (2) With overlap: `MSG-A`/`gm`
is delivered a second time while the run for the first delivery waits for its presence update;
the dedup variables are still unset, both runs go on, and `sendMessage` is called twice.
(3) With a send that fails: the `sendMessage` call for `MSG-A`/`gm` rejects, the dedup
variables stay unset, and the same event handled right afterwards calls `sendMessage` again. -/
theorem dedup_interleaved_sends_twice :
    eventKey (inbound "MSG-A" "gm") = some (some (js "MSG-A"), js "gm") ∧
    (handledInOrder shortWaits (scripted scriptABA) 3
      [inbound "MSG-A" "gm", inbound "MSG-B" "how are you", inbound "MSG-A" "gm"]
      ready).st.trace.filter Act.isSend =
      [ .sendMessage (some (js "911234567890@s.whatsapp.net")) replyGm,
        .sendMessage (some (js "911234567890@s.whatsapp.net")) replyHow,
        .sendMessage (some (js "911234567890@s.whatsapp.net")) replyGm ] ∧
    (runMoves shortWaits (scripted scriptOverlap) 3
      [.deliver (inbound "MSG-A" "gm"), .deliver (inbound "MSG-A" "gm"),
        .resume 0, .resume 0, .resume 0, .resume 0]
      { st := ready, waiting := [] }).st.trace.filter Act.isSend =
      [ .sendMessage (some (js "911234567890@s.whatsapp.net")) replyGm,
        .sendMessage (some (js "911234567890@s.whatsapp.net")) replyGm ] ∧
    (handledInOrder shortWaits (scripted scriptSendRejected) 3
      [inbound "MSG-A" "gm", inbound "MSG-A" "gm"] ready).st.trace.filter Act.isRouter =
      [ .askNotebook (js "gm"),
        .sendMessage (some (js "911234567890@s.whatsapp.net")) replyGm,
        .askNotebook (js "gm"),
        .sendMessage (some (js "911234567890@s.whatsapp.net")) replyGm,
        .replied replyGm ] := by
  decide!

/-- C2 (amended): when the handler runs do not overlap, two events with the same message id
and the same text produce at most one `sendMessage` call in total (`acts1` and `acts2` are the
actions of their two runs), provided no handler run between them completes a send and every
`sendMessage` call of the first run completed (the first run added as many completed sends to
the trace as `sendMessage` calls). -/
theorem dedup_two_events (cfg : Config) (env : Env) (fuel : Nat) (s : St)
    (m1 m2 : List WAMessage) (between : List (List WAMessage))
    (hkey : eventKey m1 = eventKey m2)
    (hbetween : repliedCount (handledInOrder cfg env fuel (m1 :: between) s).st.trace =
      repliedCount (handledInOrder cfg env fuel [m1] s).st.trace)
    (hcompleted : sendCount (handledInOrder cfg env fuel [m1] s).st.trace - sendCount s.trace =
      repliedCount (handledInOrder cfg env fuel [m1] s).st.trace - repliedCount s.trace) :
    ∃ acts1 acts2,
      (handledInOrder cfg env fuel [m1] s).st.trace = s.trace ++ acts1 ∧
      (handledInOrder cfg env fuel (m1 :: (between ++ [m2])) s).st.trace =
        (handledInOrder cfg env fuel (m1 :: between) s).st.trace ++ acts2 ∧
      sendCount acts1 + sendCount acts2 ≤ 1 := by
  simp only [handledInOrder_eq] at hbetween hcompleted ⊢
  have hrun : handleAll cfg env fuel (m1 :: (between ++ [m2])) s =
      (onMessagesUpsert cfg env fuel m2 (handleAll cfg env fuel between
        (onMessagesUpsert cfg env fuel m1 s).state)).state := by
    simp only [handleAll, handleAll_append]
  rw [hrun]
  simp only [handleAll] at hbetween hcompleted ⊢
  obtain ⟨acts1, ht1, hc1⟩ := sends_onMessagesUpsert cfg env fuel m1 s
  obtain ⟨_, _, _, h4⟩ := onMessagesUpsert_step cfg env fuel m1 s
  obtain ⟨_, h6⟩ := handleAll_step cfg env fuel between (onMessagesUpsert cfg env fuel m1 s).state
  have hd := h6 hbetween
  have hdone : sendCount acts1 = repliedCount acts1 := by
    rw [ht1] at hcompleted
    simp only [sendCount, repliedCount, List.countP_append] at hcompleted ⊢
    omega
  generalize (onMessagesUpsert cfg env fuel m1 s).state = s1 at *
  generalize handleAll cfg env fuel between s1 = s2 at *
  obtain ⟨acts2, ht2, hc2⟩ := sends_onMessagesUpsert cfg env fuel m2 s2
  refine ⟨acts1, acts2, ht1, ht2, ?_⟩
  by_cases hsent : repliedCount s1.trace = repliedCount s.trace
  · have h0 : repliedCount acts1 = 0 := by
      rw [ht1] at hsent
      simp only [repliedCount, List.countP_append] at hsent ⊢
      omega
    simp only [sendCount] at hdone ⊢
    omega
  · obtain ⟨id, text, hk, hid, htext⟩ := h4 hsent
    rw [hkey] at hk
    have hdup := onMessagesUpsert_duplicate cfg env fuel m2 id text hk s2
      (by rw [hd]; exact hid) (by rw [hd]; exact htext)
    rw [hdup] at ht2
    have hnil : acts2 = [] := (List.append_cancel_left (ht2.symm.trans (List.append_nil _).symm))
    subst hnil
    simp only [sendCount, List.countP_nil] at hdone ⊢
    omega

/-- C2 (witness): the event `MSG-A`/`gm` handled twice, with an event sent by the bot itself
between the two: the first run calls `sendMessage` and the call completes, the second run is
skipped. -/
theorem dedup_two_events_witness :
    eventKey (inbound "MSG-A" "gm") = eventKey (inbound "MSG-A" "gm") ∧
    (handledInOrder shortWaits (scripted scriptABA) 3
      (inbound "MSG-A" "gm" :: ([fromBot] ++ [inbound "MSG-A" "gm"])) ready).st.trace.filter
        Act.isSend = [.sendMessage (some (js "911234567890@s.whatsapp.net")) replyGm] ∧
    ∃ acts1 acts2,
      (handledInOrder shortWaits (scripted scriptABA) 3 [inbound "MSG-A" "gm"] ready).st.trace =
        ready.trace ++ acts1 ∧
      (handledInOrder shortWaits (scripted scriptABA) 3
        (inbound "MSG-A" "gm" :: ([fromBot] ++ [inbound "MSG-A" "gm"])) ready).st.trace =
        (handledInOrder shortWaits (scripted scriptABA) 3
          (inbound "MSG-A" "gm" :: [fromBot]) ready).st.trace ++ acts2 ∧
      sendCount acts1 + sendCount acts2 ≤ 1 :=
  ⟨rfl, by decide!, dedup_two_events shortWaits (scripted scriptABA) 3 ready (inbound "MSG-A" "gm")
    (inbound "MSG-A" "gm") [fromBot] rfl (by decide!) (by decide!)⟩

/-- C3 (the code at the failing input): a turn whose echo check finds the target closed
enters recovery, the re-initialisation completes, and the call returns `null` with `page`
left `undefined`; the prompt was passed to `typeAndSend` once, before the failure, and the
replay never went past the page guard. -/
theorem target_closed_replay_not_submitted :
    (getResponseFromNotebookLM shortWaits (scripted scriptTargetClosed) 3 (js "how are you")
      false ready).value? = some none ∧
    (getResponseFromNotebookLM shortWaits (scripted scriptTargetClosed) 3 (js "how are you")
      false ready).state.page = .undefined ∧
    (getResponseFromNotebookLM shortWaits (scripted scriptTargetClosed) 3 (js "how are you")
      false ready).state.trace =
      [ .turn (js "how are you") false, .typeAndSend (js "how are you"), .attempt 0 true,
        .submit (js "how are you"), .recover, .closeBrowser, .initNotebookLM ] := by
  decide!

/-- C4 (as stated, refuted): a turn in which `typeAndSend` uses up both rounds and throws
enters the recovery branch, closes the browser and calls `initNotebookLM`. -/
theorem input_unavailable_enters_recovery :
    (getResponseFromNotebookLM shortWaits (scripted scriptInputStuck) 3 (js "how are you")
      false ready).state.trace =
      [ .turn (js "how are you") false, .typeAndSend (js "how are you"),
        .attempt 0 false, .attempt 1 false, .attempt 2 false, .attempt 3 false,
        .attempt 4 false, .attempt 5 false, .reload,
        .attempt 0 false, .attempt 1 false, .attempt 2 false, .attempt 3 false,
        .attempt 4 false, .attempt 5 false,
        .recover, .closeBrowser, .initNotebookLM ] ∧
    (getResponseFromNotebookLM shortWaits (scripted scriptInputStuck) 3 (js "how are you")
      false ready).state.browser ≠ ready.browser := by
  decide!

/-- C4 (amended): the error `typeAndSend` throws when both rounds are used up contains
`not found` and is therefore classified as a session loss.  In a turn that is not a replay
the recovery branch is entered, the browser (if open) is closed and `initNotebookLM` is
called; in a replay the call returns `null` without any of this. -/
theorem input_unavailable_recovery (cfg : Config) (env : Env) (fuel : Nat) (message : JSString)
    (retrying : Bool) (s s1 s2 : St) (counts : Counts)
    (hpage : s.page.isSet = true)
    (hcount : countMessages env { s with trace := s.trace ++ [.turn message retrying] } =
      .ok counts s1)
    (hsend : typeAndSend env message s1 = .threw inputUnavailable s2) :
    (∃ text, inputUnavailable.message = some text ∧ isFatal text = true) ∧
    (retrying = true →
      getResponseFromNotebookLM cfg env fuel message retrying s = .ok none s2) ∧
    (retrying = false →
      Act.recover ∈ (getResponseFromNotebookLM cfg env fuel message retrying s).state.trace ∧
      Act.initNotebookLM ∈
        (getResponseFromNotebookLM cfg env fuel message retrying s).state.trace ∧
      (s2.browser.isSome = true → Act.closeBrowser ∈
        (getResponseFromNotebookLM cfg env fuel message retrying s).state.trace)) := by
  have hbody := turnBody_throws cfg env fuel message _ s1 s2 counts _ hcount hsend
  have hrun := getResponseWith_caught cfg env fuel message retrying
    (getResponseWith cfg env fuel message true (pure none)) s s2 _ hpage hbody
  refine ⟨inputUnavailable_is_fatal, ?_, ?_⟩
  · intro hr
    subst hr
    unfold getResponseFromNotebookLM
    rw [hrun]
    rfl
  · intro hr
    subst hr
    unfold getResponseFromNotebookLM
    rw [hrun]
    have hfatal : isFatal (js
      "Chat input not found or not interactable after multiple attempts and refresh") = true := by
      decide
    have hshape := recoverOrGiveUp_fatal cfg env
      (getResponseWith cfg env fuel message true (pure none)) _ hfatal s2
    have hreplay : Moves (quietFrame (fun _ => false)) 0
        (getResponseWith cfg env fuel message true (pure none)) :=
      quiet_getResponseWith nothing_counted cfg env fuel message true _ (moves_pure _)
    have hrest : ∀ x : Unit, Moves (quietFrame (fun _ => false)) 0
        (do
          modifySt (fun s => { s with page := .undefined })
          getResponseWith cfg env fuel message true (pure none) : Run (Option JSString)) :=
      fun _ => moves_bind (moves_modifySt _ (fun _ => ⟨rfl, rfl⟩)) (fun _ => hreplay)
    have hcatch : ∀ e : JSError, Moves (quietFrame (fun _ => false)) 0
        ((fun _ => pure none : JSError → Run (Option JSString)) e) := fun _ => moves_pure _
    have hwhole : Moves (quietFrame (fun _ => false)) 0
        (tryCatch (do
          initNotebookLM cfg env
          modifySt (fun s => { s with page := .undefined })
          getResponseWith cfg env fuel message true (pure none))
          (fun _ => (pure none : Run (Option JSString)))) :=
      moves_tryCatch (moves_bind (quiet_initNotebookLM nothing_counted cfg env) hrest) hcatch
    have hinit := mem_tryCatch_of_mem _ _ Act.initNotebookLM
      (mem_bind_of_mem (initNotebookLM cfg env) _ Act.initNotebookLM
        (initNotebookLM_recorded cfg env) hrest) hcatch (afterClose s2)
    have hshape2 : recoverOrGiveUp cfg env false
        (getResponseWith cfg env fuel message true (pure none)) inputUnavailable s2 = _ := hshape
    rw [hshape2]
    refine ⟨trace_grows hwhole _ _ ?_, hinit, fun hb => trace_grows hwhole _ _ ?_⟩
    · unfold afterClose
      split <;> simp
    · unfold afterClose
      simp [hb]

/-- C4 (witness): the turn of `scriptInputStuck`, in which every delivery attempt finds the
input not interactable. -/
theorem input_unavailable_recovery_witness :
    ready.page.isSet = true ∧
    typeAndSend (scripted scriptInputStuck) (js "how are you") stuckAfterCount =
      .threw inputUnavailable stuckAfterSend ∧
    Act.recover ∈ (getResponseFromNotebookLM shortWaits (scripted scriptInputStuck) 3
      (js "how are you") false ready).state.trace ∧
    Act.initNotebookLM ∈ (getResponseFromNotebookLM shortWaits (scripted scriptInputStuck) 3
      (js "how are you") false ready).state.trace :=
  ⟨rfl, by decide!,
    ((input_unavailable_recovery shortWaits (scripted scriptInputStuck) 3 (js "how are you") false
      ready stuckAfterCount stuckAfterSend { pairCount := 1, msgCount := 2 } rfl (by decide!)
        (by decide!)).2.2 rfl).1,
    ((input_unavailable_recovery shortWaits (scripted scriptInputStuck) 3 (js "how are you") false
      ready stuckAfterCount stuckAfterSend { pairCount := 1, msgCount := 2 } rfl (by decide!)
        (by decide!)).2.2 rfl).2.1⟩

/-- C5 (the code at the failing input): `Inquiry` is an entry of `loadingWords` and occurs
in the text, yet `isLoading` returns `false`: the text is lower-cased before the entries
are looked up, and this entry has a capital letter. -/
theorem isLoading_misses_inquiry :
    js "Inquiry" ∈ loadingWords ∧
    includes (js "Inquiry received: we will get back to you within two days.") (js "Inquiry")
      = true ∧
    isLoading (js "Inquiry received: we will get back to you within two days.") = false := by
  decide

/-- C6 (as stated, refuted): the text of 25 letters U+0130 has length 25, below
`minAcceptLen`, and `isLoading` returns `false`: its lower-case form has 50 units. -/
theorem isLoading_short_not_as_stated :
    (List.replicate 25 0x130).length < minAcceptLen ∧
    isLoading (List.replicate 25 0x130) = false := by
  decide

/-- C6 (amended): for every text whose trimmed, lower-cased form is shorter than
`minAcceptLen`, and so for every text shorter than `minAcceptLen` without the letter
U+0130 (the empty text included), `isLoading` returns `true`. -/
theorem isLoading_below_minimum (t : JSString)
    (h : (toLowerCase (trim t)).length < minAcceptLen ∨
      (t.length < minAcceptLen ∧ 0x130 ∉ t)) :
    isLoading t = true := by
  rcases h with h | ⟨hlen, hdot⟩
  · exact isLoading_of_short t h
  · apply isLoading_of_short
    have h1 : 0x130 ∉ trim t := fun hm => hdot ((trim_sublist t).subset hm)
    have h2 := toLowerCase_length_le (trim t) h1
    have h3 := trim_length_le t
    omega

/-- C6 (witness): the text `gm, rise and shine`. -/
theorem isLoading_below_minimum_witness :
    ((toLowerCase (trim (js "gm, rise and shine"))).length < minAcceptLen ∨
      ((js "gm, rise and shine").length < minAcceptLen ∧ 0x130 ∉ js "gm, rise and shine")) ∧
    isLoading (js "gm, rise and shine") = true :=
  ⟨Or.inl (by decide), isLoading_below_minimum (js "gm, rise and shine") (Or.inl (by decide))⟩

/-- C7: for every text whose last unit that is not white space is the ellipsis glyph,
whatever its length, `isLoading` returns `true`. -/
theorem isLoading_ellipsis (pre ws : JSString) (hws : ∀ c ∈ ws, isWhiteSpace c = true) :
    isLoading (pre ++ ellipsis :: ws) = true := by
  obtain ⟨pre2, h⟩ := trim_ends_with ellipsis (by decide) pre ws hws
  unfold isLoading
  split
  · rfl
  · have hl : toLowerCase (trim (pre ++ ellipsis :: ws)) = toLowerCase pre2 ++ [ellipsis] := by
      rw [h]; simp [toLowerCase, lowerUnit, ellipsis]
    simp only [hl, hasEllipses]
    simp

/-- C7 (witness): a long answer ending in the glyph, followed by a space and a line feed. -/
theorem isLoading_ellipsis_witness :
    (∀ c ∈ [0x20, 0x0A], isWhiteSpace c = true) ∧
    isLoading (replyGm ++ ellipsis :: [0x20, 0x0A]) = true :=
  ⟨by decide, isLoading_ellipsis replyGm [0x20, 0x0A] (by decide)⟩

/-- C8 (as stated, refuted): the final-stable wait of `scriptRiseAndShine` returns
`gm, rise and shine`, which its stabilization wait handed back at the timeout and which
`isLoading` classifies as still loading; the count had grown after it. -/
theorem final_stable_returns_loading_text :
    (waitForFinalStable shortWaits (scripted scriptRiseAndShine) 3 4 6000 ready).value? =
      some (some (js "gm, rise and shine")) ∧
    isLoading (js "gm, rise and shine") = true := by
  decide!

/-- C8 (amended): `waitForFinalStable` returns a non-null text `t` only when `t` is non-blank
and one of its `waitForStableResponse` calls, made with a baseline `prev` not below the
starting one, returned `t` (a stabilized text or the text held at that call's timeout), the
count was read right after that call, and either the count did not exceed `prev` and the
function returned there, or the count had grown and then the next reading of the clock was at
or past the deadline, or the count had grown, the deadline had not passed and the next
stabilization wait, made with the new count as baseline, came back blank. -/
theorem final_stable_returns (cfg : Config) (env : Env) (fuel startPrevCount : Nat)
    (deadlineTs : Int) (s s1 : St) (t : JSString)
    (h : waitForFinalStable cfg env fuel startPrevCount deadlineTs s = .ok (some t) s1) :
    nonBlank t = true ∧
    (∃ acts p m, s1.trace = s.trace ++ acts ∧ Act.stableResolved p m t ∈ acts) ∧
    ∃ (prev : Nat) (maxMs : Int) (sW sR : St) (counts : Counts) (sC : St),
      startPrevCount ≤ prev ∧
      waitForStableResponse cfg env prev (some maxMs) sW = .ok t sR ∧
      countMessages env sR = .ok counts sC ∧
      ((counts.msgCount ≤ prev ∧ s1 = sC) ∨
       (prev < counts.msgCount ∧
         ((∃ now, dateNow env sC = .ok now s1 ∧ deadlineTs ≤ now) ∨
          (∃ now1 sA now2 sB blank, dateNow env sC = .ok now1 sA ∧ now1 < deadlineTs ∧
            dateNow env sA = .ok now2 sB ∧
            waitForStableResponse cfg env counts.msgCount
              (some (max 1000 (deadlineTs - now2))) sB = .ok blank s1 ∧
            nonBlank blank = false)))) := by
  have hexit := waitForFinalStableLoop_exit cfg env deadlineTs startPrevCount fuel startPrevCount
    [] s s1 t (le_refl _) (Or.inl rfl) h
  rcases waitForFinalStableLoop_returns cfg env deadlineTs fuel startPrevCount [] s s1 t h with
    ⟨_, h2⟩ | h2
  · exact absurd rfl h2
  · exact ⟨h2.1, h2.2, hexit⟩

/-- C8 (witness): the final-stable wait of `scriptRiseAndShine` returns the text its one
stabilization wait handed back at the timeout: the count had grown from 4 to 5 and the next
reading of the clock, 6400, was past the deadline. -/
theorem final_stable_returns_witness :
    waitForFinalStable shortWaits (scripted scriptRiseAndShine) 3 4 6000 ready =
      .ok (some (js "gm, rise and shine")) riseAndShineEnd ∧
    nonBlank (js "gm, rise and shine") = true ∧
    ∃ (prev : Nat) (maxMs : Int) (sW sR : St) (counts : Counts) (sC : St),
      4 ≤ prev ∧
      waitForStableResponse shortWaits (scripted scriptRiseAndShine) prev (some maxMs) sW =
        .ok (js "gm, rise and shine") sR ∧
      countMessages (scripted scriptRiseAndShine) sR = .ok counts sC ∧
      ((counts.msgCount ≤ prev ∧ riseAndShineEnd = sC) ∨
       (prev < counts.msgCount ∧
         ((∃ now, dateNow (scripted scriptRiseAndShine) sC = .ok now riseAndShineEnd ∧
            (6000 : Int) ≤ now) ∨
          (∃ now1 sA now2 sB blank,
            dateNow (scripted scriptRiseAndShine) sC = .ok now1 sA ∧ now1 < (6000 : Int) ∧
            dateNow (scripted scriptRiseAndShine) sA = .ok now2 sB ∧
            waitForStableResponse shortWaits (scripted scriptRiseAndShine) counts.msgCount
              (some (max 1000 (6000 - now2))) sB = .ok blank riseAndShineEnd ∧
            nonBlank blank = false)))) :=
  have h := final_stable_returns shortWaits (scripted scriptRiseAndShine) 3 4 6000 ready
    riseAndShineEnd (js "gm, rise and shine") (by decide!)
  ⟨by decide!, h.1, h.2.2⟩

/-- C9 (as stated, refuted): a pair with one individual message is appended to three
entries outside any pair; nothing is removed or reordered, and `msgCount` drops from 3 to 1. -/
theorem msgCount_drops_when_pair_appended :
    appendedTo flatChat flatChatThenPair = true ∧
    (countOf flatChat).msgCount = 3 ∧ (countOf flatChatThenPair).msgCount = 1 := by
  decide

/-- C9 (amended): over any sequence of document states in which entries are only appended
(the elements each selector finds stay, in their order, whatever happens to their texts) and
`countMessages` keeps its selector (a state without an individual message below a pair is
never followed by one that has some), the `msgCount` values are non-decreasing. -/
theorem msgCount_monotone (ds : List Dom)
    (h : ds.Chain' (fun a b => grownTo a b = true)) :
    (ds.map (fun d => (countOf d).msgCount)).Chain' (fun a b => a ≤ b) := by
  rw [List.chain'_map]
  exact h.imp (fun {a b} hab => msgCount_le_of_grownTo a b hab)

/-- C9 (witness): two exchanges and a fifth entry whose text streams in (`gm`, then
`gm, rise and shine`), then a sixth entry: the counts are 5, 5 and 6. -/
theorem msgCount_monotone_witness :
    [oneMore (js "gm"), oneMore (js "gm, rise and shine"),
      chatOf ((js "gm", replyGm) :: (js "how are you", replyHow) :: [(js "gm", replyGm)])].Chain'
      (fun a b => grownTo a b = true) ∧
    [oneMore (js "gm"), oneMore (js "gm, rise and shine"),
      chatOf ((js "gm", replyGm) :: (js "how are you", replyHow) :: [(js "gm", replyGm)])].map
      (fun d => (countOf d).msgCount) = [5, 5, 6] ∧
    ([oneMore (js "gm"), oneMore (js "gm, rise and shine"),
      chatOf ((js "gm", replyGm) :: (js "how are you", replyHow) :: [(js "gm", replyGm)])].map
      (fun d => (countOf d).msgCount)).Chain' (fun a b => a ≤ b) :=
  ⟨List.Chain'.cons (by decide) (List.Chain'.cons (by decide) (List.chain'_singleton _)),
    by decide,
    msgCount_monotone _
      (List.Chain'.cons (by decide) (List.Chain'.cons (by decide) (List.chain'_singleton _)))⟩

/-- C10 (as stated, refuted): two calls of `ensurePersonaPinned` in one session, the second
after six more exchanges have followed the pin, pass the priming message to `typeAndSend`
twice. -/
theorem persona_pinned_again_after_six_pairs :
    (ensurePersonaPinned withPersona (scripted scriptPinTwice)
      (ensurePersonaPinned withPersona (scripted scriptPinTwice) ready).state).state.trace.filter
        Act.isTypeAndSend =
      [.typeAndSend (buildPersonaPin withPersona), .typeAndSend (buildPersonaPin withPersona)] := by
  decide!

/-- C10 (amended): two calls of `ensurePersonaPinned` pass the priming message to
`typeAndSend` at most once in total, provided the document read by the second call shows the
marker in the first message of one of its last six pairs. -/
theorem persona_pinned_twice (cfg : Config) (env : Env) (s : St) (d : Dom)
    (hpage : (ensurePersonaPinned cfg env s).state.page.isSet = true)
    (hdom : env.dom (ensurePersonaPinned cfg env s).state.step = .ok d)
    (hfound : alreadyPinned (personaMarker cfg) d = true) :
    (ensurePersonaPinned cfg env (ensurePersonaPinned cfg env s).state).state.trace.countP
        Act.isTypeAndSend ≤ s.trace.countP Act.isTypeAndSend + 1 := by
  obtain ⟨_, acts, ht, hc⟩ := moves_ensurePersonaPinned_once cfg env s
  rw [ensurePersonaPinned_found cfg env _ d hpage hdom hfound]
  show List.countP Act.isTypeAndSend (ensurePersonaPinned cfg env s).state.trace ≤ _
  rw [ht, List.countP_append]
  have : List.countP Act.isTypeAndSend acts ≤ 1 := hc
  omega

/-- C10 (witness): two calls in a row in a chat that was empty: the second finds the pin
in the last pair. -/
theorem persona_pinned_twice_witness :
    alreadyPinned (personaMarker withPersona) (chatOf [pinExchange]) = true ∧
    (ensurePersonaPinned withPersona (scripted scriptPinOnce)
      (ensurePersonaPinned withPersona (scripted scriptPinOnce) ready).state).state.trace.countP
        Act.isTypeAndSend ≤ ready.trace.countP Act.isTypeAndSend + 1 :=
  ⟨by decide!, persona_pinned_twice withPersona (scripted scriptPinOnce) ready
    (chatOf [pinExchange]) (by decide!) (by decide!) (by decide!)⟩

/-- C11 (as stated, refuted): `MSG-A`/`gm` and `MSG-B`/`gm` are delivered, the second while
the run for the first waits for its presence update.  Both turns return the same reply, both
runs compare it with a `lastReply` that is still unset, and both sends complete: two
consecutive outbound sends carry the same text. -/
theorem overlapping_runs_repeat_reply :
    repliedTexts (runMoves shortWaits (scripted scriptOverlap) 3
      [.deliver (inbound "MSG-A" "gm"), .deliver (inbound "MSG-B" "gm"),
        .resume 0, .resume 0, .resume 0, .resume 0]
      { st := ready, waiting := [] }).st.trace = [replyGm, replyGm] ∧
    noRepeat (repliedTexts (runMoves shortWaits (scripted scriptOverlap) 3
      [.deliver (inbound "MSG-A" "gm"), .deliver (inbound "MSG-B" "gm"),
        .resume 0, .resume 0, .resume 0, .resume 0]
      { st := ready, waiting := [] }).st.trace) = false := by
  decide!

/-- C11 (amended): over every sequence of inbound events whose handler runs do not overlap,
started in a state where `lastReply` is the text of the last completed send and consecutive
completed sends differ, the texts of consecutive completed sends still differ at the end; and
every `sendMessage` call of a handler run carries a text that the turn of that run returned,
that is not empty, and that differs from the text of the last completed send. -/
theorem router_sends_fresh_results (cfg : Config) (env : Env) (fuel : Nat)
    (events : List (List WAMessage)) (s : St)
    (hlast : s.dedup.lastReply = (repliedTexts s.trace).getLast?)
    (hfresh : noRepeat (repliedTexts s.trace) = true) :
    noRepeat (repliedTexts (handledInOrder cfg env fuel events s).st.trace) = true ∧
    ∀ (pre post : List (List WAMessage)) (m : List WAMessage), events = pre ++ m :: post →
      ∃ acts,
        (handledInOrder cfg env fuel (pre ++ [m]) s).st.trace =
          (handledInOrder cfg env fuel pre s).st.trace ++ acts ∧
        ∀ jid t, Act.sendMessage jid t ∈ acts →
          t ≠ [] ∧ (repliedTexts (handledInOrder cfg env fuel pre s).st.trace).getLast? ≠ some t ∧
          ∃ msg content s2, m.head? = some msg ∧ msg.message = some content ∧
            getResponseFromNotebookLM cfg env fuel (textOf content) false
              { (handledInOrder cfg env fuel pre s).st with
                trace := (handledInOrder cfg env fuel pre s).st.trace ++
                  [.askNotebook (textOf content)] } =
              .ok (some t) s2 := by
  simp only [handledInOrder_eq]
  have hchain := (noRepeat_iff_chain _).1 hfresh
  refine ⟨(noRepeat_iff_chain _).2 (handleAll_chain cfg env fuel events s hlast hchain).2, ?_⟩
  intro pre post m _
  obtain ⟨hl, _⟩ := handleAll_chain cfg env fuel pre s hlast hchain
  obtain ⟨acts, ht, hs, _⟩ := onMessagesUpsert_sends cfg env fuel m (handleAll cfg env fuel pre s)
  rw [handleAll_append]
  refine ⟨acts, ht, fun jid t hm => ?_⟩
  obtain ⟨h1, h2, h3⟩ := hs jid t hm
  exact ⟨h1, by rw [← hl]; exact h2, h3⟩

/-- C11 (witness): the events `gm`, `how are you`, `gm` handled one after the other from a
fresh session: three sends complete and consecutive ones differ. -/
theorem router_sends_fresh_results_witness :
    ready.dedup.lastReply = (repliedTexts ready.trace).getLast? ∧
    repliedTexts (handledInOrder shortWaits (scripted scriptABA) 3
      [inbound "MSG-A" "gm", inbound "MSG-B" "how are you", inbound "MSG-A" "gm"]
      ready).st.trace = [replyGm, replyHow, replyGm] ∧
    noRepeat (repliedTexts (handledInOrder shortWaits (scripted scriptABA) 3
      [inbound "MSG-A" "gm", inbound "MSG-B" "how are you", inbound "MSG-A" "gm"]
      ready).st.trace) = true :=
  ⟨rfl, by decide!, (router_sends_fresh_results shortWaits (scripted scriptABA) 3
    [inbound "MSG-A" "gm", inbound "MSG-B" "how are you", inbound "MSG-A" "gm"] ready rfl rfl).1⟩

/-- C12 (as stated, refuted): `MSG-B`/`how are you` and `MSG-A`/`gm` are delivered, the second
while the run for the first waits for its presence update.  The send for `MSG-A` completes
first, so `MSG-A` was answered; then the send for `MSG-B` completes and overwrites the dedup
variables, and no run is left suspended.  The very next event, `MSG-A`/`gm` again, is not
skipped: the notebook is asked again and a second reply is sent for it. -/
theorem answered_event_asked_again :
    (runMoves shortWaits (scripted scriptOvertaken) 3
      [.deliver (inbound "MSG-B" "how are you"), .deliver (inbound "MSG-A" "gm"),
        .resume 1, .resume 1, .resume 0, .resume 0]
      { st := ready, waiting := [] }).waiting = [] ∧
    (runMoves shortWaits (scripted scriptOvertaken) 3
      [.deliver (inbound "MSG-B" "how are you"), .deliver (inbound "MSG-A" "gm"),
        .resume 1, .resume 1, .resume 0, .resume 0]
      { st := ready, waiting := [] }).st.dedup =
      { lastMsgId := some (some (js "MSG-B")), lastMsgText := some (js "how are you"),
        lastReply := some replyHow } ∧
    (runMoves shortWaits (scripted scriptOvertaken) 3
      [.deliver (inbound "MSG-B" "how are you"), .deliver (inbound "MSG-A" "gm"),
        .resume 1, .resume 1, .resume 0, .resume 0, .deliver (inbound "MSG-A" "gm"),
        .resume 0, .resume 0]
      { st := ready, waiting := [] }).st.trace.filter Act.isRouter =
      [ .askNotebook (js "how are you"), .askNotebook (js "gm"),
        .sendMessage (some (js "911234567890@s.whatsapp.net")) replyGm, .replied replyGm,
        .sendMessage (some (js "911234567890@s.whatsapp.net")) replyHow, .replied replyHow,
        .askNotebook (js "gm"),
        .sendMessage (some (js "911234567890@s.whatsapp.net")) replyGm, .replied replyGm ] := by
  decide!

/-- C12 (amended): when the handler runs do not overlap, the run of an event completed a
send, and the events that follow it up to `m2` come from senders that are not allowed, an
event `m2` with the same message id and text is skipped: its handler run returns with the
state as the first run left it, so the notebook is not asked and nothing is sent. -/
theorem answered_event_skipped (cfg : Config) (env : Env) (fuel : Nat) (s : St)
    (m1 m2 : List WAMessage) (between : List (List WAMessage))
    (hanswered : repliedCount (handledInOrder cfg env fuel [m1] s).st.trace ≠
      repliedCount s.trace)
    (hkey : eventKey m2 = eventKey m1)
    (hbetween : ∀ e ∈ between, ∃ msg rest, e = msg :: rest ∧
      allowed cfg (msg.remoteJid.getD []) = false) :
    handledInOrder cfg env fuel (m1 :: (between ++ [m2])) s =
      handledInOrder cfg env fuel [m1] s ∧
    onMessagesUpsert cfg env fuel m2 (handledInOrder cfg env fuel (m1 :: between) s).st =
      .ok () (handledInOrder cfg env fuel [m1] s).st := by
  simp only [handledInOrder_eq, handleAll] at hanswered ⊢
  obtain ⟨_, _, _, h4⟩ := onMessagesUpsert_step cfg env fuel m1 s
  obtain ⟨id, text, hk, hid, htext⟩ := h4 hanswered
  have hdup := onMessagesUpsert_duplicate cfg env fuel m2 id text (hkey.trans hk) _ hid htext
  rw [handleAll_append, handleAll_not_allowed cfg env fuel between _ hbetween]
  refine ⟨?_, hdup⟩
  simp only [handleAll]
  rw [hdup]
  rfl

/-- C12 (witness): `MSG-A`/`gm` from the configured phone is answered, an event from another
sender follows, then `MSG-A`/`gm` arrives again. -/
theorem answered_event_skipped_witness :
    repliedCount (handledInOrder phoneOnly (scripted scriptABA) 3 [inbound "MSG-A" "gm"]
      ready).st.trace ≠ repliedCount ready.trace ∧
    handledInOrder phoneOnly (scripted scriptABA) 3
        (inbound "MSG-A" "gm" ::
          ([inboundFrom "15550001111@s.whatsapp.net" "MSG-X" "hello"] ++ [inbound "MSG-A" "gm"]))
        ready =
      handledInOrder phoneOnly (scripted scriptABA) 3 [inbound "MSG-A" "gm"] ready ∧
    onMessagesUpsert phoneOnly (scripted scriptABA) 3 (inbound "MSG-A" "gm")
        (handledInOrder phoneOnly (scripted scriptABA) 3
          (inbound "MSG-A" "gm" :: [inboundFrom "15550001111@s.whatsapp.net" "MSG-X" "hello"])
          ready).st =
      .ok () (handledInOrder phoneOnly (scripted scriptABA) 3 [inbound "MSG-A" "gm"] ready).st :=
  have h := answered_event_skipped phoneOnly (scripted scriptABA) 3 ready
    (inbound "MSG-A" "gm") (inbound "MSG-A" "gm")
    [inboundFrom "15550001111@s.whatsapp.net" "MSG-X" "hello"] (by decide!) rfl
    (fun e he => by
      rw [List.mem_singleton] at he
      subst he
      exact ⟨_, _, rfl, by decide⟩)
  ⟨by decide!, h.1, h.2⟩

/-- C13: the sender `remoteJid` is allowed exactly when `REPLY_ALL` is set, or `TARGET_JID`
is configured and equals it, or `TARGET_LID` is configured and equals it, or the phone number
is configured, `remoteJid` ends with `@s.whatsapp.net` and what is left of it without that
suffix is the phone number (for a number without `@`: `remoteJid` is the number followed by
the suffix).  An event from a sender that is not allowed is ignored: the handler returns with
the state unchanged.  With `REPLY_ALL` off and no target configured no sender is allowed. -/
theorem allowed_exactly (cfg : Config) (env : Env) (fuel : Nat) (remoteJid : JSString) :
    (allowed cfg remoteJid = true ↔
      cfg.REPLY_ALL = true ∨
      (isConfigured cfg.TARGET_JID = true ∧ cfg.TARGET_JID = some remoteJid) ∨
      (isConfigured cfg.TARGET_LID = true ∧ some remoteJid = cfg.TARGET_LID) ∨
      (isConfigured cfg.GF_PHONE_NUMBER = true ∧ phoneSuffix.isSuffixOf remoteJid = true ∧
        some (removeFirst phoneSuffix remoteJid) = cfg.GF_PHONE_NUMBER)) ∧
    (∀ phone : JSString, 0x40 ∉ phone →
      ((phoneSuffix.isSuffixOf remoteJid = true ∧ removeFirst phoneSuffix remoteJid = phone) ↔
        remoteJid = phone ++ phoneSuffix)) ∧
    (∀ (msg : WAMessage) (rest : List WAMessage) (s : St),
      msg.remoteJid.getD [] = remoteJid → allowed cfg remoteJid = false →
      onMessagesUpsert cfg env fuel (msg :: rest) s = .ok () s) ∧
    (cfg.REPLY_ALL = false → isConfigured cfg.TARGET_JID = false →
      isConfigured cfg.TARGET_LID = false → isConfigured cfg.GF_PHONE_NUMBER = false →
      allowed cfg remoteJid = false) := by
  refine ⟨?_, ?_, ?_, ?_⟩
  · unfold allowed senderPhone
    generalize cfg.GF_PHONE_NUMBER = g
    cases cfg.REPLY_ALL <;> cases isConfigured cfg.TARGET_JID <;>
      cases isConfigured cfg.TARGET_LID <;> cases phoneSuffix.isSuffixOf remoteJid <;>
      by_cases h1 : cfg.TARGET_JID = some remoteJid <;>
      by_cases h2 : some remoteJid = cfg.TARGET_LID <;>
      by_cases h3 : some (removeFirst phoneSuffix remoteJid) = g <;>
      rcases g with _ | _ | ⟨c, cs⟩ <;>
      simp_all [isConfigured]
  · intro phone hp
    exact removeFirst_eq_iff 0x40 (js "s.whatsapp.net") (by decide) remoteJid phone hp
  · intro msg rest s hjid hna
    exact onMessagesUpsert_not_allowed cfg env fuel msg rest s (by rw [hjid]; exact hna)
  · intro h1 h2 h3 h4
    unfold allowed
    simp [h1, h2, h3, h4]

/-- C13 (witness): with only the phone number configured, the JID of that number is allowed
and an event from another number is ignored. -/
theorem allowed_exactly_witness :
    allowed phoneOnly (js "911234567890@s.whatsapp.net") = true ∧
    allowed phoneOnly (js "15550001111@s.whatsapp.net") = false ∧
    onMessagesUpsert phoneOnly (scripted scriptABA) 3
      (inboundFrom "15550001111@s.whatsapp.net" "MSG-X" "hello") ready = .ok () ready :=
  ⟨(allowed_exactly phoneOnly (scripted scriptABA) 3 (js "911234567890@s.whatsapp.net")).1.2
      (Or.inr (Or.inr (Or.inr ⟨by decide, by decide, by decide⟩))),
    by decide,
    (allowed_exactly phoneOnly (scripted scriptABA) 3 (js "15550001111@s.whatsapp.net")).2.2.1
      _ _ ready rfl (by decide)⟩

/-- C14: when the `try` block of `getResponseFromNotebookLM` throws an error with the text
`text`, the recovery branch is entered exactly when the call is not a replay and `text`
contains one of `Target closed`, `Session closed`, `not found`, `browser has disconnected`,
`detached Frame` (compared unit by unit, so case-sensitively); in every other case the call
returns `null` in the state in which the error was thrown: the browser is not closed and
`initNotebookLM` is not called. -/
theorem recovery_entered_exactly (cfg : Config) (env : Env) (fuel : Nat) (message : JSString)
    (retrying : Bool) (s s2 : St) (err : JSError) (text : JSString)
    (hpage : s.page.isSet = true)
    (hbody : turnBody cfg env fuel message
      { s with trace := s.trace ++ [.turn message retrying] } = .threw err s2)
    (htext : err.message = some text) :
    (∃ acts, (getResponseFromNotebookLM cfg env fuel message retrying s).state.trace =
        s2.trace ++ acts ∧
      (Act.recover ∈ acts ↔ retrying = false ∧
        ∃ m ∈ [js "Target closed", js "Session closed", js "not found",
          js "browser has disconnected", js "detached Frame"], includes text m = true)) ∧
    (¬ (retrying = false ∧
        ∃ m ∈ [js "Target closed", js "Session closed", js "not found",
          js "browser has disconnected", js "detached Frame"], includes text m = true) →
      getResponseFromNotebookLM cfg env fuel message retrying s = .ok none s2) := by
  have hrun := getResponseWith_caught cfg env fuel message retrying
    (getResponseWith cfg env fuel message true (pure none)) s s2 _ hpage hbody
  have herr : err = { message := some text } := by
    cases err
    simp only at htext
    rw [htext]
  have hfatal : isFatal text = true ↔
      ∃ m ∈ [js "Target closed", js "Session closed", js "not found",
        js "browser has disconnected", js "detached Frame"], includes text m = true := by
    unfold isFatal
    rw [List.any_eq_true]
    rfl
  have hnull : ¬ (retrying = false ∧
        ∃ m ∈ [js "Target closed", js "Session closed", js "not found",
          js "browser has disconnected", js "detached Frame"], includes text m = true) →
      getResponseFromNotebookLM cfg env fuel message retrying s = .ok none s2 := by
    intro hno
    unfold getResponseFromNotebookLM
    rw [hrun, herr]
    cases retrying with
    | true => rfl
    | false =>
      apply recoverOrGiveUp_other
      cases hf : isFatal text with
      | false => rfl
      | true => exact absurd ⟨rfl, hfatal.1 hf⟩ hno
  refine ⟨?_, hnull⟩
  by_cases hc : retrying = false ∧
      ∃ m ∈ [js "Target closed", js "Session closed", js "not found",
        js "browser has disconnected", js "detached Frame"], includes text m = true
  · obtain ⟨hr, hm⟩ := hc
    subst hr
    obtain ⟨acts, ht⟩ := recoverOrGiveUp_enters cfg env
      (getResponseWith cfg env fuel message true (pure none)) text (hfatal.2 hm)
      (quiet_getResponseWith nothing_counted cfg env fuel message true _ (moves_pure _)) s2
    refine ⟨Act.recover :: acts, ?_, ?_⟩
    · unfold getResponseFromNotebookLM
      rw [hrun, herr]
      exact ht
    · exact ⟨fun _ => ⟨rfl, hm⟩, fun _ => List.mem_cons_self _ _⟩
  · refine ⟨[], by rw [hnull hc]; simp [Res.state], ?_⟩
    simp only [List.not_mem_nil, false_iff]
    exact hc

/-- C14 (witness): the baseline count fails with a text that has `target closed` in lower
case only; the call returns `null` where the error was thrown. -/
theorem recovery_entered_exactly_witness :
    ready.page.isSet = true ∧
    turnBody shortWaits (scripted scriptLowerCase) 3 (js "gm")
      { ready with trace := ready.trace ++ [.turn (js "gm") false] } =
      .threw lowerCaseTargetClosed (afterFailedCount false) ∧
    getResponseFromNotebookLM shortWaits (scripted scriptLowerCase) 3 (js "gm") false ready =
      .ok none (afterFailedCount false) :=
  ⟨rfl, by decide!,
    (recovery_entered_exactly shortWaits (scripted scriptLowerCase) 3 (js "gm") false ready
      (afterFailedCount false) lowerCaseTargetClosed (js "protocol error: target closed")
      rfl (by decide!) rfl).2 (by decide)⟩

/-- C15: a call `getResponseFromNotebookLM(message)` that is not a replay calls
`initNotebookLM` at most once, enters the recovery branch at most once and goes past its
page guard at most twice (itself and the replay); a replay does neither recovery nor
re-initialisation, and when its `try` block throws, whatever the error, it returns `null` in
the state in which the error was thrown. -/
theorem recovery_at_most_once (cfg : Config) (env : Env) (fuel : Nat) (message : JSString)
    (s : St) :
    (∃ acts, (getResponseFromNotebookLM cfg env fuel message false s).state.trace =
        s.trace ++ acts ∧
      acts.countP Act.isInit ≤ 1 ∧ acts.countP Act.isRecover ≤ 1 ∧ acts.countP Act.isTurn ≤ 2) ∧
    (∃ acts, (getResponseFromNotebookLM cfg env fuel message true s).state.trace =
        s.trace ++ acts ∧
      acts.countP Act.isInit = 0 ∧ acts.countP Act.isRecover = 0 ∧ acts.countP Act.isTurn ≤ 1) ∧
    (∀ (err : JSError) (s2 : St), s.page.isSet = true →
      turnBody cfg env fuel message { s with trace := s.trace ++ [.turn message true] } =
        .threw err s2 →
      getResponseFromNotebookLM cfg env fuel message true s = .ok none s2) := by
  refine ⟨?_, ?_, ?_⟩
  · obtain ⟨h1, h2, h3⟩ := toplevel_counts cfg env fuel message
    obtain ⟨_, a1, t1, c1⟩ := h1 s
    obtain ⟨_, a2, t2, c2⟩ := h2 s
    obtain ⟨_, a3, t3, c3⟩ := h3 s
    have e2 : a2 = a1 := List.append_cancel_left (t2.symm.trans t1)
    have e3 : a3 = a1 := List.append_cancel_left (t3.symm.trans t1)
    rw [e2] at c2
    rw [e3] at c3
    exact ⟨a1, t1, c1, c2, c3⟩
  · obtain ⟨h1, h2, h3⟩ := replay_counts cfg env fuel message
    obtain ⟨_, a1, t1, c1⟩ := h1 s
    obtain ⟨_, a2, t2, c2⟩ := h2 s
    obtain ⟨_, a3, t3, c3⟩ := h3 s
    have e2 : a2 = a1 := List.append_cancel_left (t2.symm.trans t1)
    have e3 : a3 = a1 := List.append_cancel_left (t3.symm.trans t1)
    rw [e2] at c2
    rw [e3] at c3
    exact ⟨a1, t1, Nat.le_zero.1 c1, Nat.le_zero.1 c2, c3⟩
  · intro err s2 hpage hbody
    unfold getResponseFromNotebookLM
    rw [getResponseWith_caught cfg env fuel message true _ s s2 err hpage hbody]
    rfl

/-- C15 (witness): a replay whose baseline count finds the target closed returns `null`
at once. -/
theorem recovery_at_most_once_witness :
    turnBody shortWaits (scripted scriptCountFails) 3 (js "gm")
      { ready with trace := ready.trace ++ [.turn (js "gm") true] } =
      .threw targetClosed (afterFailedCount true) ∧
    getResponseFromNotebookLM shortWaits (scripted scriptCountFails) 3 (js "gm") true ready =
      .ok none (afterFailedCount true) :=
  ⟨by decide!,
    (recovery_at_most_once shortWaits (scripted scriptCountFails) 3 (js "gm") ready).2.2
      targetClosed (afterFailedCount true) rfl (by decide!)⟩

/-- C16 (as stated, refuted): every delivery attempt fails and the reload that follows the
first six throws; `typeAndSend` ends with that error after six attempts, without a second
round. -/
theorem typeAndSend_stops_when_reload_fails :
    typeAndSend (scripted scriptReloadFails) (js "gm") ready =
      .threw reloadTimeout
        { ready with
          step := 7
          trace := [.typeAndSend (js "gm"), .attempt 0 false, .attempt 1 false, .attempt 2 false,
            .attempt 3 false, .attempt 4 false, .attempt 5 false] } := by
  decide!

/-- C16 (amended): called with an active page, `typeAndSend` makes six attempts (counter 0 to
5), reloads the page once, makes six more attempts (counter again 0 to 5) and then throws,
provided no attempt delivers the text and the reload completes.  In every run it makes at most
twelve attempts and at most one completed reload; it returns exactly when an attempt
delivered, and that attempt and the submission are then the last things it did. -/
theorem typeAndSend_rounds (env : Env) (text : JSString) (s : St) (n : Nat)
    (hpage : s.page = .handle n) :
    ((∀ k, env.attempt k ≠ .delivered) → (∀ k, env.reload k = .ok ()) →
      ∃ e s1, typeAndSend env text s = .threw e s1 ∧
        s1.trace = s.trace ++
          [.typeAndSend text, .attempt 0 false, .attempt 1 false, .attempt 2 false,
            .attempt 3 false, .attempt 4 false, .attempt 5 false, .reload,
            .attempt 0 false, .attempt 1 false, .attempt 2 false,
            .attempt 3 false, .attempt 4 false, .attempt 5 false]) ∧
    (∃ acts, (typeAndSend env text s).state.trace = s.trace ++ acts ∧
      acts.countP Act.isAttempt ≤ 12 ∧ acts.countP Act.isReload ≤ 1 ∧
      (((∀ k, Act.attempt k true ∉ acts) ∧ (typeAndSend env text s).value? = none) ∨
       (∃ pre k, acts = pre ++ [.attempt k true, .submit text] ∧
         (∀ j, Act.attempt j true ∉ pre) ∧ (typeAndSend env text s).value? = some ()))) := by
  constructor
  · intro hfail hreload
    obtain ⟨e, he⟩ := typeAndSend_all_fail env text s n hpage hfail hreload
    exact ⟨e, _, he, rfl⟩
  · obtain ⟨acts, ht, hs⟩ := typeAndSend_success env text s
    obtain ⟨_, a1, t1, c1⟩ := typeAndSend_attempts env text s
    obtain ⟨_, a2, t2, c2⟩ := typeAndSend_reloads env text s
    have e1 : a1 = acts := List.append_cancel_left (t1.symm.trans ht)
    have e2 : a2 = acts := List.append_cancel_left (t2.symm.trans ht)
    rw [e1] at c1
    rw [e2] at c2
    exact ⟨acts, ht, c1, c2, hs⟩

/-- C16 (witness): the input is never interactable and the reload completes. -/
theorem typeAndSend_rounds_witness :
    ready.page = .handle 1 ∧
    ∃ e s1, typeAndSend stuckInput (js "gm") ready = .threw e s1 ∧
      s1.trace = ready.trace ++
        [.typeAndSend (js "gm"), .attempt 0 false, .attempt 1 false, .attempt 2 false,
          .attempt 3 false, .attempt 4 false, .attempt 5 false, .reload,
          .attempt 0 false, .attempt 1 false, .attempt 2 false,
          .attempt 3 false, .attempt 4 false, .attempt 5 false] :=
  ⟨rfl, (typeAndSend_rounds stuckInput (js "gm") ready 1 rfl).1
    (fun _ h => AttemptOutcome.noConfusion h) (fun _ => rfl)⟩

/-- C17: when the timer callbacks of a run of `waitForStableResponse(prevCount, maxMs)` come
300 ms apart (at `start + 300`, `start + 600`, ...), `maxMs` is not negative and the run is
followed until `maxMs` has passed, the wait resolves, and it does so no later than
`maxMs + 300` ms after its start, whatever the other callbacks and the document do; when the
entry list is never longer than `prevCount` it resolves with the empty text. -/
theorem stable_wait_resolves_in_time (prevCount : Nat) (stableMs maxMs : Int) (run : PageRun)
    (n : Nat) (hmax : 0 ≤ maxMs)
    (hticks : tickTimes run.events =
      (List.range' 1 n).map (fun (i : Nat) => run.start + 300 * (i : Int)))
    (hlong : maxMs < 300 * (n : Int)) :
    ∃ r, stableWait prevCount stableMs maxMs run = some r ∧
      r.time ≤ run.start + maxMs + 300 ∧
      (run.dom0.entryList.length ≤ prevCount →
        (∀ e ∈ run.events, e.dom.entryList.length ≤ prevCount) → r.text = []) := by
  obtain ⟨r, h1, h2, h3⟩ := stableLoop_resolves prevCount stableMs maxMs run.start run.events
    (stableInit prevCount run.start run.dom0) 0 n hticks (by simpa using hmax)
    (by simpa using hlong)
  refine ⟨r, h1, h2, fun h0 hall => h3 ?_ hall⟩
  simp only [stableInit, gt_iff_lt, Nat.not_lt.2 h0, ↓reduceIte]

/-- C17 (witness): a wait of at most one second in which nothing is appended to four
entries, followed for four timer callbacks. -/
theorem stable_wait_resolves_in_time_witness :
    tickTimes (idleRun 5000 4).events =
      (List.range' 1 4).map (fun (i : Nat) => (idleRun 5000 4).start + 300 * (i : Int)) ∧
    ∃ r, stableWait 4 4000 1000 (idleRun 5000 4) = some r ∧
      r.time ≤ (idleRun 5000 4).start + 1000 + 300 ∧
      ((idleRun 5000 4).dom0.entryList.length ≤ 4 →
        (∀ e ∈ (idleRun 5000 4).events, e.dom.entryList.length ≤ 4) → r.text = []) :=
  ⟨by decide, stable_wait_resolves_in_time 4 4000 1000 (idleRun 5000 4) 4 (by decide)
    (by decide) (by decide)⟩

/-- C18: on the quick-send path, once the prompt is sent and the quick wait has returned
`quick`, one stable wait is made: with the deadline `RESPONSE_MAX_WAIT` from now when `quick`
is blank, and with the deadline `min(RESPONSE_MAX_WAIT, QUICK_SEND_MAX_MS + RESPONSE_STABLE_MS)`
from now otherwise.  When that wait returns `stable`, the turn returns the cleanup of the text
chosen as the specification says: `stable` when `quick` is blank; otherwise `stable` when it
is non-blank and `quick` when it is `null` or blank. -/
theorem quick_send_choice (cfg : Config) (env : Env) (fuel : Nat) (message : JSString)
    (s s1 s2 s3 : St) (baseline : Counts) (quick : JSString) (stable : Option JSString)
    (hq : cfg.QUICK_SEND = true)
    (hsend : sendPrompt env message s = .ok baseline s1)
    (hquick : waitForFirstNonLoading env baseline.msgCount cfg.QUICK_SEND_MAX_MS s1 =
      .ok quick s2)
    (hstable : waitForFinalStable cfg env fuel baseline.msgCount
      (env.clock s2.step +
        (if nonBlank quick = false then cfg.RESPONSE_MAX_WAIT
         else min cfg.RESPONSE_MAX_WAIT (cfg.QUICK_SEND_MAX_MS + cfg.RESPONSE_STABLE_MS)))
      { s2 with step := s2.step + 1 } = .ok stable s3) :
    turnBody cfg env fuel message s = .ok (finishTurn (quickSendChoiceSpec quick stable)) s3 := by
  unfold sendPrompt at hsend
  unfold turnBody
  simp only [run_bind] at hsend ⊢
  cases h1 : countMessages env s with
  | threw e sa => simp [h1] at hsend
  | pending sa => simp [h1] at hsend
  | ok b sa =>
    simp only [h1] at hsend ⊢
    cases h2 : typeAndSend env message sa with
    | threw e sb => simp [h2] at hsend
    | pending sb => simp [h2] at hsend
    | ok u sb =>
      simp only [h2] at hsend ⊢
      cases h3 : getPage sb with
      | threw e sc => simp [h3] at hsend
      | pending sc => simp [h3] at hsend
      | ok p sc =>
        simp only [h3] at hsend ⊢
        cases h4 : awaitOp env.dom sc with
        | threw e sd => simp [h4] at hsend
        | pending sd => simp [h4] at hsend
        | ok d sd =>
          simp only [h4, run_pure, Res.ok.injEq] at hsend ⊢
          obtain ⟨hb, hs⟩ := hsend
          subst hb
          subst hs
          simp only [hq, ↓reduceIte, run_bind, hquick]
          cases hnb : nonBlank quick with
          | false =>
            simp only [hnb, ↓reduceIte] at hstable
            simp only [Bool.not_false, ↓reduceIte, deadlineIn, run_bind, dateNow_ok, run_pure,
              hstable, quickSendChoiceSpec, hnb, finishTurn]
            cases stable with
            | none => rfl
            | some t => cases ht : nonBlank t <;> simp [ht, run_pure]
          | true =>
            simp only [hnb, Bool.true_eq_false, ↓reduceIte] at hstable
            simp only [Bool.not_true, Bool.false_eq_true, ↓reduceIte, deadlineIn, run_bind,
              dateNow_ok, run_pure, hstable, quickSendChoiceSpec, hnb, finishTurn]
            cases stable with
            | none => simp [hnb, run_pure, run_bind]
            | some t => cases ht : nonBlank t <;> simp [ht, hnb, run_pure, run_bind]

/-- C18 (witness): the turn of `scriptQuickGm`: the quick text and the result of the bounded
stable wait are both the reply, and the turn returns its cleanup. -/
theorem quick_send_choice_witness :
    sendPrompt (scripted scriptQuickGm) (js "gm") ready =
      .ok { pairCount := 0, msgCount := 0 }
        (sendPrompt (scripted scriptQuickGm) (js "gm") ready).state ∧
    turnBody quickSend (scripted scriptQuickGm) 3 (js "gm") ready =
      .ok (finishTurn (quickSendChoiceSpec replyGm (some replyGm)))
        (turnBody quickSend (scripted scriptQuickGm) 3 (js "gm") ready).state ∧
    finishTurn (quickSendChoiceSpec replyGm (some replyGm)) = some replyGm :=
  ⟨by decide!,
    quick_send_choice quickSend (scripted scriptQuickGm) 3 (js "gm") ready
      (sendPrompt (scripted scriptQuickGm) (js "gm") ready).state
      (waitForFirstNonLoading (scripted scriptQuickGm) 0 5000
        (sendPrompt (scripted scriptQuickGm) (js "gm") ready).state).state
      (turnBody quickSend (scripted scriptQuickGm) 3 (js "gm") ready).state
      { pairCount := 0, msgCount := 0 } replyGm (some replyGm) rfl (by decide!) (by decide!)
      (by decide!),
    by decide!⟩

/-- C19: Scenario A on the stable-send path.  The baseline count is 4 and the prompt `gm` is
sent; the stabilization wait from count 4 gives `gm, rise and shine`, the count is then 5, and
the clock has reached the deadline when the loop looks at it again (the wait ended at its
timeout).  The turn returns `gm, rise and shine`. -/
theorem scenarioA_returns (cfg : Config) (env : Env) (fuel : Nat) (s s1 sB sC : St)
    (baseline counts : Counts)
    (hq : cfg.QUICK_SEND = false)
    (hpage : s.page.isSet = true)
    (hsend : sendPrompt env (js "gm") { s with trace := s.trace ++ [.turn (js "gm") false] } =
      .ok baseline s1)
    (hbase : baseline.msgCount = 4)
    (hbefore : env.clock (s1.step + 1) < env.clock s1.step + cfg.RESPONSE_MAX_WAIT)
    (hwait : waitForStableResponse cfg env 4
      (some (max 1000 (env.clock s1.step + cfg.RESPONSE_MAX_WAIT - env.clock (s1.step + 2))))
      { s1 with step := s1.step + 3 } = .ok (js "gm, rise and shine") sB)
    (hcount : countMessages env sB = .ok counts sC)
    (hgrown : counts.msgCount = 5)
    (hafter : env.clock s1.step + cfg.RESPONSE_MAX_WAIT ≤ env.clock sC.step) :
    getResponseFromNotebookLM cfg env (fuel + 2) (js "gm") false s =
      .ok (some (js "gm, rise and shine")) { sC with step := sC.step + 1 } := by
  have hbody : turnBody cfg env (fuel + 2) (js "gm")
      { s with trace := s.trace ++ [.turn (js "gm") false] } =
      .ok (some (js "gm, rise and shine")) { sC with step := sC.step + 1 } := by
    unfold sendPrompt at hsend
    unfold turnBody
    simp only [run_bind] at hsend ⊢
    cases h1 : countMessages env { s with trace := s.trace ++ [.turn (js "gm") false] } with
    | threw e sa => simp [h1] at hsend
    | pending sa => simp [h1] at hsend
    | ok b sa =>
      simp only [h1] at hsend ⊢
      cases h2 : typeAndSend env (js "gm") sa with
      | threw e sb => simp [h2] at hsend
      | pending sb => simp [h2] at hsend
      | ok u sb =>
        simp only [h2] at hsend ⊢
        cases h3 : getPage sb with
        | threw e sc => simp [h3] at hsend
        | pending sc => simp [h3] at hsend
        | ok p sc =>
          simp only [h3] at hsend ⊢
          cases h4 : awaitOp env.dom sc with
          | threw e sd => simp [h4] at hsend
          | pending sd => simp [h4] at hsend
          | ok d sd =>
            simp only [h4, run_pure, Res.ok.injEq] at hsend ⊢
            obtain ⟨hb, hs⟩ := hsend
            subst hb
            subst hs
            have hnb : nonBlank (js "gm, rise and shine") = true := by decide
            have hclean : cleanResponse (js "gm, rise and shine") = js "gm, rise and shine" := by
              decide
            have hnot : ¬ env.clock sC.step < env.clock sd.step + cfg.RESPONSE_MAX_WAIT :=
              not_lt.2 hafter
            simp only [hq, Bool.false_eq_true, ↓reduceIte, deadlineIn, run_bind, dateNow_ok,
              run_pure, waitForFinalStable, waitForFinalStableLoop, hbase, hbefore, hwait, hnb,
              Bool.not_true, hcount, hgrown, gt_iff_lt, Nat.lt_add_one, hnot, orNull, hclean]
            rfl
  unfold getResponseFromNotebookLM getResponseWith
  simp only [run_bind, getSt, hpage, Bool.not_true, Bool.false_eq_true, ↓reduceIte, run_pure,
    emit, modifySt, run_tryCatch, hbody]

/-- C19 (witness): the turn of `scriptScenarioA`: the new entry reads `gm`, then
`gm, rise and shine`; the stabilization wait hands the text back when its 60 s are over. -/
theorem scenarioA_returns_witness :
    sendPrompt (scripted scriptScenarioA) (js "gm")
        { ready with trace := ready.trace ++ [.turn (js "gm") false] } =
      .ok { pairCount := 2, msgCount := 4 }
        { ready with step := 3
                     trace := [.turn (js "gm") false, .typeAndSend (js "gm"), .attempt 0 true,
                       .submit (js "gm")] } ∧
    stableWait 4 4000 60000
        { start := 0, dom0 := oneMore (js "gm")
          events := ticks 0 8 (oneMore (js "gm")) ++
            ticks 2400 193 (oneMore (js "gm, rise and shine")) } =
      some { text := js "gm, rise and shine", time := 60300 } ∧
    getResponseFromNotebookLM defaultWaits (scripted scriptScenarioA) (0 + 2) (js "gm") false
        ready =
      .ok (some (js "gm, rise and shine"))
        { ready with
          step := 9
          trace := [.turn (js "gm") false, .typeAndSend (js "gm"), .attempt 0 true,
            .submit (js "gm"), .stableResolved 4 60000 (js "gm, rise and shine")] } :=
  ⟨by decide!, by decide!,
    scenarioA_returns defaultWaits (scripted scriptScenarioA) 0 ready
      { ready with step := 3
                   trace := [.turn (js "gm") false, .typeAndSend (js "gm"), .attempt 0 true,
                     .submit (js "gm")] }
      { ready with step := 7
                   trace := [.turn (js "gm") false, .typeAndSend (js "gm"), .attempt 0 true,
                     .submit (js "gm"), .stableResolved 4 60000 (js "gm, rise and shine")] }
      { ready with step := 8
                   trace := [.turn (js "gm") false, .typeAndSend (js "gm"), .attempt 0 true,
                     .submit (js "gm"), .stableResolved 4 60000 (js "gm, rise and shine")] }
      { pairCount := 2, msgCount := 4 } { pairCount := 3, msgCount := 5 }
      rfl rfl (by decide!) rfl (by decide!) (by decide!) (by decide!) rfl (by decide!)⟩

/-- C20 (the code at the failing input): on the quick-send path, with one exchange in the chat
(baseline count 2) and nothing appended after the prompt `how are you` is delivered, the
timer of `waitForFirstNonLoading` reads the last entry without comparing the list with the
baseline and resolves with the reply to the earlier message; the stable wait gives `null`, the
turn returns that earlier reply, and the handler, whose `lastReply` is still `null`, sends
it. -/
theorem nothing_new_quick_send_replies :
    (countOf (chatOf [(js "gm", replyGm)])).msgCount = 2 ∧
    (chatOf [(js "gm", replyGm)]).entryList.length = 2 ∧
    getResponseFromNotebookLM quickSend (scripted scriptNothingNew) 3 (js "how are you") false
        ready =
      .ok (some replyGm)
        { ready with
          step := 8
          trace := [.turn (js "how are you") false, .typeAndSend (js "how are you"),
            .attempt 0 true, .submit (js "how are you"), .firstResolved 2 5000 replyGm,
            .stableResolved 2 6000 []] } ∧
    (onMessagesUpsert quickSend (scripted scriptNothingNew) 3 (inbound "MSG-B" "how are you")
      ready).state.trace.filter Act.isRouter =
      [ .askNotebook (js "how are you"),
        .sendMessage (some (js "911234567890@s.whatsapp.net")) replyGm, .replied replyGm ] := by
  decide!

/-- C21: when every value thrown by a page or browser operation carries a message (it is an
`Error`), a call of `getResponseFromNotebookLM` throws nothing, whatever the message, the
state and the errors raised during the turn and during the recovery; and it returns (a string
or `null`) when moreover the clock does not run backwards, every in-page wait is followed
until its timeout, and the loop budget exceeds the number of entries the chat ever shows. -/
theorem getResponse_never_throws (cfg : Config) (env : Env) (bound fuel : Nat)
    (message : JSString) (retrying : Bool) (s : St) (hmsg : env.messaged) :
    (getResponseFromNotebookLM cfg env fuel message retrying s).error? = none ∧
    (env.patient cfg bound → bound + 1 ≤ fuel →
      ∃ v s1, getResponseFromNotebookLM cfg env fuel message retrying s = .ok v s1) := by
  constructor
  · have h := (@ends_getResponseFromNotebookLM False cfg env bound fuel hmsg
      (fun hs => hs.elim) (fun hs => hs.elim) message retrying s).2
    cases hr : getResponseFromNotebookLM cfg env fuel message retrying s with
    | ok v s1 => rfl
    | pending s1 => rfl
    | threw e s1 =>
      rw [hr] at h
      exact h.1.elim
  · intro hp hf
    have h := (@ends_getResponseFromNotebookLM True cfg env bound fuel hmsg
      (fun _ => hp) (fun _ => hf) message retrying s).2
    cases hr : getResponseFromNotebookLM cfg env fuel message retrying s with
    | ok v s1 => exact ⟨v, s1, rfl⟩
    | pending s1 =>
      rw [hr] at h
      exact (h trivial).elim
    | threw e s1 =>
      rw [hr] at h
      exact h.1.elim

/-- C21 (witness): with the session lost, the first read of the document throws "Target
closed"; the call recovers and returns `null`, and throws nothing. -/
theorem getResponse_never_throws_witness :
    lostSessionEnv.messaged ∧ lostSessionEnv.patient shortWaits 2 ∧ 2 + 1 ≤ 3 ∧
    (getResponseFromNotebookLM shortWaits lostSessionEnv 3 (js "gm") false ready).value? =
      some none ∧
    (getResponseFromNotebookLM shortWaits lostSessionEnv 3 (js "gm") false ready).error? = none ∧
    ∃ v s1, getResponseFromNotebookLM shortWaits lostSessionEnv 3 (js "gm") false ready =
      .ok v s1 :=
  have hm : lostSessionEnv.messaged := by
    refine ⟨?_, ?_, ?_, ?_, ?_, ?_⟩ <;> intro k e h <;>
      simp [lostSessionEnv, calmEnv, targetClosed, JSError.ofText] at h ⊢
    subst h
    simp
  have hp : lostSessionEnv.patient shortWaits 2 := by
    refine ⟨?_, ?_, ?_⟩
    · intro i j hij
      simp only [lostSessionEnv, calmEnv]
      omega
    · intro k run h
      simp only [lostSessionEnv, calmEnv, Except.ok.injEq] at h
      subst h
      exact ⟨_, List.mem_singleton.2 rfl, rfl, by decide⟩
    · intro k d h
      simp [lostSessionEnv] at h
  have h := getResponse_never_throws shortWaits lostSessionEnv 2 3 (js "gm") false ready hm
  ⟨hm, hp, Nat.le_refl 3, by decide!, h.1, h.2 hp (Nat.le_refl 3)⟩

/-- C22 (as stated, refuted): the cleanup turns `see [[1]2] for details` into
`see [2] for details`, which holds a citation marker: the replacement of the markers passes
over the text once and does not look again at what it has joined.  The removal of numbered
items makes one out of `[1.2]` as well. -/
theorem cleanup_leaves_citation_marker :
    cleanResponse (js "see [[1]2] for details") = js "see [2] for details" ∧
    containsCitation (cleanResponse (js "see [[1]2] for details")) = true ∧
    cleanResponse (js "table [1.2] is new") = js "table [2] is new" := by
  decide

/-- C22 (amended): when every `[` of the response text is the start of a citation marker
(`[`, one or more decimal digits, `]`), the text produced by the cleanup contains no `[` and
so no citation marker. -/
theorem cleanup_no_marker_when_cited (response : JSString)
    (h : bracketsCited response = true) :
    0x5B ∉ cleanResponse response ∧ containsCitation (cleanResponse response) = false := by
  have hno : 0x5B ∉ cleanResponse response := by
    intro hmem
    unfold cleanResponse at hmem
    rcases cleanup_tail_mem _ _ hmem with h1 | h1
    · exact replaceAll_citation_no_bracket _ _ (Nat.lt_succ_self _) h h1
    · exact absurd h1 (by decide)
  refine ⟨hno, ?_⟩
  unfold containsCitation
  rw [List.any_eq_false]
  intro t ht hsome
  have hhead := citationPattern_head t hsome
  apply hno
  have hsuf := (List.mem_tails _ _).1 ht
  cases t with
  | nil => simp at hhead
  | cons c r =>
    simp only [List.head?_cons, Option.some.injEq] at hhead
    exact hsuf.subset (by rw [hhead]; exact List.mem_cons_self _ _)

/-- C22 (witness): a reply with two citation markers and no other bracket. -/
theorem cleanup_no_marker_when_cited_witness :
    bracketsCited (js "It rained [1] all day [23].") = true ∧
    cleanResponse (js "It rained [1] all day [23].") = js "It rained all day ." ∧
    containsCitation (cleanResponse (js "It rained [1] all day [23].")) = false :=
  ⟨by decide, by decide,
    (cleanup_no_marker_when_cited (js "It rained [1] all day [23].") (by decide)).2⟩

/-- C23: the text produced by the cleanup does not start and does not end with a white-space
unit, its only white-space units are spaces, and no two spaces are neighbours. -/
theorem cleanup_whitespace_normal (response : JSString) :
    (∀ c, (cleanResponse response).head? = some c → isWhiteSpace c = false) ∧
    (∀ c, (cleanResponse response).getLast? = some c → isWhiteSpace c = false) ∧
    (∀ c ∈ cleanResponse response, isWhiteSpace c = true → c = 0x20) ∧
    noDoubleSpace (cleanResponse response) = true := by
  have hshape : cleanResponse response =
      trim (collapseRunsSpec (replaceAll numberedPattern (replaceAll trailingNumbersPattern
        (replaceAll trailingNumberPattern (replaceAll citationPattern response))))) := by
    unfold cleanResponse
    rw [show ∀ s, replaceAll spacesPattern s = collapseRunsSpec s from
      fun s => replaceAll_spaces _ _ (Nat.lt_succ_self _)]
  rw [hshape]
  exact ⟨trim_head _, trim_last _, (trim_collapse_normal _).1, (trim_collapse_normal _).2⟩

/-- C23 (witness): a reply with citation markers, line breaks and doubled spaces. -/
theorem cleanup_whitespace_normal_witness :
    cleanResponse (js " It rained [1]  all\n day,\t they said [2] . ") =
      js "It rained all day, they said ." ∧
    noDoubleSpace (cleanResponse (js " It rained [1]  all\n day,\t they said [2] . ")) = true :=
  ⟨by decide, (cleanup_whitespace_normal (js " It rained [1]  all\n day,\t they said [2] . ")).2.2.2⟩

/-- C24: one handler run changes the dedup variables only when a send completes in it (the
number of completed sends grows by one).  They are unchanged after an event whose sender is
not allowed, an event without text, an event with the stored id and text, and an event whose
turn returns `null`, the empty text or the text of `lastReply`. -/
theorem dedup_changes_only_on_send (cfg : Config) (env : Env) (fuel : Nat)
    (m : List WAMessage) (s : St) :
    ((onMessagesUpsert cfg env fuel m s).state.dedup ≠ s.dedup →
      repliedCount (onMessagesUpsert cfg env fuel m s).state.trace = repliedCount s.trace + 1) ∧
    (∀ msg rest, m = msg :: rest → allowed cfg (msg.remoteJid.getD []) = false →
      (onMessagesUpsert cfg env fuel m s).state.dedup = s.dedup) ∧
    (∀ msg rest content, m = msg :: rest → msg.message = some content → textOf content = [] →
      (onMessagesUpsert cfg env fuel m s).state.dedup = s.dedup) ∧
    (∀ id text, eventKey m = some (id, text) → s.dedup.lastMsgId = some id →
      s.dedup.lastMsgText = some text →
      (onMessagesUpsert cfg env fuel m s).state.dedup = s.dedup) ∧
    (∀ msg rest content resp s2, m = msg :: rest → msg.message = some content →
      getResponseFromNotebookLM cfg env fuel (textOf content) false
        { s with trace := s.trace ++ [.askNotebook (textOf content)] } = .ok resp s2 →
      (resp = none ∨ resp = some [] ∨ resp = s.dedup.lastReply) →
      (onMessagesUpsert cfg env fuel m s).state.dedup = s.dedup) := by
  obtain ⟨h1, h2, h3, _⟩ := onMessagesUpsert_step cfg env fuel m s
  refine ⟨?_, ?_, ?_, ?_, ?_⟩
  · intro hne
    by_contra hcount
    apply hne
    apply h3
    omega
  · intro msg rest hm ha
    subst hm
    rw [onMessagesUpsert_not_allowed cfg env fuel msg rest s ha]
    rfl
  · intro msg rest content hm hmsg htext
    subst hm
    obtain ⟨message, fromMe, remoteJid, mid⟩ := msg
    simp only at hmsg
    subst hmsg
    have hstate : (onMessagesUpsert cfg env fuel
        ({ message := some content, fromMe := fromMe, remoteJid := remoteJid, id := mid } :: rest)
        s).state = s := by
      unfold onMessagesUpsert
      dsimp only [List.head?_cons]
      cases fromMe with
      | true => rfl
      | false =>
        cases ha : allowed cfg (remoteJid.getD []) with
        | false => rfl
        | true =>
          rw [htext]
          rfl
    rw [hstate]
  · intro id text hkey hid htext
    rw [onMessagesUpsert_duplicate cfg env fuel m id text hkey s hid htext]
    rfl
  · intro msg rest content resp s2 hm hmsg hturn hresp
    subst hm
    have hq := quiet_getResponseFromNotebookLM (G := quietFrame Act.isRouter) (n := 0)
      (fun _ h => h) cfg env fuel (textOf content) false
      { s with trace := s.trace ++ [.askNotebook (textOf content)] }
    rw [hturn] at hq
    rcases onMessagesUpsert_unanswered cfg env fuel msg rest content s s2 resp hmsg hturn hresp
      with h | h
    · rw [h]
    · rw [h]
      exact hq.1

/-- C24 (witness): the event `MSG-A`/`gm` is answered, an event from a sender that is not
allowed follows; the dedup variables are those the first run left. -/
theorem dedup_changes_only_on_send_witness :
    allowed phoneOnly (js "15550001111@s.whatsapp.net") = false ∧
    (onMessagesUpsert phoneOnly (scripted scriptABA) 3
      (inboundFrom "15550001111@s.whatsapp.net" "MSG-X" "hello")
      (onMessagesUpsert phoneOnly (scripted scriptABA) 3 (inbound "MSG-A" "gm")
        ready).state).state.dedup =
      (onMessagesUpsert phoneOnly (scripted scriptABA) 3 (inbound "MSG-A" "gm")
        ready).state.dedup :=
  ⟨by decide,
    (dedup_changes_only_on_send phoneOnly (scripted scriptABA) 3
      (inboundFrom "15550001111@s.whatsapp.net" "MSG-X" "hello")
      (onMessagesUpsert phoneOnly (scripted scriptABA) 3 (inbound "MSG-A" "gm")
        ready).state).2.1 _ _ rfl (by decide)⟩

/-- C25 (the code at the failing input): in the turn of `scriptTargetClosed` the recovery
calls `initNotebookLM`, which completes and sets `page` to a handle; the assignment
`page = await initNotebookLM()` then leaves `page` undefined, and a later call of
`getResponseFromNotebookLM` returns `null` at the page guard: nothing is appended to the
trace, no prompt is submitted. -/
theorem page_unset_after_recovery :
    turnBody shortWaits (scripted scriptTargetClosed) 3 (js "how are you")
        { ready with trace := ready.trace ++ [.turn (js "how are you") false] } =
      .threw targetClosed targetClosedThrown ∧
    (initNotebookLM shortWaits (scripted scriptTargetClosed)
      (afterClose targetClosedThrown)).value? = some () ∧
    (initNotebookLM shortWaits (scripted scriptTargetClosed)
      (afterClose targetClosedThrown)).state.page = .handle 5 ∧
    getResponseFromNotebookLM shortWaits (scripted scriptTargetClosed) 3 (js "how are you") false
      ready = .ok none afterRecovery ∧
    afterRecovery.page = .undefined ∧
    getResponseFromNotebookLM shortWaits (scripted scriptTargetClosed) 3 (js "gm") false
      afterRecovery = .ok none afterRecovery := by
  decide!

/-- C26 (the code at the failing input): with `prevCount` 2 and a document that shows two
entries throughout, the first timer callback of `waitForFirstNonLoading` resolves with the
text of the second entry, which was there at the baseline; the entry list is never longer
than `prevCount`. -/
theorem first_wait_returns_baseline_text :
    staleRun.dom0.entryList.length = 2 ∧
    (∀ e ∈ staleRun.events, e.dom.entryList.length = 2) ∧
    firstWait 2 5000 staleRun = some { text := replyGm, time := 200 } := by
  decide

/-- C27: every resolution of `waitForStableResponse` is made by a timer callback, and unless
the timeout has passed at that callback (`Date.now() - start > maxMs`) the text is the text of
the target, which was the last entry of a list longer than `prevCount`; it is not empty and
not classified as loading; and there is a callback `c`, at least `stableMs` before the
resolving one by the clock, since which nothing changed: `c` itself, unless it was a content
mutation, read this very text (from the last entry when it set the target, from the target
otherwise), every timer callback after `c` up to and including the resolving one read this
very text from the target, no body-observer callback after `c` saw a list longer than
`prevCount`, and no content mutation after `c` was observed. -/
theorem stable_wait_resolves_stable (prevCount : Nat) (stableMs maxMs : Int) (run : PageRun)
    (r : Resolution) (h : stableWait prevCount stableMs maxMs run = some r) :
    ∃ pre e post, run.events = pre ++ e :: post ∧ e.kind = .tick ∧ r.time = e.now ∧
      (maxMs < e.now - run.start ∨
        ∃ id, targetBeyond prevCount (run.dom0 :: (pre ++ [e]).map (fun x => x.dom)) id ∧
          (stableVars prevCount stableMs maxMs run.start
            (stableInit prevCount run.start run.dom0) (pre ++ [e])).target = some id ∧
          r.text = getTextFromMessage (e.dom.find id) ∧ r.text ≠ [] ∧
          isLoading r.text = false ∧
          ∃ before c quiet, pre ++ [e] = before ++ c :: quiet ∧ stableMs ≤ e.now - c.now ∧
            (c.kind ≠ .contentMutation →
              r.text = getTextFromMessage c.dom.entryList.getLast? ∨
              r.text = getTextFromMessage (c.dom.find id)) ∧
            ∀ q1 m q2, quiet = q1 ++ m :: q2 →
              recordsNoChange prevCount run.dom0 id r.text (before ++ c :: q1) m) := by
  have hinit : ∀ id, (stableInit prevCount run.start run.dom0).target = some id →
      targetBeyond prevCount [run.dom0] id := by
    intro id hid
    unfold stableInit at hid
    simp only at hid
    split at hid
    · rename_i hlen
      exact ⟨run.dom0, by simp, hlen, hid⟩
    · cases hid
  obtain ⟨pre, e, post, hev, hk, ht, hc⟩ :=
    stableLoop_resolution prevCount stableMs maxMs run.start r run.events _ [run.dom0] hinit h
  refine ⟨pre, e, post, hev, hk, ht, ?_⟩
  rcases hc with hc | ⟨id, c0, c1, c2, c3, c4, c5, c6⟩
  · exact Or.inl hc
  · refine Or.inr ⟨id, c0, c1, c2, c3, c4, ?_⟩
    rcases stableVars_quiet prevCount stableMs maxMs run.start run.dom0 (pre ++ [e]) with
      h0 | ⟨before, c, quiet, hsplit, hlc, hread, hq⟩
    · rw [c5] at h0
      exact absurd h0 c3
    · rw [hlc] at c6
      rw [c5] at hq hread
      refine ⟨before, c, quiet, hsplit, c6, fun hc => ?_, hq id c1⟩
      rcases hread hc with h1 | ⟨id2, h1, h2⟩
      · exact Or.inl h1
      · rw [c1] at h1
        cases h1
        exact Or.inr h2

/-- C27 (witness): the reply to `gm` is in place when the wait starts; it is first read 300 ms
later and the wait resolves with it at 1500 ms, well before the 6 s are over. -/
theorem stable_wait_resolves_stable_witness :
    stableWait 0 1000 6000 settledRun = some { text := replyGm, time := 1500 } ∧
    ∃ pre e post, settledRun.events = pre ++ e :: post ∧ e.kind = .tick ∧
      (1500 : Int) = e.now ∧
      (6000 < e.now - settledRun.start ∨
        ∃ id, targetBeyond 0 (settledRun.dom0 :: (pre ++ [e]).map (fun x => x.dom)) id ∧
          (stableVars 0 1000 6000 settledRun.start
            (stableInit 0 settledRun.start settledRun.dom0) (pre ++ [e])).target = some id ∧
          replyGm = getTextFromMessage (e.dom.find id) ∧ replyGm ≠ [] ∧
          isLoading replyGm = false ∧
          ∃ before c quiet, pre ++ [e] = before ++ c :: quiet ∧ 1000 ≤ e.now - c.now ∧
            (c.kind ≠ .contentMutation →
              replyGm = getTextFromMessage c.dom.entryList.getLast? ∨
              replyGm = getTextFromMessage (c.dom.find id)) ∧
            ∀ q1 m q2, quiet = q1 ++ m :: q2 →
              recordsNoChange 0 settledRun.dom0 id replyGm (before ++ c :: q1) m) :=
  ⟨by decide!, stable_wait_resolves_stable 0 1000 6000 settledRun
    { text := replyGm, time := 1500 } (by decide!)⟩

/-- C28: a text whose trimmed, lower-cased form has at least 50 units, does not contain three
consecutive full stops, does not end with the ellipsis glyph and contains none of the entries
of `loadingWords` is not classified as loading. -/
theorem isLoading_false_of_long_plain (text : JSString)
    (hlen : minAcceptLen ≤ (toLowerCase (trim text)).length)
    (hdots : includes (toLowerCase (trim text)) [dot, dot, dot] = false)
    (hglyph : (toLowerCase (trim text)).getLast? ≠ some ellipsis)
    (hwords : ∀ w ∈ loadingWords, includes (toLowerCase (trim text)) w = false) :
    isLoading text = false := by
  have hne : text.isEmpty = false := by
    cases text with
    | nil => simp [trim, toLowerCase, minAcceptLen] at hlen
    | cons c cs => rfl
  have hany : loadingWords.any (fun w => includes (toLowerCase (trim text)) w) = false := by
    rw [List.any_eq_false]
    intro w hw
    simp [hwords w hw]
  have hlast : ((toLowerCase (trim text)).getLast? == some ellipsis) = false := by
    simpa using hglyph
  unfold isLoading hasEllipses
  simp only [hne, Bool.false_eq_true, ↓reduceIte, hany, hdots, hlast, Bool.or_false,
    decide_eq_false_iff_not, not_lt]
  exact hlen

/-- C28 (witness): the reply to `gm`, 70 units long. -/
theorem isLoading_false_of_long_plain_witness :
    minAcceptLen ≤ (toLowerCase (trim replyGm)).length ∧ isLoading replyGm = false :=
  ⟨by decide, isLoading_false_of_long_plain replyGm (by decide) (by decide) (by decide)
    (by decide)⟩


/-- C29 (the code at the failing input): in a document with three messages outside any pair
and one pair that holds no message, `countMessages` takes its fallback selector
(`pairIndividuals.length || chatMessages.length`) and gives `msgCount` 3, while the waits,
which choose by `pairs.length`, compare `prevCount` with the empty list of individual
messages: the baseline is 3 and the list it is compared with has length 0. -/
theorem msgCount_differs_from_entry_list :
    (countOf flatChatThenEmptyPair).msgCount = 3 ∧ flatChatThenEmptyPair.entryList.length = 0 ∧
    flatChatThenEmptyPair.pairs.length = 1 ∧ flatChatThenEmptyPair.pairIndividuals = [] ∧
    flatChatThenEmptyPair.chatMessages.length = 3 := by
  decide

/-- C30: for a response text without a decimal digit the cleanup returns the text with every
run of white space replaced by one space and leading and trailing white space removed; the
units that are not white space are those of the response, in the same order. -/
theorem cleanup_without_digits (response : JSString)
    (h : ∀ c ∈ response, isDigit c = false) :
    cleanResponse response = normalizeSpacesSpec response ∧
    (cleanResponse response).filter (fun c => !isWhiteSpace c) =
      response.filter (fun c => !isWhiteSpace c) := by
  have h1 : replaceAll citationPattern response = response :=
    replaceAll_of_no_match _ _ _
      (fun t ht => citationPattern_of_no_digit t (no_digit_suffix h ht))
  have h2 : replaceAll trailingNumberPattern response = response :=
    replaceAll_of_no_match _ _ _
      (fun t ht => trailingNumberPattern_of_no_digit t (no_digit_suffix h ht))
  have h3 : replaceAll trailingNumbersPattern response = response :=
    replaceAll_of_no_match _ _ _
      (fun t ht => trailingNumbersPattern_of_no_digit t (no_digit_suffix h ht))
  have h4 : replaceAll numberedPattern response = response :=
    replaceAll_of_no_match _ _ _
      (fun t ht => numberedPattern_of_no_digit t (no_digit_suffix h ht))
  have h5 : replaceAll spacesPattern response = collapseRunsSpec response :=
    replaceAll_spaces _ _ (Nat.lt_succ_self _)
  have hclean : cleanResponse response = normalizeSpacesSpec response := by
    unfold cleanResponse normalizeSpacesSpec
    rw [h1, h2, h3, h4, h5]
  refine ⟨hclean, ?_⟩
  rw [hclean]
  unfold normalizeSpacesSpec
  rw [filter_trim, filter_collapseRunsSpec]

/-- C30 (witness): a reply with line breaks, tabs and doubled spaces. -/
theorem cleanup_without_digits_witness :
    (∀ c ∈ js "  Good morning!\n\n Hope\tyou  slept well. ", isDigit c = false) ∧
    cleanResponse (js "  Good morning!\n\n Hope\tyou  slept well. ") =
      js "Good morning! Hope you slept well." ∧
    normalizeSpacesSpec (js "  Good morning!\n\n Hope\tyou  slept well. ") =
      js "Good morning! Hope you slept well." :=
  ⟨by decide, by decide,
    (cleanup_without_digits (js "  Good morning!\n\n Hope\tyou  slept well. ")
      (by decide)).1 ▸ (by decide)⟩

end DigitalClone
